import Mathlib

/-! # SocialMeli backend: follow graph, post store and post feed

A shallow embedding of `internal/domain`, `internal/store/memory_store.go`,
`internal/store/interfaces.go`, `internal/service/product_service.go`,
`internal/service/user_service.go`, the method `DeletePost` of
`internal/store/sql_store.go` and `paginateSlice` of
`internal/http/pagination.go`, followed by theorems about it.

Modelling conventions

* Go `int` is `Int`.  The user-id counter is fed by caller-supplied ids
  (`SeedUsers`), so its arithmetic is wrapped to 64 bits (`wrapInt64`).  The
  post counter only moves in steps of one from `1`; it cannot wrap in fewer
  than `2^63 - 1` successful `AddPost` calls and is left unwrapped.
* A Go `map[K]V` is an association list (`GoMap`): `get` reads the first entry
  for a key, `set` overwrites it in place or appends, `delete` removes the key.
  Go leaves the iteration order of a map unspecified; the model iterates in
  list order, which is one of the permitted orders.
* `time.Time` is an instant, counted in nanoseconds since the Unix epoch
  (`Equal`, `Before` and `After` compare instants only).  `time.Now()` is an
  explicit argument.
* A `float64` that arrives in a request is the rational number it holds (the
  JSON decoder yields neither NaN nor an infinity), and comparisons are those
  of the numbers.  An arithmetic operation is the exact operation followed by
  the rounding of IEEE 754 binary64, to nearest with ties to even
  (`Float64.nearest`), with an infinity for a result beyond the largest
  float64 (`Float64`).  The sign of a zero is not represented.
* `strings.ToLower` maps every character through `unicode.ToLower`, which is
  the table of simple lower-case mappings of Unicode (`unicode.lowerRanges`).
  A Lean string is a sequence of Unicode scalar values, so a Go string that
  is not valid UTF-8 has no counterpart.
* A mutating method returns the new store together with its Go results; an
  `error` is `Option Err`, with `none` for `nil`.
* The mutex only serialises whole calls; every method is one atomic step.
* The services hold a `store.Store`; they are modelled over an arbitrary
  implementation of that interface (`Store σ`), of which `MemoryStore` is one.
* `sort.Slice` is modelled by an insertion sort; Go fixes its result only up to
  the order of elements that compare equal.
* The database behind `SQLStore` is the list of rows of each table; a
  statement is evaluated on those lists, and the database answers every
  statement (no driver error).
* A run-time panic (a slice bound out of range in `paginateSlice`) is the
  result `none`; the page arithmetic there is wrapped to 64 bits, since the
  page number comes from the request.
-/

namespace SocialMeli

/-! ## float64 arithmetic -/

/-- The result of a float64 operation on finite operands: a finite number or
an infinity (`neg` for the negative one). -/
inductive Float64 where
  | fin (q : Rat)
  | inf (neg : Bool)
  deriving DecidableEq, Repr

instance : Coe Rat Float64 := ⟨Float64.fin⟩

namespace Float64

/-- The power `2 ^ e` for an integer exponent. -/
def pow2 (e : Int) : Rat :=
  if 0 ≤ e then ((2 ^ e.toNat : Nat) : Rat) else 1 / ((2 ^ (-e).toNat : Nat) : Rat)

/-- The binary digits of `n` counted by halving, in at most `fuel` steps. -/
def bitsAux : Nat → Nat → Nat
  | 0, _ => 0
  | fuel + 1, n => if n = 0 then 0 else bitsAux fuel (n / 2) + 1

/-- The number of binary digits of `n`. -/
def bitLength (n : Nat) : Nat := bitsAux n n

/-- The binary exponent of a positive number `x`: the `e` with
`2 ^ e ≤ x < 2 ^ (e + 1)`. -/
def exponent (x : Rat) : Int :=
  let e0 : Int := (bitLength x.num.natAbs : Int) - (bitLength x.den : Int)
  if pow2 e0 ≤ x then e0 else e0 - 1

/-- To the nearest integer, a half to the even neighbour. -/
def roundEven (x : Rat) : Int :=
  let f := Rat.floor x
  if x - f < 1 / 2 then f
  else if 1 / 2 < x - f then f + 1
  else if f % 2 = 0 then f else f + 1

/-- The rounding of IEEE 754 binary64 (to nearest, ties to even) with the
exponent unbounded above: the nearest multiple of `2 ^ (e - 52)`, where `e` is
the exponent of `x`, and not below -1022 (the subnormal numbers). -/
def nearest (x : Rat) : Rat :=
  if x = 0 then 0
  else
    let e := max (exponent (if x < 0 then -x else x)) (-1022)
    (roundEven (x / pow2 (e - 52)) : Rat) * pow2 (e - 52)

/-- Whether a rounded number is beyond the largest float64, where the
operation returns an infinity. -/
def over (x : Rat) : Bool := decide (x ≤ -pow2 1024 ∨ pow2 1024 ≤ x)

end Float64

/-! ## internal/domain/models.go, account.go -/

/-- A `time.Time`, as nanoseconds since 1970-01-01T00:00:00Z. -/
abbrev Time := Int

structure User where
  ID : Int
  Name : String
  IsSeller : Bool
  deriving DecidableEq, Repr

structure Product where
  ProductID : Int
  ProductName : String
  Type_ : String
  Brand : String
  Color : String
  Notes : String
  ImageURL : String
  deriving DecidableEq, Repr

structure Post where
  PostID : Int
  UserID : Int
  Date : Time
  DateStr : String
  Product : Product
  Category : Int
  Price : Rat
  HasPromo : Bool
  Discount : Rat
  FinalPrice : Float64
  deriving DecidableEq, Repr

structure Account where
  ID : Int
  Name : String
  Email : String
  IsSeller : Bool
  AvatarURL : String
  CreatedAt : Time
  PasswordHash : String
  deriving DecidableEq, Repr

/-- The error values of the three packages.  `ErrDiscountMin` and
`ErrDiscountMax` stand for the two anonymous `errors.New` values of `Publish`. -/
inductive Err where
  | ErrIDEmpty
  | ErrIDGreaterThanZero
  | ErrDateEmpty
  | ErrFieldEmpty
  | ErrMaxLen40
  | ErrMaxLen15
  | ErrMaxLen25
  | ErrMaxLen80
  | ErrSpecialChars
  | ErrCategoryEmpty
  | ErrPriceEmpty
  | ErrPriceMax
  | ErrInvalidOrder
  | ErrDateFormat
  | ErrDiscountMin
  | ErrDiscountMax
  | ErrUserNotFound
  | ErrPostNotFound
  | ErrPostForbidden
  | ErrEmailTaken
  | ErrAccountNotFound
  deriving DecidableEq, Repr

/-! ## Go maps -/

/-- A Go `map[K]V`. -/
abbrev GoMap (K V : Type) := List (K × V)

namespace GoMap

variable {K V : Type} [DecidableEq K]

/-- The read `v, ok := m[k]`. -/
def get : GoMap K V → K → Option V
  | [], _ => none
  | (k', v) :: t, k => if k' = k then some v else get t k

/-- The write `m[k] = v`. -/
def set : GoMap K V → K → V → GoMap K V
  | [], k, v => [(k, v)]
  | (k', v') :: t, k, v => if k' = k then (k, v) :: t else (k', v') :: set t k v

/-- The builtin `delete(m, k)`. -/
def delete (m : GoMap K V) (k : K) : GoMap K V :=
  m.filter (fun e => decide (e.1 ≠ k))

/-- The keys visited by `for k := range m`. -/
def keys (m : GoMap K V) : List K := m.map Prod.fst

/-- Whether `m[k]` is present. -/
def has (m : GoMap K V) (k : K) : Bool := (get m k).isSome

end GoMap

/-- A Go `map[int]struct{}`. -/
abbrev IDSet := GoMap Int Unit

/-- Two's-complement wrap-around of a 64-bit `int`. -/
def wrapInt64 (x : Int) : Int := (x + 2 ^ 63) % 2 ^ 64 - 2 ^ 63

/-! ## Library function unicode.ToLower -/

namespace unicode

/-- The letters outside ASCII that have a lower-case form, from the simple
lower-case mappings of the Unicode Character Database (version 14; later
versions add letters of newer scripts), the table behind `unicode.ToLower`.
An entry `(lo, hi, step, to)` stands for the characters `lo, lo + step, ...,
hi`, of which `lo + i` has the lower-case form `to + i`. -/
def lowerRanges : List (Nat × Nat × Nat × Nat) :=
  [(192, 214, 1, 224), (216, 222, 1, 248), (256, 302, 2, 257), (304, 304, 1, 105),
   (306, 310, 2, 307), (313, 327, 2, 314), (330, 374, 2, 331), (376, 376, 1, 255),
   (377, 381, 2, 378), (385, 385, 1, 595), (386, 388, 2, 387), (390, 390, 1, 596),
   (391, 391, 1, 392), (393, 394, 1, 598), (395, 395, 1, 396), (398, 398, 1, 477),
   (399, 399, 1, 601), (400, 400, 1, 603), (401, 401, 1, 402), (403, 403, 1, 608),
   (404, 404, 1, 611), (406, 406, 1, 617), (407, 407, 1, 616), (408, 408, 1, 409),
   (412, 412, 1, 623), (413, 413, 1, 626), (415, 415, 1, 629), (416, 420, 2, 417),
   (422, 422, 1, 640), (423, 423, 1, 424), (425, 425, 1, 643), (428, 428, 1, 429),
   (430, 430, 1, 648), (431, 431, 1, 432), (433, 434, 1, 650), (435, 437, 2, 436),
   (439, 439, 1, 658), (440, 440, 1, 441), (444, 444, 1, 445), (452, 452, 1, 454),
   (453, 453, 1, 454), (455, 455, 1, 457), (456, 456, 1, 457), (458, 458, 1, 460),
   (459, 475, 2, 460), (478, 494, 2, 479), (497, 497, 1, 499), (498, 500, 2, 499),
   (502, 502, 1, 405), (503, 503, 1, 447), (504, 542, 2, 505), (544, 544, 1, 414),
   (546, 562, 2, 547), (570, 570, 1, 11365), (571, 571, 1, 572), (573, 573, 1, 410),
   (574, 574, 1, 11366), (577, 577, 1, 578), (579, 579, 1, 384), (580, 580, 1, 649),
   (581, 581, 1, 652), (582, 590, 2, 583), (880, 882, 2, 881), (886, 886, 1, 887),
   (895, 895, 1, 1011), (902, 902, 1, 940), (904, 906, 1, 941), (908, 908, 1, 972),
   (910, 911, 1, 973), (913, 929, 1, 945), (931, 939, 1, 963), (975, 975, 1, 983),
   (984, 1006, 2, 985), (1012, 1012, 1, 952), (1015, 1015, 1, 1016), (1017, 1017, 1, 1010),
   (1018, 1018, 1, 1019), (1021, 1023, 1, 891), (1024, 1039, 1, 1104), (1040, 1071, 1, 1072),
   (1120, 1152, 2, 1121), (1162, 1214, 2, 1163), (1216, 1216, 1, 1231), (1217, 1229, 2, 1218),
   (1232, 1326, 2, 1233), (1329, 1366, 1, 1377), (4256, 4293, 1, 11520), (4295, 4295, 1, 11559),
   (4301, 4301, 1, 11565), (5024, 5103, 1, 43888), (5104, 5109, 1, 5112), (7312, 7354, 1, 4304),
   (7357, 7359, 1, 4349), (7680, 7828, 2, 7681), (7838, 7838, 1, 223), (7840, 7934, 2, 7841),
   (7944, 7951, 1, 7936), (7960, 7965, 1, 7952), (7976, 7983, 1, 7968), (7992, 7999, 1, 7984),
   (8008, 8013, 1, 8000), (8025, 8031, 2, 8017), (8040, 8047, 1, 8032), (8072, 8079, 1, 8064),
   (8088, 8095, 1, 8080), (8104, 8111, 1, 8096), (8120, 8121, 1, 8112), (8122, 8123, 1, 8048),
   (8124, 8124, 1, 8115), (8136, 8139, 1, 8050), (8140, 8140, 1, 8131), (8152, 8153, 1, 8144),
   (8154, 8155, 1, 8054), (8168, 8169, 1, 8160), (8170, 8171, 1, 8058), (8172, 8172, 1, 8165),
   (8184, 8185, 1, 8056), (8186, 8187, 1, 8060), (8188, 8188, 1, 8179), (8486, 8486, 1, 969),
   (8490, 8490, 1, 107), (8491, 8491, 1, 229), (8498, 8498, 1, 8526), (8544, 8559, 1, 8560),
   (8579, 8579, 1, 8580), (9398, 9423, 1, 9424), (11264, 11311, 1, 11312),
   (11360, 11360, 1, 11361), (11362, 11362, 1, 619), (11363, 11363, 1, 7549),
   (11364, 11364, 1, 637), (11367, 11371, 2, 11368), (11373, 11373, 1, 593),
   (11374, 11374, 1, 625), (11375, 11375, 1, 592), (11376, 11376, 1, 594),
   (11378, 11378, 1, 11379), (11381, 11381, 1, 11382), (11390, 11391, 1, 575),
   (11392, 11490, 2, 11393), (11499, 11501, 2, 11500), (11506, 11506, 1, 11507),
   (42560, 42604, 2, 42561), (42624, 42650, 2, 42625), (42786, 42798, 2, 42787),
   (42802, 42862, 2, 42803), (42873, 42875, 2, 42874), (42877, 42877, 1, 7545),
   (42878, 42886, 2, 42879), (42891, 42891, 1, 42892), (42893, 42893, 1, 613),
   (42896, 42898, 2, 42897), (42902, 42920, 2, 42903), (42922, 42922, 1, 614),
   (42923, 42923, 1, 604), (42924, 42924, 1, 609), (42925, 42925, 1, 620), (42926, 42926, 1, 618),
   (42928, 42928, 1, 670), (42929, 42929, 1, 647), (42930, 42930, 1, 669),
   (42931, 42931, 1, 43859), (42932, 42946, 2, 42933), (42948, 42948, 1, 42900),
   (42949, 42949, 1, 642), (42950, 42950, 1, 7566), (42951, 42953, 2, 42952),
   (42960, 42960, 1, 42961), (42966, 42968, 2, 42967), (42997, 42997, 1, 42998),
   (65313, 65338, 1, 65345), (66560, 66599, 1, 66600), (66736, 66771, 1, 66776),
   (66928, 66938, 1, 66967), (66940, 66954, 1, 66979), (66956, 66962, 1, 66995),
   (66964, 66965, 1, 67003), (68736, 68786, 1, 68800), (71840, 71871, 1, 71872),
   (93760, 93791, 1, 93792), (125184, 125217, 1, 125218)]

/-- Go `unicode.ToLower`: the lower-case form of a character, the character
itself when it has none. -/
def ToLower (c : Char) : Char :=
  let n := c.toNat
  if n < 128 then c.toLower
  else
    match lowerRanges.find?
        (fun r => decide (r.1 ≤ n ∧ n ≤ r.2.1 ∧ (n - r.1) % r.2.2.1 = 0)) with
    | some r => Char.ofNat (r.2.2.2 + (n - r.1))
    | none => c

end unicode

/-! ## Library functions of package strings -/

namespace strings

/-- The white space of `unicode.IsSpace`. -/
def isSpace (c : Char) : Bool :=
  let n := c.toNat
  (9 ≤ n && n ≤ 13) || n = 32 || n = 0x85 || n = 0xA0 || n = 0x1680 ||
  (0x2000 ≤ n && n ≤ 0x200A) || n = 0x2028 || n = 0x2029 || n = 0x202F ||
  n = 0x205F || n = 0x3000

/-- Go `strings.TrimSpace`: drops leading and trailing white space. -/
def TrimSpace (s : String) : String :=
  String.mk ((s.data.dropWhile isSpace).reverse.dropWhile isSpace).reverse

/-- Go `strings.ToLower`: every character replaced by `unicode.ToLower` of it. -/
def ToLower (s : String) : String := String.mk (s.data.map unicode.ToLower)

end strings

/-! ## internal/store/memory_store.go -/

structure MemoryStore where
  users : GoMap Int User
  accounts : GoMap Int Account
  accountByEmail : GoMap String Int
  nextUserID : Int
  followers : GoMap Int IDSet
  followed : GoMap Int IDSet
  posts : List Post
  nextPostID : Int
  deriving DecidableEq, Repr

def NewMemoryStore : MemoryStore :=
  { users := [], accounts := [], accountByEmail := [], nextUserID := 1,
    followers := [], followed := [], posts := [], nextPostID := 1 }

namespace MemoryStore

/-- One iteration of the loop of `SeedUsers`. -/
def seedOne (s : MemoryStore) (u : User) : MemoryStore :=
  let s1 := { s with users := s.users.set u.ID u }
  if u.ID ≥ s1.nextUserID then { s1 with nextUserID := wrapInt64 (u.ID + 1) } else s1

def SeedUsers (s : MemoryStore) (users : List User) : MemoryStore :=
  users.foldl seedOne s

def GetUser (s : MemoryStore) (id : Int) : Option User := s.users.get id

def CreateUser (s : MemoryStore) (name : String) (isSeller : Bool) :
    MemoryStore × User × Option Err :=
  let id := s.nextUserID
  let u : User := { ID := id, Name := name, IsSeller := isSeller }
  ({ s with nextUserID := wrapInt64 (s.nextUserID + 1), users := s.users.set id u }, u, none)

def GetAccount (s : MemoryStore) (id : Int) : Option Account := s.accounts.get id

/-- The result of `CreateAccount`; `now` is the reading of `time.Now().UTC()`.
On `ErrEmailTaken` Go returns the zero `Account`, here `none`. -/
def CreateAccount (s : MemoryStore) (now : Time) (name email passwordHash : String)
    (isSeller : Bool) : MemoryStore × Option Account × Option Err :=
  let normEmail := strings.ToLower (strings.TrimSpace email)
  if (s.accountByEmail.get normEmail).isSome then
    (s, none, some Err.ErrEmailTaken)
  else
    let id := s.nextUserID
    let acc : Account :=
      { ID := id, Name := name, Email := normEmail, IsSeller := isSeller,
        AvatarURL := "", CreatedAt := now, PasswordHash := passwordHash }
    ({ s with
        nextUserID := wrapInt64 (s.nextUserID + 1)
        accounts := s.accounts.set id acc
        accountByEmail := s.accountByEmail.set normEmail id
        users := s.users.set id { ID := id, Name := name, IsSeller := isSeller } },
      some acc, none)

def UpdateAvatar (s : MemoryStore) (userID : Int) (avatarURL : String) :
    MemoryStore × Option Account × Option Err :=
  match s.accounts.get userID with
  | none => (s, none, some Err.ErrAccountNotFound)
  | some acc =>
    let acc1 := { acc with AvatarURL := avatarURL }
    ({ s with accounts := s.accounts.set userID acc1 }, some acc1, none)

/-- The inner set `m[k]` after the guard `if m[k] == nil { m[k] = map[int]struct{}{} }`. -/
def innerOrEmpty (m : GoMap Int IDSet) (k : Int) : IDSet :=
  match m.get k with
  | none => []
  | some set => set

def Follow (s : MemoryStore) (userID sellerID : Int) : MemoryStore × Option Err :=
  if (s.users.get userID).isNone then (s, some Err.ErrUserNotFound)
  else if (s.users.get sellerID).isNone then (s, some Err.ErrUserNotFound)
  else
    ({ s with
        followers := s.followers.set sellerID ((innerOrEmpty s.followers sellerID).set userID ())
        followed := s.followed.set userID ((innerOrEmpty s.followed userID).set sellerID ()) },
      none)

/-- The statement `if m[k] != nil { delete(m[k], x) }`. -/
def deleteInner (m : GoMap Int IDSet) (k x : Int) : GoMap Int IDSet :=
  match m.get k with
  | none => m
  | some set => m.set k (set.delete x)

def Unfollow (s : MemoryStore) (userID sellerID : Int) : MemoryStore × Option Err :=
  if (s.users.get userID).isNone then (s, some Err.ErrUserNotFound)
  else if (s.users.get sellerID).isNone then (s, some Err.ErrUserNotFound)
  else
    ({ s with
        followers := deleteInner s.followers sellerID userID
        followed := deleteInner s.followed userID sellerID },
      none)

/-- The loop `for id := range set { if u, ok := s.users[id]; ok { out = append(out, u) } }`. -/
def usersOf (s : MemoryStore) (set : IDSet) : List User :=
  set.keys.filterMap (fun id => s.users.get id)

def FollowersOf (s : MemoryStore) (sellerID : Int) : Except Err (List User) :=
  if (s.users.get sellerID).isNone then .error Err.ErrUserNotFound
  else .ok (s.usersOf (innerOrEmpty s.followers sellerID))

def FollowedBy (s : MemoryStore) (userID : Int) : Except Err (List User) :=
  if (s.users.get userID).isNone then .error Err.ErrUserNotFound
  else .ok (s.usersOf (innerOrEmpty s.followed userID))

def AddPost (s : MemoryStore) (p : Post) : MemoryStore × Int × Option Err :=
  if (s.users.get p.UserID).isNone then (s, 0, some Err.ErrUserNotFound)
  else
    let p1 := { p with PostID := s.nextPostID }
    ({ s with nextPostID := s.nextPostID + 1, posts := s.posts ++ [p1] }, p1.PostID, none)

/-- The set built by `for _, id := range sellerIDs { set[id] = struct{}{} }`. -/
def sellerSet (sellerIDs : List Int) : IDSet :=
  sellerIDs.foldl (fun set id => set.set id ()) []

def PostsFromSellersSince (s : MemoryStore) (sellerIDs : List Int) (since : Time) : List Post :=
  let set := sellerSet sellerIDs
  s.posts.filter (fun p => set.has p.UserID && (p.Date == since || decide (p.Date > since)))

def PromoPostsBySeller (s : MemoryStore) (sellerID : Int) : List Post :=
  s.posts.filter (fun p => p.UserID == sellerID && p.HasPromo)

def PostsByUser (s : MemoryStore) (userID : Int) : List Post :=
  s.posts.filter (fun p => p.UserID == userID)

/-- The search loop of `DeletePost`, started at index `i`: the error it returns
early with, if any, and the value of `idx` (`-1` when nothing was found). -/
def deleteScan (userID postID : Int) : List Post → Int → Option Err × Int
  | [], _ => (none, -1)
  | p :: ps, i =>
    if p.PostID = postID then
      if p.UserID ≠ userID then (some Err.ErrPostForbidden, -1) else (none, i)
    else deleteScan userID postID ps (i + 1)

def DeletePost (s : MemoryStore) (userID postID : Int) : MemoryStore × Option Err :=
  if (s.users.get userID).isNone then (s, some Err.ErrUserNotFound)
  else
    match deleteScan userID postID s.posts 0 with
    | (some e, _) => (s, some e)
    | (none, idx) =>
      if idx < 0 then (s, some Err.ErrPostNotFound)
      else
        ({ s with posts := s.posts.take idx.toNat ++ s.posts.drop (idx.toNat + 1) }, none)

end MemoryStore

/-! ## internal/domain/validators.go, sorting.go -/

/-- The character class `[A-Za-zÀ-ÿ0-9 ]` of the regular expression `allowedText`. -/
def allowedChar (c : Char) : Bool :=
  let n := c.toNat
  (65 ≤ n && n ≤ 90) || (97 ≤ n && n ≤ 122) || (0xC0 ≤ n && n ≤ 0xFF) ||
  (48 ≤ n && n ≤ 57) || n = 32

/-- The test `allowedText.MatchString(s)` for the anchored pattern `^[...]+$`. -/
def allowedText (s : String) : Bool := !s.data.isEmpty && s.data.all allowedChar

def ValidateID (id : Int) : Option Err :=
  if id = 0 then some Err.ErrIDEmpty
  else if id < 0 then some Err.ErrIDGreaterThanZero
  else none

def ValidateTextRequired (s : String) (max : Int) (maxErr : Err) : Option Err :=
  if s = "" then some Err.ErrFieldEmpty
  else if (s.length : Int) > max then some maxErr
  else if !allowedText s then some Err.ErrSpecialChars
  else none

def ValidateNotesOptional (s : String) : Option Err :=
  if s = "" then none
  else if (s.length : Int) > 80 then some Err.ErrMaxLen80
  else if !allowedText s then some Err.ErrSpecialChars
  else none

def ValidatePrice (price : Rat) : Option Err :=
  if price = 0 then some Err.ErrPriceEmpty
  else if price > 10000000 then some Err.ErrPriceMax
  else none

def DateAsc : String := "date_asc"
def DateDesc : String := "date_desc"

def ValidateOrderForPosts (order : String) : Option Err :=
  if order = "" then none
  else if strings.ToLower order = DateAsc ∨ strings.ToLower order = DateDesc then none
  else some Err.ErrInvalidOrder

/-- The sort of `SortPostsByDate`.  `sort.Slice` is not stable, so Go fixes the
result only up to the order of posts with equal dates; the model is an
insertion sort, which returns one of the permitted results. -/
def SortPostsByDate (posts : List Post) (order : String) : List Post :=
  if strings.ToLower order = DateAsc then
    posts.insertionSort (fun a b => a.Date ≤ b.Date)
  else if strings.ToLower order = DateDesc ∨ strings.ToLower order = "" then
    posts.insertionSort (fun a b => a.Date ≥ b.Date)
  else posts

/-! ## Library functions of package time -/

def nsPerDay : Int := 86400 * 1000000000

def isLeap (y : Int) : Bool := y % 4 = 0 && (y % 100 ≠ 0 || y % 400 = 0)

/-- The number of days of month `m` of year `y`. -/
def daysIn (m y : Int) : Int :=
  if m = 2 then (if isLeap y then 29 else 28)
  else if m = 4 ∨ m = 6 ∨ m = 9 ∨ m = 11 then 30
  else 31

/-- Days from 1970-01-01 to the day `d` of month `m` of year `y` in the
proleptic Gregorian calendar. -/
def daysFromCivil (y m d : Int) : Int :=
  let y1 := if m ≤ 2 then y - 1 else y
  let era := y1 / 400
  let yoe := y1 - era * 400
  let mp := if m > 2 then m - 3 else m + 9
  let doy := (153 * mp + 2) / 5 + d - 1
  let doe := yoe * 365 + yoe / 4 - yoe / 100 + doy
  era * 146097 + doe - 719468

def isDigit (c : Char) : Bool := 48 ≤ c.toNat && c.toNat ≤ 57

def digitVal (c : Char) : Int := (c.toNat : Int) - 48

/-- Go `time.Parse("02-01-2006", s)`: two digits of day, two of month and four
of year, separated by hyphens and with nothing after them; the month must lie
in `1..12` and the day in the month.  The result is midnight UTC of that day;
`none` stands for any parse error. -/
def timeParse (s : String) : Option Time :=
  match s.data with
  | [d1, d2, h1, m1, m2, h2, y1, y2, y3, y4] =>
    if h1 = '-' ∧ h2 = '-' ∧ isDigit d1 ∧ isDigit d2 ∧ isDigit m1 ∧ isDigit m2 ∧
        isDigit y1 ∧ isDigit y2 ∧ isDigit y3 ∧ isDigit y4 then
      let day := digitVal d1 * 10 + digitVal d2
      let month := digitVal m1 * 10 + digitVal m2
      let year := digitVal y1 * 1000 + digitVal y2 * 100 + digitVal y3 * 10 + digitVal y4
      if month ≤ 0 ∨ 12 < month then none
      else if day < 1 ∨ day > daysIn month year then none
      else some (daysFromCivil year month day * nsPerDay)
    else none
  | _ => none

/-- Go `t.AddDate(0, 0, days)` for a clock in UTC or any other zone with a
fixed offset, where a calendar day is always 24 hours. -/
def AddDateDays (t : Time) (days : Int) : Time := t + days * nsPerDay

/-! ## internal/service/product_service.go -/

def parseDate (dateStr : String) : Except Err Time :=
  if dateStr = "" then .error Err.ErrDateEmpty
  else
    match timeParse dateStr with
    | none => .error Err.ErrDateFormat
    | some t => .ok t

structure PublishPayload where
  UserID : Int
  Date : String
  Product : Product
  Category : Int
  Price : Rat
  HasPromo : Bool
  Discount : Rat
  deriving DecidableEq, Repr

/-- Go `math.Round`: to the nearest integer, halves away from zero. -/
def mathRound (x : Rat) : Rat :=
  if x ≥ 0 then (Rat.floor (x + 1 / 2) : Int) else -((Rat.floor (-x + 1 / 2) : Int) : Rat)

/-- The function `calcFinalPrice`.  Each float64 operation of
`math.Round((price*(1-(discount/100)))*100) / 100` is the exact operation
followed by the rounding to float64; `math.Round` is exact on a float64. -/
def calcFinalPrice (price discount : Rat) (hasPromo : Bool) : Float64 :=
  if !hasPromo then .fin price
  else
    let a := Float64.nearest (discount / 100)
    let b := Float64.nearest (1 - a)
    let c := Float64.nearest (price * b)
    if Float64.over c then .inf (decide (c < 0))
    else
      let y := Float64.nearest (c * 100)
      if Float64.over y then .inf (decide (y < 0))
      else .fin (Float64.nearest (mathRound y / 100))

/-- The checks of `Publish` up to the construction of the post: the first
error, or the post handed to `AddPost`. -/
def publishPost (payload : PublishPayload) : Except Err Post :=
  match ValidateID payload.UserID with
  | some e => .error e
  | none =>
  match parseDate payload.Date with
  | .error e => .error e
  | .ok dt =>
  match ValidateID payload.Product.ProductID with
  | some e => .error e
  | none =>
  match ValidateTextRequired payload.Product.ProductName 40 Err.ErrMaxLen40 with
  | some e => .error e
  | none =>
  match ValidateTextRequired payload.Product.Type_ 15 Err.ErrMaxLen15 with
  | some e => .error e
  | none =>
  match ValidateTextRequired payload.Product.Brand 25 Err.ErrMaxLen25 with
  | some e => .error e
  | none =>
  match ValidateTextRequired payload.Product.Color 15 Err.ErrMaxLen15 with
  | some e => .error e
  | none =>
  match ValidateNotesOptional payload.Product.Notes with
  | some e => .error e
  | none =>
  if payload.Category = 0 then .error Err.ErrCategoryEmpty
  else
  match ValidatePrice payload.Price with
  | some e => .error e
  | none =>
  if payload.HasPromo ∧ payload.Discount ≤ 0 then .error Err.ErrDiscountMin
  else if payload.HasPromo ∧ payload.Discount > 100 then .error Err.ErrDiscountMax
  else
    let discount := if payload.HasPromo then payload.Discount else 0
    .ok { PostID := 0, UserID := payload.UserID, Date := dt, DateStr := payload.Date,
          Product := payload.Product, Category := payload.Category, Price := payload.Price,
          HasPromo := payload.HasPromo, Discount := discount,
          FinalPrice := calcFinalPrice payload.Price discount payload.HasPromo }

def Publish (st : MemoryStore) (payload : PublishPayload) : MemoryStore × Int × Option Err :=
  match publishPost payload with
  | .error e => (st, 0, some e)
  | .ok p => st.AddPost p

/-- The method `FollowedLastTwoWeeks`; `now` is the reading of `time.Now()`. -/
def FollowedLastTwoWeeks (st : MemoryStore) (now : Time) (userID : Int) (order : String) :
    Except Err (List Post) :=
  match ValidateID userID with
  | some e => .error e
  | none =>
  match ValidateOrderForPosts order with
  | some e => .error e
  | none =>
  match st.FollowedBy userID with
  | .error e => .error e
  | .ok followed =>
    let sellerIDs := followed.map (fun u => u.ID)
    let since := AddDateDays now (-14)
    let posts := st.PostsFromSellersSince sellerIDs since
    .ok (SortPostsByDate posts order)

def DeleteMyPost (st : MemoryStore) (userID postID : Int) : MemoryStore × Option Err :=
  match ValidateID userID with
  | some e => (st, some e)
  | none =>
  match ValidateID postID with
  | some e => (st, some e)
  | none => st.DeletePost userID postID

/-! ## Runs of the store -/

/-- A call of a mutating public method of `MemoryStore`. -/
inductive Op where
  | seedUsers (users : List User)
  | createUser (name : String) (isSeller : Bool)
  | createAccount (now : Time) (name email passwordHash : String) (isSeller : Bool)
  | updateAvatar (userID : Int) (avatarURL : String)
  | follow (userID sellerID : Int)
  | unfollow (userID sellerID : Int)
  | addPost (p : Post)
  | deletePost (userID postID : Int)
  deriving DecidableEq, Repr

/-- The store after one call. -/
def Op.apply (s : MemoryStore) : Op → MemoryStore
  | .seedUsers users => s.SeedUsers users
  | .createUser name isSeller => (s.CreateUser name isSeller).1
  | .createAccount now name email passwordHash isSeller =>
      (s.CreateAccount now name email passwordHash isSeller).1
  | .updateAvatar userID avatarURL => (s.UpdateAvatar userID avatarURL).1
  | .follow userID sellerID => (s.Follow userID sellerID).1
  | .unfollow userID sellerID => (s.Unfollow userID sellerID).1
  | .addPost p => (s.AddPost p).1
  | .deletePost userID postID => (s.DeletePost userID postID).1

/-- The store after a sequence of calls. -/
def runOps (s : MemoryStore) (ops : List Op) : MemoryStore := ops.foldl Op.apply s

/-- The states a `MemoryStore` can be in: those produced from `NewMemoryStore`
by calls of its public methods (the read-only methods do not change it). -/
def Reachable (s : MemoryStore) : Prop := ∃ ops : List Op, s = runOps NewMemoryStore ops

/-! ## Invariants of the store -/

/-- Whether the index `m` (`followers` or `followed`) has `x` in the set stored under `k`. -/
def edgeIn (m : GoMap Int IDSet) (k x : Int) : Bool := (MemoryStore.innerOrEmpty m k).has x

/-- The well-formedness of a store: users are filed under their own id, the two
follow indices mirror each other, no set lists an id twice, and the stored
posts have distinct positive ids below the post counter. -/
structure WF (s : MemoryStore) : Prop where
  userKey : ∀ k u, s.users.get k = some u → u.ID = k
  sym : ∀ u v, edgeIn s.followers v u = edgeIn s.followed u v
  nodupFollowers : ∀ k, (MemoryStore.innerOrEmpty s.followers k).keys.Nodup
  nodupFollowed : ∀ k, (MemoryStore.innerOrEmpty s.followed k).keys.Nodup
  postIDs : (s.posts.map (fun p => p.PostID)).Nodup
  postRange : ∀ p ∈ s.posts, 0 < p.PostID ∧ p.PostID < s.nextPostID
  counter : 1 ≤ s.nextPostID

/-! ## Sample stores -/

/-- The seeded store of the tests: a buyer and two sellers. -/
def seededStore : MemoryStore :=
  NewMemoryStore.SeedUsers
    [{ ID := 1, Name := "Buyer", IsSeller := false },
     { ID := 2, Name := "SellerA", IsSeller := false },
     { ID := 3, Name := "SellerB", IsSeller := false }]

/-- The calls that build `followStore`. -/
def followOps : List Op :=
  [Op.seedUsers
    [{ ID := 1, Name := "Buyer", IsSeller := false },
     { ID := 2, Name := "SellerA", IsSeller := false },
     { ID := 3, Name := "SellerB", IsSeller := false }],
   Op.follow 1 2, Op.follow 3 2]

/-- The seeded store after users 1 and 3 followed user 2. -/
def followStore : MemoryStore := runOps NewMemoryStore followOps

/-- A post of the tests, by `userID` and dated `date`. -/
def samplePost (userID : Int) (date : Time) (hasPromo : Bool) : Post :=
  { PostID := 0, UserID := userID, Date := date, DateStr := "x",
    Product := { ProductID := 1, ProductName := "P1", Type_ := "t", Brand := "b",
                 Color := "c", Notes := "", ImageURL := "" },
    Category := 1, Price := 10, HasPromo := hasPromo, Discount := 0, FinalPrice := .fin 10 }

/-- The calls that build `postStore`. -/
def postOps : List Op :=
  [Op.seedUsers
    [{ ID := 1, Name := "Buyer", IsSeller := false },
     { ID := 2, Name := "SellerA", IsSeller := false },
     { ID := 3, Name := "SellerB", IsSeller := false }],
   Op.addPost (samplePost 2 100 true), Op.addPost (samplePost 3 200 false),
   Op.addPost (samplePost 2 300 false)]

/-- The seeded store after three posts, with ids 1, 2 and 3. -/
def postStore : MemoryStore := runOps NewMemoryStore postOps

/-! ## Counting calls -/

/-- The number of `AddPost` calls that return nil when the calls `ops` are made
one after the other, starting in the store `s`. -/
def addCount (s : MemoryStore) : List Op → Nat
  | [] => 0
  | Op.addPost p :: t =>
    (if (s.AddPost p).2.2 = none then 1 else 0) + addCount (s.AddPost p).1 t
  | op :: t => addCount (op.apply s) t

/-! ## The two-week window at noon -/

/-- The seeded store after user 1 followed seller 2. -/
def windowStore : MemoryStore := (seededStore.Follow 1 2).1

/-- The calls that build `windowStore`. -/
def windowOps : List Op :=
  [Op.seedUsers
    [{ ID := 1, Name := "Buyer", IsSeller := false },
     { ID := 2, Name := "SellerA", IsSeller := false },
     { ID := 3, Name := "SellerB", IsSeller := false }],
   Op.follow 1 2]

/-- The instant 2021-04-29T12:00:00Z: day 18746 since the epoch, at noon. -/
def noon : Time := 18746 * nsPerDay + 12 * 3600 * 1000000000

/-- A valid payload of seller 2 dated `date`. -/
def windowPayload (date : String) : PublishPayload :=
  { UserID := 2, Date := date,
    Product := { ProductID := 1, ProductName := "P1", Type_ := "t", Brand := "b",
                 Color := "c", Notes := "", ImageURL := "" },
    Category := 1, Price := 10, HasPromo := false, Discount := 0 }

/-! ## internal/domain/sorting.go: users -/

def NameAsc : String := "name_asc"
def NameDesc : String := "name_desc"

def ValidateOrderForUsers (order : String) : Option Err :=
  if order = "" then none
  else if strings.ToLower order = NameAsc ∨ strings.ToLower order = NameDesc then none
  else some Err.ErrInvalidOrder

/-- Go `a < b` on the characters of two strings.  Go compares byte by byte; on
UTF-8 that is the order by code points. -/
def lessChars : List Char → List Char → Bool
  | _, [] => false
  | [], _ :: _ => true
  | a :: as, b :: bs =>
    if a.toNat < b.toNat then true
    else if b.toNat < a.toNat then false
    else lessChars as bs

/-- Go `a < b` on strings. -/
def stringLess (a b : String) : Bool := lessChars a.data b.data

/-- The sort of `SortUsersByName`: `sort.Slice` with `less` comparing the
names as they are.  As for `SortPostsByDate`, the model is an insertion sort. -/
def SortUsersByName (users : List User) (order : String) : List User :=
  if strings.ToLower order = NameAsc then
    users.insertionSort (fun a b => stringLess b.Name a.Name = false)
  else if strings.ToLower order = NameDesc then
    users.insertionSort (fun a b => stringLess a.Name b.Name = false)
  else users

/-! ## internal/store/memory_store.go: the remaining readers -/

namespace MemoryStore

def ListUsers (s : MemoryStore) (order : String) : Except Err (List User) :=
  let out := s.users.map Prod.snd
  if order = NameDesc then
    .ok (out.insertionSort
      (fun a b => stringLess (strings.ToLower a.Name) (strings.ToLower b.Name) = false))
  else
    .ok (out.insertionSort
      (fun a b => stringLess (strings.ToLower b.Name) (strings.ToLower a.Name) = false))

def GetAccountByEmail (s : MemoryStore) (email : String) : Option Account :=
  match s.accountByEmail.get (strings.ToLower (strings.TrimSpace email)) with
  | none => none
  | some id => s.accounts.get id

end MemoryStore

/-! ## internal/store/interfaces.go -/

/-- The interface `store.Store` over a type `σ` of store states.  A method that
may write returns the new state next to its Go results; `CreateAccount` also
takes the reading of the clock. -/
structure Store (σ : Type) where
  GetUser : σ → Int → Option User
  ListUsers : σ → String → Except Err (List User)
  CreateUser : σ → String → Bool → σ × User × Option Err
  GetAccount : σ → Int → Option Account
  GetAccountByEmail : σ → String → Option Account
  CreateAccount : σ → Time → String → String → String → Bool → σ × Option Account × Option Err
  UpdateAvatar : σ → Int → String → σ × Option Account × Option Err
  Follow : σ → Int → Int → σ × Option Err
  Unfollow : σ → Int → Int → σ × Option Err
  FollowersOf : σ → Int → Except Err (List User)
  FollowedBy : σ → Int → Except Err (List User)
  AddPost : σ → Post → σ × Int × Option Err
  DeletePost : σ → Int → Int → σ × Option Err
  PostsFromSellersSince : σ → List Int → Time → List Post
  PromoPostsBySeller : σ → Int → List Post
  PostsByUser : σ → Int → List Post

/-- `MemoryStore` as an implementation of `store.Store`. -/
def memoryStore : Store MemoryStore :=
  { GetUser := MemoryStore.GetUser
    ListUsers := MemoryStore.ListUsers
    CreateUser := MemoryStore.CreateUser
    GetAccount := MemoryStore.GetAccount
    GetAccountByEmail := MemoryStore.GetAccountByEmail
    CreateAccount := MemoryStore.CreateAccount
    UpdateAvatar := MemoryStore.UpdateAvatar
    Follow := MemoryStore.Follow
    Unfollow := MemoryStore.Unfollow
    FollowersOf := MemoryStore.FollowersOf
    FollowedBy := MemoryStore.FollowedBy
    AddPost := MemoryStore.AddPost
    DeletePost := MemoryStore.DeletePost
    PostsFromSellersSince := MemoryStore.PostsFromSellersSince
    PromoPostsBySeller := MemoryStore.PromoPostsBySeller
    PostsByUser := MemoryStore.PostsByUser }

/-! ## internal/service/product_service.go over the interface -/

namespace ProductService

variable {σ : Type}

def Publish (S : Store σ) (st : σ) (payload : PublishPayload) : σ × Int × Option Err :=
  match publishPost payload with
  | .error e => (st, 0, some e)
  | .ok p => S.AddPost st p

/-- The method `FollowedLastTwoWeeks`; `now` is the reading of `time.Now()`. -/
def FollowedLastTwoWeeks (S : Store σ) (st : σ) (now : Time) (userID : Int) (order : String) :
    Except Err (List Post) :=
  match ValidateID userID with
  | some e => .error e
  | none =>
  match ValidateOrderForPosts order with
  | some e => .error e
  | none =>
  match S.FollowedBy st userID with
  | .error e => .error e
  | .ok followed =>
    let sellerIDs := followed.map (fun u => u.ID)
    let since := AddDateDays now (-14)
    let posts := S.PostsFromSellersSince st sellerIDs since
    .ok (SortPostsByDate posts order)

def DeleteMyPost (S : Store σ) (st : σ) (userID postID : Int) : σ × Option Err :=
  match ValidateID userID with
  | some e => (st, some e)
  | none =>
  match ValidateID postID with
  | some e => (st, some e)
  | none => S.DeletePost st userID postID

end ProductService

/-! ## internal/service/user_service.go -/

namespace UserService

variable {σ : Type}

def Follow (S : Store σ) (st : σ) (userID sellerID : Int) : σ × Option Err :=
  match ValidateID userID with
  | some e => (st, some e)
  | none =>
  match ValidateID sellerID with
  | some e => (st, some e)
  | none =>
  if userID = sellerID then (st, some Err.ErrIDGreaterThanZero)
  else S.Follow st userID sellerID

def Unfollow (S : Store σ) (st : σ) (userID sellerID : Int) : σ × Option Err :=
  match ValidateID userID with
  | some e => (st, some e)
  | none =>
  match ValidateID sellerID with
  | some e => (st, some e)
  | none => S.Unfollow st userID sellerID

/-- The method `FollowersList`: the user and the sorted followers, or the error. -/
def FollowersList (S : Store σ) (st : σ) (sellerID : Int) (order : String) :
    Except Err (User × List User) :=
  match ValidateID sellerID with
  | some e => .error e
  | none =>
  match ValidateOrderForUsers order with
  | some e => .error e
  | none =>
  match S.GetUser st sellerID with
  | none => .error Err.ErrUserNotFound
  | some u =>
  match S.FollowersOf st sellerID with
  | .error e => .error e
  | .ok f => .ok (u, SortUsersByName f order)

/-- The method `FollowedList`: the user and the sorted followed users, or the error. -/
def FollowedList (S : Store σ) (st : σ) (userID : Int) (order : String) :
    Except Err (User × List User) :=
  match ValidateID userID with
  | some e => .error e
  | none =>
  match ValidateOrderForUsers order with
  | some e => .error e
  | none =>
  match S.GetUser st userID with
  | none => .error Err.ErrUserNotFound
  | some u =>
  match S.FollowedBy st userID with
  | .error e => .error e
  | .ok f => .ok (u, SortUsersByName f order)

/-- The method `CreateUser`; on a validation error Go returns the zero `User`,
here `none`. -/
def CreateUser (S : Store σ) (st : σ) (name : String) (isSeller : Bool) :
    σ × Option User × Option Err :=
  match ValidateTextRequired name 40 Err.ErrMaxLen40 with
  | some e => (st, none, some e)
  | none =>
    match S.CreateUser st name isSeller with
    | (st1, u, err) => (st1, some u, err)

def UpdateAvatar (S : Store σ) (st : σ) (userID : Int) (avatarURL : String) :
    σ × Option Account × Option Err :=
  match ValidateID userID with
  | some e => (st, none, some e)
  | none => S.UpdateAvatar st userID avatarURL

end UserService

/-! ## The validation sequence of the specification -/

/-- The discount check of `Publish`, made only for a promotion. -/
def discountCheck (payload : PublishPayload) : Option Err :=
  if payload.HasPromo then
    if payload.Discount ≤ 0 then some Err.ErrDiscountMin
    else if payload.Discount > 100 then some Err.ErrDiscountMax
    else none
  else none

/-- The checks of `Publish` in the fixed sequence of the specification: user
id, date, product id, product name, type, brand, color, notes, category, price,
discount.  Each entry is the error of one check, `none` when the check passes. -/
def publishChecks (payload : PublishPayload) : List (Option Err) :=
  [ValidateID payload.UserID,
   (match parseDate payload.Date with
    | .error e => some e
    | .ok _ => none),
   ValidateID payload.Product.ProductID,
   ValidateTextRequired payload.Product.ProductName 40 Err.ErrMaxLen40,
   ValidateTextRequired payload.Product.Type_ 15 Err.ErrMaxLen15,
   ValidateTextRequired payload.Product.Brand 25 Err.ErrMaxLen25,
   ValidateTextRequired payload.Product.Color 15 Err.ErrMaxLen15,
   ValidateNotesOptional payload.Product.Notes,
   (if payload.Category = 0 then some Err.ErrCategoryEmpty else none),
   ValidatePrice payload.Price,
   discountCheck payload]

/-- The error of the first failing check of a sequence, `none` if all pass. -/
def firstFailure : List (Option Err) → Option Err
  | [] => none
  | some e :: _ => some e
  | none :: t => firstFailure t

/-- The local checks of `DeleteMyPost`, in order. -/
def deleteMyPostChecks (userID postID : Int) : List (Option Err) :=
  [ValidateID userID, ValidateID postID]

/-- The local checks of `UserService.Follow`, in order; the last one is the
rejection of a self-follow. -/
def followChecks (userID sellerID : Int) : List (Option Err) :=
  [ValidateID userID, ValidateID sellerID,
   (if userID = sellerID then some Err.ErrIDGreaterThanZero else none)]

/-- The local checks of `UserService.Unfollow`, in order. -/
def unfollowChecks (userID sellerID : Int) : List (Option Err) :=
  [ValidateID userID, ValidateID sellerID]

/-- The errors of local validation: id, date, text, category, price and
discount errors (the self-follow error is the id error `ErrIDGreaterThanZero`). -/
def isValidationErr : Err → Bool
  | .ErrIDEmpty => true
  | .ErrIDGreaterThanZero => true
  | .ErrDateEmpty => true
  | .ErrDateFormat => true
  | .ErrFieldEmpty => true
  | .ErrMaxLen40 => true
  | .ErrMaxLen15 => true
  | .ErrMaxLen25 => true
  | .ErrMaxLen80 => true
  | .ErrSpecialChars => true
  | .ErrCategoryEmpty => true
  | .ErrPriceEmpty => true
  | .ErrPriceMax => true
  | .ErrDiscountMin => true
  | .ErrDiscountMax => true
  | _ => false

/-! ## Character classes -/

/-- The letters `A-Z` and `a-z`. -/
def asciiLetter (c : Char) : Bool :=
  (65 ≤ c.toNat && c.toNat ≤ 90) || (97 ≤ c.toNat && c.toNat ≤ 122)

/-- The digits `0-9`. -/
def asciiDigit (c : Char) : Bool := 48 ≤ c.toNat && c.toNat ≤ 57

/-- The accented letters of the Latin-1 Supplement: the code points U+00C0 to
U+00FF other than the multiplication sign U+00D7 and the division sign U+00F7. -/
def latin1Letter (c : Char) : Bool :=
  0xC0 ≤ c.toNat && c.toNat ≤ 0xFF && c.toNat ≠ 0xD7 && c.toNat ≠ 0xF7

/-- The Unicode letters (general category L) among the code points below
U+0250: the ASCII letters, the letters of the Latin-1 Supplement (with the
ordinal indicators and the micro sign), and all of Latin Extended-A and
Latin Extended-B. -/
def unicodeLetterLatin (c : Char) : Bool :=
  asciiLetter c || c.toNat = 0xAA || c.toNat = 0xB5 || c.toNat = 0xBA || latin1Letter c ||
  (0x100 ≤ c.toNat && c.toNat ≤ 0x24F)

/-! ## The rounding of the specification -/

/-- The value `round2(x)` of the specification: `x` rounded to 2 decimal
places, a midpoint away from zero, in exact arithmetic. -/
def round2 (x : Rat) : Rat :=
  if 0 ≤ x then (Rat.floor (x * 100 + 1 / 2) : Rat) / 100
  else -((Rat.floor (-x * 100 + 1 / 2) : Rat) / 100)

/-! ## Sample data for the name sort -/

/-- Two users whose names differ in the case of the first letter. -/
def caseUsers : List User :=
  [{ ID := 3, Name := "bob", IsSeller := false },
   { ID := 4, Name := "Carlos", IsSeller := false }]

/-- The calls that build `caseStore`. -/
def caseOps : List Op :=
  [Op.seedUsers
    [{ ID := 2, Name := "Seller", IsSeller := true },
     { ID := 3, Name := "bob", IsSeller := false },
     { ID := 4, Name := "Carlos", IsSeller := false }],
   Op.follow 3 2, Op.follow 4 2]

/-- A seller followed by the two users of `caseUsers`. -/
def caseStore : MemoryStore := runOps NewMemoryStore caseOps

/-! ## The remaining service methods -/

namespace ProductService

variable {σ : Type}

/-- The method `PromoCount`: the user and the number of promo posts, or the error. -/
def PromoCount (S : Store σ) (st : σ) (userID : Int) : Except Err (User × Int) :=
  match ValidateID userID with
  | some e => .error e
  | none =>
  match S.GetUser st userID with
  | none => .error Err.ErrUserNotFound
  | some u => .ok (u, ((S.PromoPostsBySeller st userID).length : Int))

/-- The method `PromoList`: the user and the promo posts sorted by `DateDesc`, or the error. -/
def PromoList (S : Store σ) (st : σ) (userID : Int) : Except Err (User × List Post) :=
  match ValidateID userID with
  | some e => .error e
  | none =>
  match S.GetUser st userID with
  | none => .error Err.ErrUserNotFound
  | some u => .ok (u, SortPostsByDate (S.PromoPostsBySeller st userID) DateDesc)

end ProductService

namespace UserService

variable {σ : Type}

def ListUsers (S : Store σ) (st : σ) (order : String) : Except Err (List User) :=
  match ValidateOrderForUsers order with
  | some e => .error e
  | none => S.ListUsers st order

end UserService

/-! ## internal/store/sql_store.go: DeletePost -/

/-- The tables `users` and `posts` of the database behind `SQLStore`, as lists
of rows. -/
structure SQLStore where
  users : List User
  posts : List Post
  deriving DecidableEq, Repr

namespace SQLStore

/-- The method `SQLStore.DeletePost`, for a database that answers both
statements.  `DELETE FROM posts WHERE id=$1 AND user_id=$2` removes the rows
with that id and owner and reports their number; when it is 0,
`SELECT user_id FROM posts WHERE id=$1` tells a missing post from a post of
another user. -/
def DeletePost (db : SQLStore) (userID postID : Int) : SQLStore × Option Err :=
  let aff := (db.posts.filter (fun p => decide (p.PostID = postID ∧ p.UserID = userID))).length
  let db1 : SQLStore :=
    { db with posts := db.posts.filter (fun p => !decide (p.PostID = postID ∧ p.UserID = userID)) }
  if aff = 0 then
    match db1.posts.find? (fun p => decide (p.PostID = postID)) with
    | none => (db1, some Err.ErrPostNotFound)
    | some _ => (db1, some Err.ErrPostForbidden)
  else (db1, none)

end SQLStore

/-- The database that stores the users and posts of a `MemoryStore`. -/
def sqlOf (st : MemoryStore) : SQLStore :=
  { users := st.users.map Prod.snd, posts := st.posts }

/-! ## internal/http/pagination.go -/

structure PageMeta where
  Page : Int
  Limit : Int
  Total : Int
  TotalPages : Int
  deriving DecidableEq, Repr

/-- The value of `int(math.Ceil(float64(total) / float64(limit)))`.  For a
limit other than 0 it is the ceiling of the quotient (the float64 quotient of
two integers below 2^53 has the ceiling of the exact one).  For limit 0 the
quotient is an infinity or NaN, whose conversion to `int` Go leaves to the
implementation: that value is the argument `undef`. -/
def totalPagesOf (undef total limit : Int) : Int :=
  if limit = 0 then undef else -(Int.fdiv (-total) limit)

/-- The function `paginateSlice`; `none` stands for the run-time panic of the
slice expression `items[start:end]` when `start` is negative or above `end`.
The products and sums of `int` wrap to 64 bits. -/
def paginateSlice {T : Type} (undef : Int) (items : List T) (page limit : Int) :
    Option (List T × PageMeta) :=
  let total : Int := (items.length : Int)
  let totalPages := totalPagesOf undef total limit
  let limit1 := if limit ≤ 0 then total else limit
  let start0 := wrapInt64 ((page - 1) * limit1)
  let start := if start0 > total then total else start0
  let end0 := wrapInt64 (start + limit1)
  let end1 := if end0 > total then total else end0
  if 0 ≤ start ∧ start ≤ end1 then
    some ((items.drop start.toNat).take (end1 - start).toNat,
          { Page := page, Limit := limit1, Total := total, TotalPages := totalPages })
  else none

/-! ## Runs without overflow of the user-id counter -/

/-- A call that does not take the user-id counter past the largest `int`: a
seeded id is an `int` other than the largest one, and a creation finds the
counter below the largest `int`. -/
def Op.noOverflow (s : MemoryStore) : Op → Prop
  | .seedUsers users => ∀ u ∈ users, -(2 ^ 63) ≤ u.ID ∧ u.ID < 2 ^ 63 - 1
  | .createUser _ _ => s.nextUserID < 2 ^ 63 - 1
  | .createAccount _ _ _ _ _ => s.nextUserID < 2 ^ 63 - 1
  | _ => True

instance Op.decNoOverflow (s : MemoryStore) (op : Op) : Decidable (Op.noOverflow s op) := by
  cases op <;> unfold Op.noOverflow <;> infer_instance

/-- A call that does not seed a user under the id of a stored account. -/
def Op.sparesAccounts (s : MemoryStore) : Op → Prop
  | .seedUsers users => ∀ u ∈ users, s.accounts.has u.ID = false
  | _ => True

instance Op.decSparesAccounts (s : MemoryStore) (op : Op) :
    Decidable (Op.sparesAccounts s op) := by
  cases op <;> unfold Op.sparesAccounts <;> infer_instance

/-- The calls `ops`, made one after the other from the store `s`, all satisfy `P`
in the store they are made in. -/
def runAll (P : MemoryStore → Op → Prop) (s : MemoryStore) : List Op → Prop
  | [] => True
  | op :: t => P s op ∧ runAll P (op.apply s) t

/-- The counter is above every id in use. -/
structure Fresh (s : MemoryStore) : Prop where
  counter : 1 ≤ s.nextUserID
  users : ∀ k, s.users.has k = true → k < s.nextUserID
  accounts : ∀ k, s.accounts.has k = true → k < s.nextUserID

/-- Every account has its user: same id, name and seller flag. -/
def Synced (s : MemoryStore) : Prop :=
  ∀ k acc, s.accounts.get k = some acc →
    s.users.get k = some { ID := acc.ID, Name := acc.Name, IsSeller := acc.IsSeller }

/-! ## Variants of an e-mail address -/

/-- Whether two texts agree letter by letter up to case: they have the same
length, and the letters at each place have the same lower-case form
(`unicode.ToLower`). -/
def sameLetters : List Char → List Char → Bool
  | [], [] => true
  | a :: as, b :: bs => (unicode.ToLower a == unicode.ToLower b) && sameLetters as bs
  | _, _ => false

/-- Whether a text has no white space at either end. -/
def noOuterSpace (c : List Char) : Bool :=
  c.head?.all (fun x => !strings.isSpace x) && c.getLast?.all (fun x => !strings.isSpace x)

/-- The address `e2` differs from `e1` only in letter case and in leading and
trailing white space: each is a core between two runs of white space, and the
cores agree letter by letter up to case. -/
def emailVariant (e1 e2 : String) : Prop :=
  ∃ l1 c1 r1 l2 c2 r2 : List Char,
    e1.data = l1 ++ c1 ++ r1 ∧ e2.data = l2 ++ c2 ++ r2 ∧
    (l1 ++ r1 ++ l2 ++ r2).all strings.isSpace = true ∧
    noOuterSpace c1 = true ∧ noOuterSpace c2 = true ∧ sameLetters c1 c2 = true

/-! ## More sample data -/

/-- A valid promotion of seller 2: the price 0.05 as the request decoder
reads it (the float64 nearest to 0.05) and a discount of 30 percent. -/
def promoPayload : PublishPayload :=
  { UserID := 2, Date := "16-04-2021",
    Product := { ProductID := 1, ProductName := "P1", Type_ := "t", Brand := "b",
                 Color := "c", Notes := "", ImageURL := "" },
    Category := 1, Price := Float64.nearest (5 / 100), HasPromo := true, Discount := 30 }

/-- Two users whose names begin with accented letters, the capital before the
small one in code-point order. -/
def accentOps : List Op :=
  [Op.seedUsers
    [{ ID := 1, Name := "É", IsSeller := false },
     { ID := 2, Name := "à", IsSeller := true }]]

/-- The store with the users "É" and "à". -/
def accentStore : MemoryStore := runOps NewMemoryStore accentOps

/-- The seeding of the tests of `ListUsers`. -/
def listOps : List Op :=
  [Op.seedUsers
    [{ ID := 1, Name := "Alice", IsSeller := false },
     { ID := 2, Name := "Bob", IsSeller := true }]]

/-- The store with the users "Alice" and "Bob". -/
def listStore : MemoryStore := runOps NewMemoryStore listOps

/-- An account for "Ana", then a seeding that names the id of that account. -/
def overwriteOps : List Op :=
  [Op.createAccount 0 "Ana" "ana@mail.com" "hash" false,
   Op.seedUsers [{ ID := 1, Name := "Zed", IsSeller := true }]]

/-- An account for "Ana", a seeding under another id, a new avatar for the account. -/
def syncOps : List Op :=
  [Op.createAccount 0 "Ana" "ana@mail.com" "hash" false,
   Op.seedUsers [{ ID := 7, Name := "Zed", IsSeller := true }],
   Op.updateAvatar 1 "ana.png"]

/-- A user, a seeding with the largest `int`, a seeding with id 0, a second user. -/
def wrapOps : List Op :=
  [Op.createUser "first" false,
   Op.seedUsers [{ ID := 2 ^ 63 - 1, Name := "last", IsSeller := false }],
   Op.seedUsers [{ ID := 0, Name := "zero", IsSeller := false }],
   Op.createUser "second" false]

/-! # Theorems -/

/-! ## Go maps -/

namespace GoMap
variable {K V : Type} [DecidableEq K]

theorem get_set_self (m : GoMap K V) (k : K) (v : V) : (m.set k v).get k = some v := by
  induction m with
  | nil => simp [set, get]
  | cons e t ih =>
    obtain ⟨k', v'⟩ := e
    by_cases h : k' = k <;> simp [set, get, h, ih]

theorem get_set_ne (m : GoMap K V) (k k' : K) (v : V) (h : k' ≠ k) :
    (m.set k v).get k' = m.get k' := by
  induction m with
  | nil => simp [set, get, Ne.symm h]
  | cons e t ih =>
    obtain ⟨k1, v1⟩ := e
    by_cases h1 : k1 = k
    · subst h1
      simp [set, get, Ne.symm h]
    · by_cases h2 : k1 = k'
      · subst h2
        simp [set, get, h1]
      · simp [set, get, h1, h2, ih]

theorem set_of_get (m : GoMap K V) (k : K) (v : V) (h : m.get k = some v) : m.set k v = m := by
  induction m with
  | nil => simp [get] at h
  | cons e t ih =>
    obtain ⟨k1, v1⟩ := e
    by_cases h1 : k1 = k
    · subst h1
      simp [get] at h
      simp [set, h]
    · simp [get, h1] at h
      simp [set, h1, ih h]

theorem set_set (m : GoMap K V) (k : K) (v v' : V) : (m.set k v).set k v' = m.set k v' := by
  induction m with
  | nil => simp [set]
  | cons e t ih =>
    obtain ⟨k1, v1⟩ := e
    by_cases h1 : k1 = k <;> simp [set, h1, ih]

theorem get_delete_self (m : GoMap K V) (k : K) : (m.delete k).get k = none := by
  induction m with
  | nil => simp [delete, get]
  | cons e t ih =>
    obtain ⟨k1, v1⟩ := e
    by_cases h1 : k1 = k
    · simpa [delete, List.filter_cons, h1] using ih
    · simpa [delete, List.filter_cons, h1, get] using ih

theorem get_delete_ne (m : GoMap K V) (k k' : K) (h : k' ≠ k) :
    (m.delete k).get k' = m.get k' := by
  induction m with
  | nil => simp [delete, get]
  | cons e t ih =>
    obtain ⟨k1, v1⟩ := e
    by_cases h1 : k1 = k
    · subst h1
      simpa [delete, List.filter_cons, get, Ne.symm h] using ih
    · by_cases h2 : k1 = k'
      · subst h2
        simp [delete, List.filter_cons, h1, get]
      · simpa [delete, List.filter_cons, h1, get, h2] using ih

theorem delete_of_get_none (m : GoMap K V) (k : K) (h : m.get k = none) : m.delete k = m := by
  induction m with
  | nil => simp [delete]
  | cons e t ih =>
    obtain ⟨k1, v1⟩ := e
    by_cases h1 : k1 = k
    · simp [get, h1] at h
    · simp [get, h1] at h
      simpa [delete, List.filter_cons, h1] using ih h

theorem mem_keys_iff (m : GoMap K V) (k : K) : k ∈ m.keys ↔ m.has k = true := by
  induction m with
  | nil => simp [keys, has, get]
  | cons e t ih =>
    obtain ⟨k1, v1⟩ := e
    by_cases h1 : k1 = k
    · simp [keys, has, get, h1]
    · have : ¬ k = k1 := fun h => h1 h.symm
      simpa [keys, has, get, h1, this] using ih

theorem has_set (m : GoMap K V) (k k' : K) (v : V) :
    (m.set k v).has k' = (decide (k' = k) || m.has k') := by
  by_cases h : k' = k
  · subst h; simp [has, get_set_self]
  · simp [has, get_set_ne _ _ _ _ h, h]

theorem has_delete (m : GoMap K V) (k k' : K) :
    (m.delete k).has k' = (!decide (k' = k) && m.has k') := by
  by_cases h : k' = k
  · subst h; simp [has, get_delete_self]
  · simp [has, get_delete_ne _ _ _ h, h]

theorem keys_set (m : GoMap K V) (k : K) (v : V) :
    (m.set k v).keys = if m.has k then m.keys else m.keys ++ [k] := by
  induction m with
  | nil => simp [set, keys, has, get]
  | cons e t ih =>
    obtain ⟨k1, v1⟩ := e
    by_cases h1 : k1 = k
    · simp [set, keys, has, get, h1]
    · simp only [keys] at ih
      by_cases h2 : has t k = true
      · simp [set, keys, has, get, h1, ih, h2] 
        simp [has] at h2
        simp [h2]
      · simp [set, keys, has, get, h1, ih, h2]
        simp [has] at h2
        simp [h2]

theorem nodup_keys_set (m : GoMap K V) (k : K) (v : V) (h : m.keys.Nodup) :
    (m.set k v).keys.Nodup := by
  rw [keys_set]
  by_cases h2 : has m k = true
  · simpa [h2] using h
  · simp only [h2]
    have : k ∉ m.keys := by rw [mem_keys_iff]; exact h2
    simp
    exact List.Nodup.append h (List.nodup_singleton k) (by simpa using this)

theorem nodup_keys_delete (m : GoMap K V) (k : K) (h : m.keys.Nodup) :
    (m.delete k).keys.Nodup := by
  unfold keys delete
  exact (List.Nodup.sublist (List.Sublist.map _ (List.filter_sublist _)) h)

theorem delete_set_of_get_none (m : GoMap K V) (k : K) (v : V) (h : m.get k = none) :
    (m.set k v).delete k = m := by
  induction m with
  | nil => simp [set, delete]
  | cons e t ih =>
    obtain ⟨k1, v1⟩ := e
    by_cases h1 : k1 = k
    · simp [get, h1] at h
    · simp [get, h1] at h
      have := ih h
      simp only [delete] at this
      simp only [set, delete, h1, if_false, List.filter_cons, ne_eq, not_false_eq_true,
        decide_True, if_true, this]

end GoMap

/-! ## The invariants hold in every reachable state -/

open MemoryStore

theorem innerOrEmpty_set (m : GoMap Int IDSet) (k k' : Int) (inner : IDSet) :
    innerOrEmpty (m.set k inner) k' = if k' = k then inner else innerOrEmpty m k' := by
  by_cases h : k' = k
  · subst h; simp [innerOrEmpty, GoMap.get_set_self]
  · simp [innerOrEmpty, GoMap.get_set_ne _ _ _ _ h, h]

theorem innerOrEmpty_deleteInner (m : GoMap Int IDSet) (k x k' : Int) :
    innerOrEmpty (deleteInner m k x) k' =
      if k' = k then (innerOrEmpty m k).delete x else innerOrEmpty m k' := by
  unfold deleteInner
  cases hg : m.get k with
  | none =>
    by_cases h : k' = k
    · subst h; simp [innerOrEmpty, hg, GoMap.delete]
    · simp [h]
  | some set =>
    simp only [innerOrEmpty_set]
    by_cases h : k' = k
    · simp [h, innerOrEmpty, hg]
    · simp [h]

theorem edgeIn_add (m : GoMap Int IDSet) (k x k' x' : Int) :
    edgeIn (m.set k ((innerOrEmpty m k).set x ())) k' x' =
      (decide (k' = k ∧ x' = x) || edgeIn m k' x') := by
  unfold edgeIn
  rw [innerOrEmpty_set]
  by_cases h : k' = k
  · subst h
    simp [GoMap.has_set]
  · simp [h]

theorem edgeIn_deleteInner (m : GoMap Int IDSet) (k x k' x' : Int) :
    edgeIn (deleteInner m k x) k' x' = (!decide (k' = k ∧ x' = x) && edgeIn m k' x') := by
  unfold edgeIn
  rw [innerOrEmpty_deleteInner]
  by_cases h : k' = k
  · subst h
    simp [GoMap.has_delete]
  · simp [h]

theorem WF_new : WF NewMemoryStore := by
  constructor <;> simp [NewMemoryStore, GoMap.get, GoMap.has, edgeIn, innerOrEmpty, GoMap.keys]

theorem userKey_set (m : GoMap Int User) (u : User)
    (h : ∀ k x, m.get k = some x → x.ID = k) :
    ∀ k x, (m.set u.ID u).get k = some x → x.ID = k := by
  intro k x hx
  by_cases hk : k = u.ID
  · subst hk
    rw [GoMap.get_set_self] at hx
    cases hx; rfl
  · rw [GoMap.get_set_ne _ _ _ _ hk] at hx
    exact h k x hx

theorem WF_seedOne (s : MemoryStore) (u : User) (h : WF s) : WF (s.seedOne u) := by
  unfold seedOne
  obtain ⟨h1, h2, h3, h4, h5, h6, h7⟩ := h
  simp only
  split
  · exact ⟨userKey_set _ u h1, h2, h3, h4, h5, h6, h7⟩
  · exact ⟨userKey_set _ u h1, h2, h3, h4, h5, h6, h7⟩

theorem WF_SeedUsers (users : List User) (s : MemoryStore) (h : WF s) : WF (s.SeedUsers users) := by
  unfold SeedUsers
  induction users generalizing s with
  | nil => exact h
  | cons u t ih => exact ih _ (WF_seedOne s u h)

theorem WF_CreateUser (s : MemoryStore) (name : String) (isSeller : Bool) (h : WF s) :
    WF (s.CreateUser name isSeller).1 := by
  obtain ⟨h1, h2, h3, h4, h5, h6, h7⟩ := h
  exact ⟨userKey_set _ ⟨s.nextUserID, name, isSeller⟩ h1, h2, h3, h4, h5, h6, h7⟩

theorem WF_CreateAccount (s : MemoryStore) (now : Time) (name email passwordHash : String)
    (isSeller : Bool) (h : WF s) : WF (s.CreateAccount now name email passwordHash isSeller).1 := by
  unfold CreateAccount
  simp only
  split
  · exact h
  · obtain ⟨h1, h2, h3, h4, h5, h6, h7⟩ := h
    exact ⟨userKey_set _ ⟨s.nextUserID, name, isSeller⟩ h1, h2, h3, h4, h5, h6, h7⟩

theorem WF_UpdateAvatar (s : MemoryStore) (userID : Int) (avatarURL : String) (h : WF s) :
    WF (s.UpdateAvatar userID avatarURL).1 := by
  unfold UpdateAvatar
  split
  · exact h
  · obtain ⟨h1, h2, h3, h4, h5, h6, h7⟩ := h
    exact ⟨h1, h2, h3, h4, h5, h6, h7⟩

theorem WF_Follow (s : MemoryStore) (userID sellerID : Int) (h : WF s) :
    WF (s.Follow userID sellerID).1 := by
  unfold Follow
  split
  · exact h
  split
  · exact h
  obtain ⟨h1, h2, h3, h4, h5, h6, h7⟩ := h
  refine ⟨h1, ?_, ?_, ?_, h5, h6, h7⟩
  · intro u v
    simp only [edgeIn_add, h2 u v]
    congr 1
    simp only [and_comm]
  · intro k
    simp only [innerOrEmpty_set]
    split
    · exact GoMap.nodup_keys_set _ _ _ (h3 _)
    · exact h3 k
  · intro k
    simp only [innerOrEmpty_set]
    split
    · exact GoMap.nodup_keys_set _ _ _ (h4 _)
    · exact h4 k

theorem WF_Unfollow (s : MemoryStore) (userID sellerID : Int) (h : WF s) :
    WF (s.Unfollow userID sellerID).1 := by
  unfold Unfollow
  split
  · exact h
  split
  · exact h
  obtain ⟨h1, h2, h3, h4, h5, h6, h7⟩ := h
  refine ⟨h1, ?_, ?_, ?_, h5, h6, h7⟩
  · intro u v
    simp only [edgeIn_deleteInner, h2 u v]
    congr 2
    simp only [and_comm]
  · intro k
    simp only [innerOrEmpty_deleteInner]
    split
    · exact GoMap.nodup_keys_delete _ _ (h3 _)
    · exact h3 k
  · intro k
    simp only [innerOrEmpty_deleteInner]
    split
    · exact GoMap.nodup_keys_delete _ _ (h4 _)
    · exact h4 k

theorem WF_AddPost (s : MemoryStore) (p : Post) (h : WF s) : WF (s.AddPost p).1 := by
  unfold AddPost
  split
  · exact h
  obtain ⟨h1, h2, h3, h4, h5, h6, h7⟩ := h
  refine ⟨h1, h2, h3, h4, ?_, ?_, ?_⟩
  · simp only [List.map_append, List.map_cons, List.map_nil]
    refine List.Nodup.append h5 (List.nodup_singleton _) ?_
    simp only [List.disjoint_singleton]
    intro hmem
    obtain ⟨q, hq, hq2⟩ := List.mem_map.1 hmem
    have := (h6 q hq).2
    omega
  · intro q hq
    simp only [List.mem_append, List.mem_singleton] at hq
    rcases hq with hq | hq
    · have := h6 q hq
      exact ⟨this.1, by show q.PostID < s.nextPostID + 1; omega⟩
    · subst hq
      exact ⟨by show 0 < s.nextPostID; omega, by show s.nextPostID < s.nextPostID + 1; omega⟩
  · show 1 ≤ s.nextPostID + 1
    omega

theorem take_drop_sublist {α : Type} (l : List α) (n : Nat) :
    List.Sublist (l.take n ++ l.drop (n + 1)) l := by
  induction l generalizing n with
  | nil => simp
  | cons a t ih =>
    cases n with
    | zero => simp
    | succ m =>
      simp only [List.take_succ_cons, List.drop_succ_cons, List.cons_append]
      exact List.Sublist.cons₂ a (ih m)

theorem WF_DeletePost (s : MemoryStore) (userID postID : Int) (h : WF s) :
    WF (s.DeletePost userID postID).1 := by
  unfold DeletePost
  split
  · exact h
  split
  · exact h
  split
  · exact h
  obtain ⟨h1, h2, h3, h4, h5, h6, h7⟩ := h
  refine ⟨h1, h2, h3, h4, ?_, ?_, h7⟩
  · exact List.Nodup.sublist (List.Sublist.map _ (take_drop_sublist _ _)) h5
  · intro q hq
    exact h6 q ((take_drop_sublist _ _).subset hq)

theorem WF_apply (s : MemoryStore) (op : Op) (h : WF s) : WF (op.apply s) := by
  cases op with
  | seedUsers users => exact WF_SeedUsers users s h
  | createUser name isSeller => exact WF_CreateUser s name isSeller h
  | createAccount now name email passwordHash isSeller =>
    exact WF_CreateAccount s now name email passwordHash isSeller h
  | updateAvatar userID avatarURL => exact WF_UpdateAvatar s userID avatarURL h
  | follow userID sellerID => exact WF_Follow s userID sellerID h
  | unfollow userID sellerID => exact WF_Unfollow s userID sellerID h
  | addPost p => exact WF_AddPost s p h
  | deletePost userID postID => exact WF_DeletePost s userID postID h

theorem WF_runOps (ops : List Op) (s : MemoryStore) (h : WF s) : WF (runOps s ops) := by
  unfold runOps
  induction ops generalizing s with
  | nil => exact h
  | cons op t ih => exact ih _ (WF_apply s op h)

theorem Reachable.wf {s : MemoryStore} (h : Reachable s) : WF s := by
  obtain ⟨ops, rfl⟩ := h
  exact WF_runOps ops _ WF_new

/-! ## The follow graph -/

theorem has_eq_false_iff {K V : Type} [DecidableEq K] (m : GoMap K V) (k : K) :
    m.has k = false ↔ (m.get k).isNone = true := by
  unfold GoMap.has
  cases m.get k <;> simp

theorem has_eq_true_iff {K V : Type} [DecidableEq K] (m : GoMap K V) (k : K) :
    m.has k = true ↔ (m.get k).isNone = false := by
  unfold GoMap.has
  cases m.get k <;> simp

theorem FollowersOf_ok (s : MemoryStore) (k : Int) (h : s.users.has k = true) :
    s.FollowersOf k = .ok (s.usersOf (innerOrEmpty s.followers k)) := by
  unfold FollowersOf
  rw [(has_eq_true_iff _ _).1 h]
  rfl

theorem FollowedBy_ok (s : MemoryStore) (k : Int) (h : s.users.has k = true) :
    s.FollowedBy k = .ok (s.usersOf (innerOrEmpty s.followed k)) := by
  unfold FollowedBy
  rw [(has_eq_true_iff _ _).1 h]
  rfl

theorem mem_usersOf (s : MemoryStore) (set : IDSet) (x : User) :
    x ∈ s.usersOf set ↔ ∃ id, set.has id = true ∧ s.users.get id = some x := by
  unfold usersOf
  simp only [List.mem_filterMap, GoMap.mem_keys_iff]

/-- Under the invariant, a listing holds the user of id `a` exactly when the
set holds `a` and `a` is a user. -/
theorem exists_usersOf_id (s : MemoryStore) (hk : ∀ k u, s.users.get k = some u → u.ID = k)
    (set : IDSet) (a : Int) :
    (∃ x ∈ s.usersOf set, x.ID = a) ↔ (set.has a = true ∧ s.users.has a = true) := by
  constructor
  · rintro ⟨x, hx, rfl⟩
    obtain ⟨id, h1, h2⟩ := (mem_usersOf s set x).1 hx
    have := hk id x h2
    subst this
    exact ⟨h1, by simp [GoMap.has, h2]⟩
  · rintro ⟨h1, h2⟩
    unfold GoMap.has at h2
    cases hg : s.users.get a with
    | none => simp [hg] at h2
    | some x => exact ⟨x, (mem_usersOf s set x).2 ⟨a, h1, hg⟩, hk a x hg⟩

/-- C1. Follow-graph symmetry: in every state a `MemoryStore` can reach, for
existing users `u` and `s`, both listings succeed and `FollowedBy(u)` holds the
user with id `s` exactly when `FollowersOf(s)` holds the user with id `u`. -/
theorem follow_graph_symmetry (st : MemoryStore) (h : Reachable st) (u s : Int)
    (hu : st.users.has u = true) (hs : st.users.has s = true) :
    ∃ fl fr, st.FollowedBy u = .ok fl ∧ st.FollowersOf s = .ok fr ∧
      ((∃ x ∈ fl, x.ID = s) ↔ (∃ y ∈ fr, y.ID = u)) := by
  have wf := h.wf
  refine ⟨_, _, FollowedBy_ok st u hu, FollowersOf_ok st s hs, ?_⟩
  rw [exists_usersOf_id st wf.userKey, exists_usersOf_id st wf.userKey]
  have := wf.sym u s
  unfold edgeIn at this
  rw [this]
  simp [hu, hs]

set_option maxRecDepth 8000 in
theorem follow_graph_symmetry_witness :
    Reachable followStore ∧ followStore.users.has 1 = true ∧ followStore.users.has 2 = true ∧
    ∃ fl fr, followStore.FollowedBy 1 = .ok fl ∧ followStore.FollowersOf 2 = .ok fr ∧
      ((∃ x ∈ fl, x.ID = 2) ↔ (∃ y ∈ fr, y.ID = 1)) :=
  ⟨⟨followOps, rfl⟩, rfl, rfl,
    follow_graph_symmetry followStore ⟨followOps, rfl⟩ 1 2 rfl rfl⟩

theorem Follow_ok (st : MemoryStore) (u s : Int) (hu : st.users.has u = true)
    (hs : st.users.has s = true) :
    st.Follow u s =
      ({ st with
          followers := st.followers.set s ((innerOrEmpty st.followers s).set u ())
          followed := st.followed.set u ((innerOrEmpty st.followed u).set s ()) }, none) := by
  unfold Follow
  rw [(has_eq_true_iff _ _).1 hu, (has_eq_true_iff _ _).1 hs]
  rfl

theorem Unfollow_ok (st : MemoryStore) (u s : Int) (hu : st.users.has u = true)
    (hs : st.users.has s = true) :
    st.Unfollow u s =
      ({ st with
          followers := deleteInner st.followers s u
          followed := deleteInner st.followed u s }, none) := by
  unfold Unfollow
  rw [(has_eq_true_iff _ _).1 hu, (has_eq_true_iff _ _).1 hs]
  rfl

/-- Adding to an index an edge it already has leaves the index as it is. -/
theorem add_edge_twice (m : GoMap Int IDSet) (k x : Int) :
    let m1 := m.set k ((innerOrEmpty m k).set x ())
    m1.set k ((innerOrEmpty m1 k).set x ()) = m1 := by
  intro m1
  have h1 : innerOrEmpty m1 k = (innerOrEmpty m k).set x () := by
    simp [m1, innerOrEmpty_set]
  rw [h1, GoMap.set_set, GoMap.set_set]

theorem Follow_twice (st : MemoryStore) (u s : Int) (hu : st.users.has u = true)
    (hs : st.users.has s = true) :
    (st.Follow u s).1.Follow u s = st.Follow u s := by
  rw [Follow_ok st u s hu hs]
  have h2 := Follow_ok
    { st with
        followers := st.followers.set s ((innerOrEmpty st.followers s).set u ())
        followed := st.followed.set u ((innerOrEmpty st.followed u).set s ()) } u s hu hs
  simp only [add_edge_twice] at h2
  exact h2

theorem countP_usersOf (s : MemoryStore) (hk : ∀ k u, s.users.get k = some u → u.ID = k)
    (l : List Int) (a : Int) (ha : s.users.has a = true) :
    (l.filterMap (fun id => s.users.get id)).countP (fun x => decide (x.ID = a)) = l.count a := by
  induction l with
  | nil => simp
  | cons k t ih =>
    cases hg : s.users.get k with
    | none =>
      have hne : k ≠ a := by
        rintro rfl
        simp [GoMap.has, hg] at ha
      rw [List.filterMap_cons_none hg, ih, List.count_cons_of_ne (Ne.symm hne)]
    | some y =>
      have hy := hk k y hg
      rw [List.filterMap_cons_some hg]
      by_cases hka : k = a
      · subst hka
        rw [List.countP_cons_of_pos _ _ (by simp [hy]), ih, List.count_cons_self]
      · rw [List.countP_cons_of_neg _ _ (by simp [hy, hka]), ih, List.count_cons_of_ne (Ne.symm hka)]

theorem countP_usersOf_one (s : MemoryStore) (hk : ∀ k u, s.users.get k = some u → u.ID = k)
    (set : IDSet) (a : Int) (ha : s.users.has a = true) (hnd : set.keys.Nodup)
    (hmem : set.has a = true) :
    (s.usersOf set).countP (fun x => decide (x.ID = a)) = 1 := by
  unfold usersOf
  rw [countP_usersOf s hk _ a ha]
  exact List.count_eq_one_of_mem hnd ((GoMap.mem_keys_iff _ _).2 hmem)

/-- C2. Follow idempotence: for existing users `u` and `s`, in every state a
`MemoryStore` can reach, `Follow(u,s)` returns nil both times it is called, the
second call leaves the store exactly as the first one left it, and afterwards
`FollowersOf(s)` lists exactly one user of id `u` and `FollowedBy(u)` exactly
one user of id `s`. -/
theorem follow_idempotent (st : MemoryStore) (h : Reachable st) (u s : Int)
    (hu : st.users.has u = true) (hs : st.users.has s = true) :
    (st.Follow u s).2 = none ∧ ((st.Follow u s).1.Follow u s).2 = none ∧
    ((st.Follow u s).1.Follow u s).1 = (st.Follow u s).1 ∧
    (∃ fr, ((st.Follow u s).1.Follow u s).1.FollowersOf s = .ok fr ∧
      fr.countP (fun x => decide (x.ID = u)) = 1) ∧
    (∃ fl, ((st.Follow u s).1.Follow u s).1.FollowedBy u = .ok fl ∧
      fl.countP (fun x => decide (x.ID = s)) = 1) := by
  have wf1 : WF (st.Follow u s).1 := WF_Follow st u s h.wf
  rw [Follow_twice st u s hu hs]
  rw [Follow_ok st u s hu hs] at wf1 ⊢
  refine ⟨rfl, rfl, rfl, ⟨_, FollowersOf_ok _ s hs, ?_⟩, ⟨_, FollowedBy_ok _ u hu, ?_⟩⟩
  · refine countP_usersOf_one _ wf1.userKey _ u hu (wf1.nodupFollowers s) ?_
    simp [innerOrEmpty_set, GoMap.has_set]
  · refine countP_usersOf_one _ wf1.userKey _ s hs (wf1.nodupFollowed u) ?_
    simp [innerOrEmpty_set, GoMap.has_set]

set_option maxRecDepth 8000 in
theorem follow_idempotent_witness :
    Reachable followStore ∧ followStore.users.has 1 = true ∧ followStore.users.has 3 = true ∧
    ((followStore.Follow 1 3).2 = none ∧ ((followStore.Follow 1 3).1.Follow 1 3).2 = none ∧
    ((followStore.Follow 1 3).1.Follow 1 3).1 = (followStore.Follow 1 3).1 ∧
    (∃ fr, ((followStore.Follow 1 3).1.Follow 1 3).1.FollowersOf 3 = .ok fr ∧
      fr.countP (fun x => decide (x.ID = 1)) = 1) ∧
    (∃ fl, ((followStore.Follow 1 3).1.Follow 1 3).1.FollowedBy 1 = .ok fl ∧
      fl.countP (fun x => decide (x.ID = 3)) = 1)) :=
  ⟨⟨followOps, rfl⟩, rfl, rfl, follow_idempotent followStore ⟨followOps, rfl⟩ 1 3 rfl rfl⟩

theorem deleteInner_absent (m : GoMap Int IDSet) (k x : Int) (h : edgeIn m k x = false) :
    deleteInner m k x = m := by
  unfold deleteInner
  cases hg : m.get k with
  | none => rfl
  | some set =>
    have hx : set.get x = none := by
      simp only [edgeIn, innerOrEmpty, hg, GoMap.has] at h
      cases hs : set.get x with
      | none => rfl
      | some v => simp [hs] at h
    simp only
    rw [GoMap.delete_of_get_none set x hx]
    exact GoMap.set_of_get m k set hg

/-- Removing an edge right after adding it to an index that lacked it leaves
every set of the index with its old content. -/
theorem innerOrEmpty_add_delete (m : GoMap Int IDSet) (k x : Int) (h : edgeIn m k x = false)
    (k' : Int) :
    innerOrEmpty (deleteInner (m.set k ((innerOrEmpty m k).set x ())) k x) k' =
      innerOrEmpty m k' := by
  have hx : (innerOrEmpty m k).get x = none := by
    simp only [edgeIn, GoMap.has] at h
    cases hs : (innerOrEmpty m k).get x with
    | none => rfl
    | some v => simp [hs] at h
  rw [innerOrEmpty_deleteInner, innerOrEmpty_set]
  by_cases hk : k' = k
  · subst hk
    simp [GoMap.delete_set_of_get_none _ _ _ hx]
  · simp [hk, innerOrEmpty_set]

theorem usersOf_delete (s : MemoryStore) (hk : ∀ k u, s.users.get k = some u → u.ID = k)
    (set : IDSet) (a : Int) :
    s.usersOf (set.delete a) = (s.usersOf set).filter (fun x => decide (x.ID ≠ a)) := by
  unfold usersOf GoMap.keys GoMap.delete
  induction set with
  | nil => simp
  | cons e t ih =>
    obtain ⟨k, v⟩ := e
    by_cases hka : k = a
    · subst hka
      cases hg : s.users.get k with
      | none => simpa [List.filter_cons, hg] using ih
      | some y =>
        have := hk k y hg
        simpa [List.filter_cons, hg, this] using ih
    · cases hg : s.users.get k with
      | none => simpa [List.filter_cons, hg, hka] using ih
      | some y =>
        have := hk k y hg
        simpa [List.filter_cons, hg, this, hka] using ih

/-- C3. Unfollow postcondition: for existing users `u` and `s`, in every state a
`MemoryStore` can reach, `Unfollow(u,s)` returns nil and changes nothing but
the two follow indices; afterwards `FollowersOf(s)` is the old listing without
the user of id `u`, `FollowedBy(u)` the old listing without the user of id `s`,
and the listings of all other users are the old ones (so every other edge is
kept, both in the indices and in the listings).  If the edge did not exist the
store is unchanged, and `Follow(u,s)` followed by `Unfollow(u,s)` then gives
back the old `FollowersOf` and `FollowedBy` results of every user. -/
theorem unfollow_postcondition (st : MemoryStore) (h : Reachable st) (u s : Int)
    (hu : st.users.has u = true) (hs : st.users.has s = true) :
    (st.Unfollow u s).2 = none ∧
    (st.Unfollow u s).1 =
      { st with followers := (st.Unfollow u s).1.followers,
                followed := (st.Unfollow u s).1.followed } ∧
    (∀ b, (st.Unfollow u s).1.FollowersOf b =
      (st.FollowersOf b).map
        (fun l => if b = s then l.filter (fun x => decide (x.ID ≠ u)) else l)) ∧
    (∀ a, (st.Unfollow u s).1.FollowedBy a =
      (st.FollowedBy a).map
        (fun l => if a = u then l.filter (fun x => decide (x.ID ≠ s)) else l)) ∧
    (∀ a b, ¬ (a = u ∧ b = s) →
      edgeIn (st.Unfollow u s).1.followers b a = edgeIn st.followers b a ∧
      edgeIn (st.Unfollow u s).1.followed a b = edgeIn st.followed a b) ∧
    edgeIn (st.Unfollow u s).1.followers s u = false ∧
    edgeIn (st.Unfollow u s).1.followed u s = false ∧
    (edgeIn st.followers s u = false → (st.Unfollow u s).1 = st) ∧
    (edgeIn st.followers s u = false → ∀ x,
      ((st.Follow u s).1.Unfollow u s).1.FollowersOf x = st.FollowersOf x ∧
      ((st.Follow u s).1.Unfollow u s).1.FollowedBy x = st.FollowedBy x) := by
  have wf := h.wf
  refine ⟨?_, ?_, ?_, ?_, ?_, ?_, ?_, ?_, ?_⟩
  · rw [Unfollow_ok st u s hu hs]
  · rw [Unfollow_ok st u s hu hs]
  · intro b
    rw [Unfollow_ok st u s hu hs]
    unfold FollowersOf
    simp only
    cases hb : (st.users.get b).isNone with
    | true => simp [Except.map]
    | false =>
      simp only [Bool.false_eq_true, if_false, Except.map, innerOrEmpty_deleteInner]
      by_cases hbs : b = s
      · simp only [hbs, if_true]
        exact congrArg Except.ok (usersOf_delete st wf.userKey _ u)
      · simp only [hbs, if_false]
        rfl
  · intro a
    rw [Unfollow_ok st u s hu hs]
    unfold FollowedBy
    simp only
    cases ha : (st.users.get a).isNone with
    | true => simp [Except.map]
    | false =>
      simp only [Bool.false_eq_true, if_false, Except.map, innerOrEmpty_deleteInner]
      by_cases hau : a = u
      · simp only [hau, if_true]
        exact congrArg Except.ok (usersOf_delete st wf.userKey _ s)
      · simp only [hau, if_false]
        rfl
  · intro a b hab
    rw [Unfollow_ok st u s hu hs]
    simp only [edgeIn_deleteInner]
    constructor
    · have : ¬ (b = s ∧ a = u) := fun hh => hab ⟨hh.2, hh.1⟩
      simp [this]
    · simp [hab]
  · rw [Unfollow_ok st u s hu hs]
    simp [edgeIn_deleteInner]
  · rw [Unfollow_ok st u s hu hs]
    simp [edgeIn_deleteInner]
  · intro he
    have he2 : edgeIn st.followed u s = false := by rw [← wf.sym u s]; exact he
    rw [Unfollow_ok st u s hu hs]
    simp only [deleteInner_absent _ _ _ he, deleteInner_absent _ _ _ he2]
  · intro he x
    have he2 : edgeIn st.followed u s = false := by rw [← wf.sym u s]; exact he
    rw [Follow_ok st u s hu hs]
    have h2 := Unfollow_ok
      { st with
          followers := st.followers.set s ((innerOrEmpty st.followers s).set u ())
          followed := st.followed.set u ((innerOrEmpty st.followed u).set s ()) } u s hu hs
    simp only at h2 ⊢
    rw [h2]
    unfold FollowersOf FollowedBy
    simp only [innerOrEmpty_add_delete _ _ _ he, innerOrEmpty_add_delete _ _ _ he2]
    exact ⟨rfl, rfl⟩

set_option maxRecDepth 8000 in
theorem unfollow_postcondition_witness :
    Reachable followStore ∧ followStore.users.has 1 = true ∧ followStore.users.has 2 = true ∧
    (followStore.Unfollow 1 2).2 = none ∧
    (followStore.Unfollow 1 2).1.FollowersOf 2 =
      .ok [{ ID := 3, Name := "SellerB", IsSeller := false }] :=
  ⟨⟨followOps, rfl⟩, rfl, rfl,
    (unfollow_postcondition followStore ⟨followOps, rfl⟩ 1 2 rfl rfl).1, rfl⟩

theorem innerOrEmpty_eq_nil (m : GoMap Int IDSet) (k : Int) (h : ∀ a, edgeIn m k a = false) :
    innerOrEmpty m k = [] := by
  unfold edgeIn at h
  cases hi : innerOrEmpty m k with
  | nil => rfl
  | cons e t =>
    have := h e.1
    rw [hi] at this
    simp [GoMap.has, GoMap.get] at this

/-- C4. `Follow` and `Unfollow` need both endpoints: each returns
`ErrUserNotFound` exactly when `u` or `s` is not an existing user, returns nil
otherwise, and on the error leaves the whole store as it was.  `FollowersOf` and
`FollowedBy` return `ErrUserNotFound` exactly when their argument is not an
existing user, and the empty list without error for an existing user that has
no edge. -/
theorem follow_requires_endpoints (st : MemoryStore) (u s : Int) :
    ((st.Follow u s).2 = some Err.ErrUserNotFound ↔
      (st.users.has u = false ∨ st.users.has s = false)) ∧
    ((st.Follow u s).2 = none ↔ (st.users.has u = true ∧ st.users.has s = true)) ∧
    ((st.Follow u s).2 ≠ none → (st.Follow u s).1 = st) ∧
    ((st.Unfollow u s).2 = some Err.ErrUserNotFound ↔
      (st.users.has u = false ∨ st.users.has s = false)) ∧
    ((st.Unfollow u s).2 = none ↔ (st.users.has u = true ∧ st.users.has s = true)) ∧
    ((st.Unfollow u s).2 ≠ none → (st.Unfollow u s).1 = st) ∧
    (st.FollowersOf s = .error Err.ErrUserNotFound ↔ st.users.has s = false) ∧
    (st.FollowedBy u = .error Err.ErrUserNotFound ↔ st.users.has u = false) ∧
    (st.users.has s = true → (∀ a, edgeIn st.followers s a = false) →
      st.FollowersOf s = .ok []) ∧
    (st.users.has u = true → (∀ b, edgeIn st.followed u b = false) →
      st.FollowedBy u = .ok []) := by
  refine ⟨?_, ?_, ?_, ?_, ?_, ?_, ?_, ?_, ?_, ?_⟩
  · unfold Follow GoMap.has
    cases st.users.get u <;> cases st.users.get s <;> simp
  · unfold Follow GoMap.has
    cases st.users.get u <;> cases st.users.get s <;> simp
  · unfold Follow
    cases st.users.get u <;> cases st.users.get s <;> simp
  · unfold Unfollow GoMap.has
    cases st.users.get u <;> cases st.users.get s <;> simp
  · unfold Unfollow GoMap.has
    cases st.users.get u <;> cases st.users.get s <;> simp
  · unfold Unfollow
    cases st.users.get u <;> cases st.users.get s <;> simp
  · unfold FollowersOf GoMap.has
    cases st.users.get s <;> simp
  · unfold FollowedBy GoMap.has
    cases st.users.get u <;> simp
  · intro hs he
    rw [FollowersOf_ok st s hs, innerOrEmpty_eq_nil _ _ he]
    rfl
  · intro hu he
    rw [FollowedBy_ok st u hu, innerOrEmpty_eq_nil _ _ he]
    rfl

/-! ## The post store -/

/-- The search loop of `DeletePost` in terms of the first post with the id:
its position is `idx`, and the owner check decides between the two outcomes. -/
theorem deleteScan_spec (userID postID : Int) (posts : List Post) (i : Int) :
    deleteScan userID postID posts i =
      match posts.find? (fun p => decide (p.PostID = postID)) with
      | none => (none, -1)
      | some p =>
        if p.UserID ≠ userID then (some Err.ErrPostForbidden, -1)
        else (none, i + (posts.findIdx (fun p => decide (p.PostID = postID)) : Nat)) := by
  induction posts generalizing i with
  | nil => simp [deleteScan]
  | cons p ps ih =>
    by_cases hp : p.PostID = postID
    · by_cases hu : p.UserID = userID <;>
        simp [deleteScan, hp, hu, List.find?_cons, List.findIdx_cons]
    · simp only [deleteScan, hp, if_false, List.find?_cons, decide_False, ih (i + 1),
        List.findIdx_cons, cond_false]
      cases ps.find? (fun p => decide (p.PostID = postID)) with
      | none => rfl
      | some q =>
        simp only
        split
        · rfl
        · congr 1
          push_cast
          omega

/-- Where post ids are distinct, the first post with an id is the only one. -/
theorem find_of_nodup (l : List Post) (postID : Int)
    (hnd : (l.map (fun p => p.PostID)).Nodup) (p : Post) (hp : p ∈ l) (hid : p.PostID = postID) :
    l.find? (fun q => decide (q.PostID = postID)) = some p := by
  induction l with
  | nil => simp at hp
  | cons a t ih =>
    rw [List.map_cons, List.nodup_cons] at hnd
    rcases List.mem_cons.1 hp with rfl | hpt
    · simp [List.find?_cons, hid]
    · have hne : a.PostID ≠ postID := by
        intro ha
        exact hnd.1 (List.mem_map.2 ⟨p, hpt, by rw [hid, ha]⟩)
      simp only [List.find?_cons, hne, decide_False]
      exact ih hnd.2 hpt

/-- C5. Error precedence and atomicity of `DeletePost`: the result is
`ErrUserNotFound` if `userID` is no existing user; otherwise `ErrPostNotFound`
if no stored post has the id `postID`; otherwise `ErrPostForbidden` if the
post with that id belongs to another user; otherwise nil.  Whenever the result
is an error the store is left exactly as it was.  The post with the id is the
first one in storage order, which in a reachable state is the only one. -/
theorem delete_post_error_precedence (st : MemoryStore) (userID postID : Int) :
    (st.DeletePost userID postID).2 =
      (if st.users.has userID = false then some Err.ErrUserNotFound
       else
         match st.posts.find? (fun p => decide (p.PostID = postID)) with
         | none => some Err.ErrPostNotFound
         | some p => if p.UserID ≠ userID then some Err.ErrPostForbidden else none) ∧
    (st.posts.find? (fun p => decide (p.PostID = postID)) = none ↔
      ∀ p ∈ st.posts, p.PostID ≠ postID) ∧
    (Reachable st → ∀ p ∈ st.posts, p.PostID = postID →
      st.posts.find? (fun q => decide (q.PostID = postID)) = some p) ∧
    ((st.DeletePost userID postID).2 ≠ none → (st.DeletePost userID postID).1 = st) := by
  have hscan := deleteScan_spec userID postID st.posts 0
  refine ⟨?_, ?_, fun hr p hp hid => find_of_nodup _ _ hr.wf.postIDs p hp hid, ?_⟩
  · unfold DeletePost GoMap.has
    cases st.users.get userID with
    | none => simp
    | some x =>
      simp only [Option.isNone_some, Bool.false_eq_true, if_false, Option.isSome_some, hscan]
      cases st.posts.find? (fun p => decide (p.PostID = postID)) with
      | none => simp
      | some p =>
        by_cases hu : p.UserID = userID
        · simp only [hu, ne_eq, not_true_eq_false, if_false]
          rw [if_neg (by omega)]
          simp
        · simp [hu]
  · simp [List.find?_eq_none]
  · unfold DeletePost
    cases st.users.get userID with
    | none => simp
    | some x =>
      simp only [Option.isNone_some, Bool.false_eq_true, if_false, hscan]
      cases st.posts.find? (fun p => decide (p.PostID = postID)) with
      | none => simp
      | some p =>
        by_cases hu : p.UserID = userID
        · simp only [hu, ne_eq, not_true_eq_false, if_false]
          rw [if_neg (by omega)]
          simp
        · simp [hu]

theorem find_split (l : List Post) (pr : Post → Bool) (p : Post) (h : l.find? pr = some p) :
    l = l.take (l.findIdx pr) ++ p :: l.drop (l.findIdx pr + 1) ∧ pr p = true := by
  induction l with
  | nil => simp at h
  | cons a t ih =>
    by_cases ha : pr a = true
    · simp only [List.find?_cons, ha, Option.some.injEq] at h
      subst h
      simp [List.findIdx_cons, ha]
    · simp only [Bool.not_eq_true] at ha
      simp only [List.find?_cons, ha] at h
      obtain ⟨h2, h3⟩ := ih h
      refine ⟨?_, h3⟩
      simp only [List.findIdx_cons, ha, cond_false, List.take_succ_cons, List.drop_succ_cons,
        List.cons_append]
      exact congrArg _ h2

/-- What a successful `DeletePost` does to the post list. -/
theorem DeletePost_ok (st : MemoryStore) (userID postID : Int)
    (hok : (st.DeletePost userID postID).2 = none) :
    ∃ l1 p l2, st.posts = l1 ++ p :: l2 ∧ p.PostID = postID ∧ p.UserID = userID ∧
      (st.DeletePost userID postID).1 = { st with posts := l1 ++ l2 } := by
  have hscan := deleteScan_spec userID postID st.posts 0
  unfold DeletePost at hok ⊢
  cases hg : st.users.get userID with
  | none => simp [hg] at hok
  | some x =>
    simp only [hg, Option.isNone_some, Bool.false_eq_true, if_false, hscan] at hok ⊢
    cases hf : st.posts.find? (fun p => decide (p.PostID = postID)) with
    | none => simp [hf] at hok
    | some p =>
      simp only [hf] at hok ⊢
      by_cases hu : p.UserID = userID
      · obtain ⟨h2, h3⟩ := find_split _ _ _ hf
        refine ⟨_, p, _, h2, by simpa using h3, hu, ?_⟩
        · simp only [hu, ne_eq, not_true_eq_false, if_false]
          rw [if_neg (by omega)]
          simp
      · simp [hu] at hok

/-- C6. Success frame of `DeletePost`: when it returns nil in a reachable state,
exactly one post, the one with id `postID`, owned by `userID`, is taken out of
the list; all other posts stay, unmodified and in their order; users, follow
edges and counters are unchanged; and no post with id `postID` is left, so none
shows up in `PostsByUser`, `PromoPostsBySeller` or `PostsFromSellersSince`. -/
theorem delete_post_success_frame (st : MemoryStore) (h : Reachable st) (userID postID : Int)
    (hok : (st.DeletePost userID postID).2 = none) :
    ∃ l1 p l2, st.posts = l1 ++ p :: l2 ∧ p.PostID = postID ∧ p.UserID = userID ∧
      (st.DeletePost userID postID).1 = { st with posts := l1 ++ l2 } ∧
      (∀ q ∈ (st.DeletePost userID postID).1.posts, q.PostID ≠ postID) ∧
      (∀ uid, ∀ q ∈ (st.DeletePost userID postID).1.PostsByUser uid, q.PostID ≠ postID) ∧
      (∀ sid, ∀ q ∈ (st.DeletePost userID postID).1.PromoPostsBySeller sid,
        q.PostID ≠ postID) ∧
      (∀ ids since, ∀ q ∈ (st.DeletePost userID postID).1.PostsFromSellersSince ids since,
        q.PostID ≠ postID) := by
  obtain ⟨l1, p, l2, h1, h2, h3, h5⟩ := DeletePost_ok st userID postID hok
  have hnd := h.wf.postIDs
  rw [h1] at hnd
  have hrest : ∀ q ∈ l1 ++ l2, q.PostID ≠ postID := by
    intro q hq hqid
    simp only [List.map_append, List.map_cons] at hnd
    have hnd2 := List.nodup_middle.1 hnd
    rw [List.nodup_cons] at hnd2
    apply hnd2.1
    rw [← List.map_append, h2, ← hqid]
    exact List.mem_map_of_mem _ hq
  refine ⟨l1, p, l2, h1, h2, h3, h5, ?_, ?_, ?_, ?_⟩
  · rw [h5]; exact hrest
  · intro uid q hq
    rw [h5] at hq
    exact hrest q (List.mem_of_mem_filter hq)
  · intro sid q hq
    rw [h5] at hq
    exact hrest q (List.mem_of_mem_filter hq)
  · intro ids since q hq
    rw [h5] at hq
    exact hrest q (List.mem_of_mem_filter hq)

set_option maxRecDepth 8000 in
theorem delete_post_success_frame_witness :
    Reachable postStore ∧ (postStore.DeletePost 3 2).2 = none ∧
    ∃ l1 p l2, postStore.posts = l1 ++ p :: l2 ∧ p.PostID = 2 ∧ p.UserID = 3 ∧
      (postStore.DeletePost 3 2).1 = { postStore with posts := l1 ++ l2 } ∧
      (∀ q ∈ (postStore.DeletePost 3 2).1.posts, q.PostID ≠ 2) ∧
      (∀ uid, ∀ q ∈ (postStore.DeletePost 3 2).1.PostsByUser uid, q.PostID ≠ 2) ∧
      (∀ sid, ∀ q ∈ (postStore.DeletePost 3 2).1.PromoPostsBySeller sid, q.PostID ≠ 2) ∧
      (∀ ids since, ∀ q ∈ (postStore.DeletePost 3 2).1.PostsFromSellersSince ids since,
        q.PostID ≠ 2) :=
  ⟨⟨postOps, rfl⟩, rfl, delete_post_success_frame postStore ⟨postOps, rfl⟩ 3 2 rfl⟩

theorem nextPostID_seedOne (s : MemoryStore) (u : User) :
    (s.seedOne u).nextPostID = s.nextPostID := by
  unfold seedOne
  simp only
  split <;> rfl

theorem nextPostID_SeedUsers (users : List User) (s : MemoryStore) :
    (s.SeedUsers users).nextPostID = s.nextPostID := by
  unfold SeedUsers
  induction users generalizing s with
  | nil => rfl
  | cons u t ih => rw [List.foldl_cons, ih, nextPostID_seedOne]

theorem AddPost_ok (s : MemoryStore) (p : Post) (h : s.users.has p.UserID = true) :
    s.AddPost p =
      ({ s with nextPostID := s.nextPostID + 1,
                posts := s.posts ++ [{ p with PostID := s.nextPostID }] },
       s.nextPostID, none) := by
  unfold AddPost
  rw [(has_eq_true_iff _ _).1 h]
  rfl

theorem AddPost_fail (s : MemoryStore) (p : Post) (h : s.users.has p.UserID = false) :
    s.AddPost p = (s, 0, some Err.ErrUserNotFound) := by
  unfold AddPost
  rw [(has_eq_false_iff _ _).1 h]
  rfl

theorem AddPost_succeeds_iff (s : MemoryStore) (p : Post) :
    (s.AddPost p).2.2 = none ↔ s.users.has p.UserID = true := by
  cases h : s.users.has p.UserID with
  | true => simp [AddPost_ok s p h]
  | false => simp [AddPost_fail s p h]

/-- The post counter after a run: its old value plus the successful `AddPost` calls. -/
theorem nextPostID_runOps (ops : List Op) (s : MemoryStore) :
    (runOps s ops).nextPostID = s.nextPostID + (addCount s ops : Int) := by
  induction ops generalizing s with
  | nil => simp [runOps, addCount]
  | cons op t ih =>
    have hstep : runOps s (op :: t) = runOps (op.apply s) t := rfl
    rw [hstep, ih]
    cases op with
    | seedUsers users => simp [Op.apply, addCount, nextPostID_SeedUsers]
    | createUser name isSeller => simp [Op.apply, addCount, CreateUser]
    | createAccount now name email passwordHash isSeller =>
      simp only [Op.apply, addCount, CreateAccount]
      split <;> rfl
    | updateAvatar userID avatarURL =>
      simp only [Op.apply, addCount, UpdateAvatar]
      split <;> rfl
    | follow userID sellerID =>
      simp only [Op.apply, addCount, Follow]
      split
      · rfl
      · split <;> rfl
    | unfollow userID sellerID =>
      simp only [Op.apply, addCount, Unfollow]
      split
      · rfl
      · split <;> rfl
    | addPost p =>
      simp only [Op.apply, addCount]
      cases h : s.users.has p.UserID with
      | true =>
        simp only [AddPost_ok s p h, if_true, Nat.cast_add, Nat.cast_one]
        omega
      | false => simp [AddPost_fail s p h]
    | deletePost userID postID =>
      simp only [Op.apply, addCount, DeletePost]
      split
      · rfl
      · split
        · rfl
        · split <;> rfl

/-- C7. `AddPost` assigns sequential ids: after any calls on a new store, a
successful `AddPost` returns one more than the number of earlier successful
`AddPost` calls (so the first returns 1 and the k-th returns k) and appends the
post under that id, whatever `PostID` the caller supplied.  For a `UserID` that
is no existing user it returns `(0, ErrUserNotFound)` and the store, its post
list and counter included, stays as it was, so no id is consumed. -/
theorem add_post_sequential_ids (ops : List Op) (p : Post) :
    (runOps NewMemoryStore ops).AddPost p =
      if (runOps NewMemoryStore ops).users.has p.UserID = true then
        ({ runOps NewMemoryStore ops with
            nextPostID := (addCount NewMemoryStore ops : Int) + 1 + 1
            posts := (runOps NewMemoryStore ops).posts ++
              [{ p with PostID := (addCount NewMemoryStore ops : Int) + 1 }] },
         (addCount NewMemoryStore ops : Int) + 1, none)
      else (runOps NewMemoryStore ops, 0, some Err.ErrUserNotFound) := by
  have hn := nextPostID_runOps ops NewMemoryStore
  have h1 : NewMemoryStore.nextPostID = 1 := rfl
  cases h : (runOps NewMemoryStore ops).users.has p.UserID with
  | true =>
    rw [AddPost_ok _ p h, hn, h1]
    simp [add_comm]
  | false =>
    rw [AddPost_fail _ p h]
    simp

/-- C8. Post ids are never reused: in every state a `MemoryStore` can reach the
stored posts have pairwise distinct ids, all greater than 0, and an id returned
by a successful `AddPost` is strictly below the id returned by any successful
`AddPost` made later, whatever calls (deletions included) lie in between. -/
theorem post_ids_never_reused (st : MemoryStore) (h : Reachable st) :
    (st.posts.map (fun p => p.PostID)).Nodup ∧
    (∀ p ∈ st.posts, 0 < p.PostID) ∧
    (∀ (p1 : Post) (ops : List Op) (p2 : Post),
      (st.AddPost p1).2.2 = none →
      ((runOps (st.AddPost p1).1 ops).AddPost p2).2.2 = none →
      (st.AddPost p1).2.1 < ((runOps (st.AddPost p1).1 ops).AddPost p2).2.1) := by
  refine ⟨h.wf.postIDs, fun p hp => (h.wf.postRange p hp).1, ?_⟩
  intro p1 ops p2 h1 h2
  rw [AddPost_succeeds_iff] at h1 h2
  rw [AddPost_ok _ p2 h2, nextPostID_runOps]
  rw [AddPost_ok _ p1 h1]
  simp only
  omega

set_option maxRecDepth 8000 in
theorem post_ids_never_reused_witness :
    Reachable postStore ∧
    (postStore.AddPost (samplePost 2 400 false)).2.1 <
      ((runOps (postStore.AddPost (samplePost 2 400 false)).1
        [Op.deletePost 2 4, Op.deletePost 2 1]).AddPost (samplePost 3 500 false)).2.1 :=
  ⟨⟨postOps, rfl⟩,
    (post_ids_never_reused postStore ⟨postOps, rfl⟩).2.2 (samplePost 2 400 false)
      [Op.deletePost 2 4, Op.deletePost 2 1] (samplePost 3 500 false) rfl rfl⟩

theorem has_foldl_set (ids : List Int) (acc : IDSet) (k : Int) :
    (ids.foldl (fun set id => set.set id ()) acc).has k = (acc.has k || decide (k ∈ ids)) := by
  induction ids generalizing acc with
  | nil => simp
  | cons a t ih =>
    rw [List.foldl_cons, ih, GoMap.has_set]
    by_cases hka : k = a <;> simp [hka]

theorem sellerSet_has (ids : List Int) (k : Int) : (sellerSet ids).has k = decide (k ∈ ids) := by
  unfold sellerSet
  rw [has_foldl_set]
  simp [GoMap.has, GoMap.get]

/-- The loop of `PostsFromSellersSince` keeps exactly the posts of the listed
sellers dated `since` or later. -/
theorem PostsFromSellersSince_eq_filter (st : MemoryStore) (ids : List Int) (since : Time) :
    st.PostsFromSellersSince ids since =
      st.posts.filter (fun p => decide (p.UserID ∈ ids ∧ since ≤ p.Date)) := by
  unfold PostsFromSellersSince
  simp only
  apply List.filter_congr
  intro p _
  rw [sellerSet_has]
  by_cases hm : p.UserID ∈ ids
  · rcases lt_trichotomy p.Date since with hlt | heq | hgt
    · have h1 : ¬ p.Date = since := ne_of_lt hlt
      have h2 : ¬ p.Date > since := not_lt.2 (le_of_lt hlt)
      have h3 : ¬ since ≤ p.Date := not_le.2 hlt
      simp [hm, h1, h2, h3]
    · simp [hm, heq]
    · have h3 : since ≤ p.Date := le_of_lt hgt
      simp [hm, hgt, h3]
  · simp [hm]

theorem mem_PostsFromSellersSince (st : MemoryStore) (ids : List Int) (since : Time) (p : Post) :
    p ∈ st.PostsFromSellersSince ids since ↔
      (p ∈ st.posts ∧ p.UserID ∈ ids ∧ since ≤ p.Date) := by
  rw [PostsFromSellersSince_eq_filter]
  simp [List.mem_filter]

/-- C9. `PostsFromSellersSince` is an exact filter with an inclusive boundary:
the result is the list of stored posts, in storage order and each as often as it
is stored, whose `UserID` occurs in `sellerIDs` and whose date is `since` or
later; a post dated exactly `since` is in it; for no seller ids it is empty. -/
theorem posts_from_sellers_since_filter (st : MemoryStore) (sellerIDs : List Int)
    (since : Time) :
    st.PostsFromSellersSince sellerIDs since =
      st.posts.filter (fun p => decide (p.UserID ∈ sellerIDs ∧ since ≤ p.Date)) ∧
    (∀ p, p ∈ st.PostsFromSellersSince sellerIDs since ↔
      (p ∈ st.posts ∧ p.UserID ∈ sellerIDs ∧ since ≤ p.Date)) ∧
    (∀ p ∈ st.posts, p.UserID ∈ sellerIDs → p.Date = since →
      p ∈ st.PostsFromSellersSince sellerIDs since) ∧
    st.PostsFromSellersSince [] since = [] := by
  have hfil := fun ids => PostsFromSellersSince_eq_filter st ids since
  refine ⟨hfil _, ?_, ?_, ?_⟩
  · intro p
    exact mem_PostsFromSellersSince st sellerIDs since p
  · intro p hp hu hd
    rw [hfil]
    simp [List.mem_filter, hp, hu, hd]
  · rw [hfil]
    simp

/-! ## The feed of the last two weeks -/

theorem publishPost_ok (payload : PublishPayload) (p : Post) (h : publishPost payload = .ok p) :
    p.UserID = payload.UserID ∧ parseDate payload.Date = .ok p.Date := by
  unfold publishPost at h
  repeat' split at h
  all_goals (cases h <;> exact ⟨rfl, by assumption⟩)

theorem mem_SortPostsByDate (l : List Post) (order : String) (q : Post) :
    q ∈ SortPostsByDate l order ↔ q ∈ l := by
  unfold SortPostsByDate
  split
  · exact (List.perm_insertionSort _ l).mem_iff
  · split
    · exact (List.perm_insertionSort _ l).mem_iff
    · rfl

theorem FollowedLastTwoWeeks_ok (st : MemoryStore) (now : Time) (u : Int) (order : String)
    (fl : List User) (hu : 0 < u) (hord : ValidateOrderForPosts order = none)
    (hfl : st.FollowedBy u = .ok fl) :
    FollowedLastTwoWeeks st now u order =
      .ok (SortPostsByDate
        (st.PostsFromSellersSince (fl.map (fun x => x.ID)) (now - 14 * nsPerDay)) order) := by
  unfold FollowedLastTwoWeeks
  have h1 : ValidateID u = none := by
    unfold ValidateID
    rw [if_neg (by omega), if_neg (by omega)]
  rw [h1, hord, hfl]
  simp only [AddDateDays]
  congr 3


/-- The instants of the days around the edge of the window, for a clock that
reads `now`: midnight of the day 14 days back lies in the window only when
`now` is itself a midnight; 15 days back never does, 13 days back always. -/
theorem window_days (now t : Int) :
    (t = (now / nsPerDay - 14) * nsPerDay → (now - 14 * nsPerDay ≤ t ↔ now % nsPerDay = 0)) ∧
    (t = (now / nsPerDay - 15) * nsPerDay → ¬ now - 14 * nsPerDay ≤ t) ∧
    (t = (now / nsPerDay - 13) * nsPerDay → now - 14 * nsPerDay ≤ t) := by
  unfold nsPerDay
  refine ⟨?_, ?_, ?_⟩ <;> intro h <;> omega

/-- Whether the post just published is listed: exactly when its date lies in the window. -/
theorem published_listed_iff (st : MemoryStore) (wf : WF st) (p : Post) (ids : List Int)
    (since : Time) (order : String) (hid : p.UserID ∈ ids) :
    (∃ q ∈ SortPostsByDate
        (MemoryStore.PostsFromSellersSince
          { st with nextPostID := st.nextPostID + 1,
                    posts := st.posts ++ [{ p with PostID := st.nextPostID }] } ids since) order,
      q.PostID = st.nextPostID) ↔ since ≤ p.Date := by
  constructor
  · rintro ⟨q, hq, hqid⟩
    rw [mem_SortPostsByDate, mem_PostsFromSellersSince] at hq
    obtain ⟨hq1, -, hq3⟩ := hq
    rcases List.mem_append.1 hq1 with hold | hnew
    · have := (wf.postRange q hold).2
      omega
    · rw [List.mem_singleton] at hnew
      subst hnew
      exact hq3
  · intro hd
    refine ⟨{ p with PostID := st.nextPostID }, ?_, rfl⟩
    rw [mem_SortPostsByDate, mem_PostsFromSellersSince]
    exact ⟨List.mem_append_right _ (List.mem_singleton.2 rfl), hid, hd⟩

/-- C10, amended. The window of `FollowedLastTwoWeeks` is the 14 times 24 hours
before `now`, boundary included, and a published post is dated midnight UTC of
its date string.  For a user `u > 0` whose followed users are `fl`, a valid
order and a seller among `fl`, a post of that seller stored by a successful
`Publish` is listed exactly when its date is not before `now - 14 days`.  So
the post dated the calendar day 14 days before `now` is listed only when `now`
is a midnight, the post dated 15 days before is never listed, the post dated 13
days before always is; and every listed post is by a user that `u` follows. -/
theorem two_week_window (st : MemoryStore) (h : Reachable st) (now : Time) (u : Int)
    (order : String) (payload : PublishPayload) (fl : List User)
    (hu : 0 < u) (hord : ValidateOrderForPosts order = none)
    (hfl : st.FollowedBy u = .ok fl) (hs : ∃ x ∈ fl, x.ID = payload.UserID)
    (hpub : (Publish st payload).2.2 = none) :
    ∃ t posts, parseDate payload.Date = .ok t ∧
      FollowedLastTwoWeeks (Publish st payload).1 now u order = .ok posts ∧
      ((∃ q ∈ posts, q.PostID = (Publish st payload).2.1) ↔ now - 14 * nsPerDay ≤ t) ∧
      (t = (now / nsPerDay - 14) * nsPerDay →
        ((∃ q ∈ posts, q.PostID = (Publish st payload).2.1) ↔ now % nsPerDay = 0)) ∧
      (t = (now / nsPerDay - 15) * nsPerDay →
        ¬ ∃ q ∈ posts, q.PostID = (Publish st payload).2.1) ∧
      (t = (now / nsPerDay - 13) * nsPerDay →
        ∃ q ∈ posts, q.PostID = (Publish st payload).2.1) ∧
      (∀ q ∈ posts, ∃ x ∈ fl, x.ID = q.UserID) := by
  unfold Publish at hpub ⊢
  cases hp : publishPost payload with
  | error e => simp [hp] at hpub
  | ok p =>
    simp only [hp] at hpub ⊢
    obtain ⟨hp1, hp2⟩ := publishPost_ok payload p hp
    have hhas := (AddPost_succeeds_iff st p).1 hpub
    rw [AddPost_ok st p hhas]
    have hfl2 : MemoryStore.FollowedBy
        { st with nextPostID := st.nextPostID + 1,
                  posts := st.posts ++ [{ p with PostID := st.nextPostID }] } u = .ok fl := hfl
    have hid : p.UserID ∈ fl.map (fun x => x.ID) := by
      obtain ⟨x, hx, hxid⟩ := hs
      rw [hp1, ← hxid]
      exact List.mem_map_of_mem _ hx
    have hiff := published_listed_iff st h.wf p _ (now - 14 * nsPerDay) order hid
    obtain ⟨d1, d2, d3⟩ := window_days now p.Date
    refine ⟨p.Date, _, hp2, FollowedLastTwoWeeks_ok _ now u order fl hu hord hfl2, hiff,
      fun ht => hiff.trans (d1 ht), fun ht hex => d2 ht (hiff.1 hex), fun ht => hiff.2 (d3 ht), ?_⟩
    intro q hq
    rw [mem_SortPostsByDate, mem_PostsFromSellersSince] at hq
    obtain ⟨x, hx, hxid⟩ := List.mem_map.1 hq.2.1
    exact ⟨x, hx, hxid⟩

set_option maxRecDepth 8000 in
theorem two_week_window_witness :
    Reachable windowStore ∧ (0 : Int) < 1 ∧ ValidateOrderForPosts "" = none ∧
    windowStore.FollowedBy 1 = .ok [{ ID := 2, Name := "SellerA", IsSeller := false }] ∧
    (Publish windowStore (windowPayload "16-04-2021")).2.2 = none ∧
    ∃ t posts, parseDate (windowPayload "16-04-2021").Date = .ok t ∧
      FollowedLastTwoWeeks (Publish windowStore (windowPayload "16-04-2021")).1 noon 1 "" =
        .ok posts ∧
      ((∃ q ∈ posts, q.PostID = (Publish windowStore (windowPayload "16-04-2021")).2.1) ↔
        noon - 14 * nsPerDay ≤ t) ∧
      (t = (noon / nsPerDay - 14) * nsPerDay →
        ((∃ q ∈ posts, q.PostID = (Publish windowStore (windowPayload "16-04-2021")).2.1) ↔
          noon % nsPerDay = 0)) ∧
      (t = (noon / nsPerDay - 15) * nsPerDay →
        ¬ ∃ q ∈ posts, q.PostID = (Publish windowStore (windowPayload "16-04-2021")).2.1) ∧
      (t = (noon / nsPerDay - 13) * nsPerDay →
        ∃ q ∈ posts, q.PostID = (Publish windowStore (windowPayload "16-04-2021")).2.1) ∧
      (∀ q ∈ posts,
        ∃ x ∈ [({ ID := 2, Name := "SellerA", IsSeller := false } : User)], x.ID = q.UserID) :=
  ⟨⟨windowOps, rfl⟩, by decide, rfl, rfl, rfl,
    two_week_window windowStore ⟨windowOps, rfl⟩ noon 1 "" (windowPayload "16-04-2021")
      [{ ID := 2, Name := "SellerA", IsSeller := false }] (by decide) rfl rfl
      ⟨_, List.mem_singleton.2 rfl, rfl⟩ rfl⟩

/-- C10 as stated fails at noon.  On 2021-04-29T12:00:00Z user 1 follows seller
2, and seller 2 publishes a post dated "15-04-2021", the calendar day exactly 14
days earlier.  The post is stored under id 1 with the date of midnight, which
is 12 hours before `now - 14 days`, and the feed of user 1 is empty. -/
theorem two_week_window_counterexample :
    Reachable windowStore ∧
    windowStore.FollowedBy 1 = .ok [{ ID := 2, Name := "SellerA", IsSeller := false }] ∧
    (windowPayload "15-04-2021").UserID = 2 ∧
    parseDate (windowPayload "15-04-2021").Date = .ok ((noon / nsPerDay - 14) * nsPerDay) ∧
    (Publish windowStore (windowPayload "15-04-2021")).2 = (1, none) ∧
    (Publish windowStore (windowPayload "15-04-2021")).1.posts.map (fun p => (p.PostID, p.UserID))
      = [(1, 2)] ∧
    FollowedLastTwoWeeks (Publish windowStore (windowPayload "15-04-2021")).1 noon 1 "date_desc"
      = .ok [] ∧
    FollowedLastTwoWeeks (Publish windowStore (windowPayload "15-04-2021")).1 noon 1 ""
      = .ok [] := by
  set_option maxRecDepth 8000 in
  exact ⟨⟨windowOps, rfl⟩, rfl, rfl, rfl, rfl, rfl, rfl, rfl⟩

/-! ## The validation chain of Publish -/

/-- The chain of early returns of `Publish` is the first failure of the
sequence of checks. -/
theorem publishPost_firstFailure (payload : PublishPayload) :
    (∀ e, firstFailure (publishChecks payload) = some e → publishPost payload = .error e) ∧
    (firstFailure (publishChecks payload) = none → ∃ p, publishPost payload = .ok p) := by
  unfold publishPost publishChecks discountCheck
  cases ValidateID payload.UserID with
  | some e => simp [firstFailure]
  | none =>
  cases parseDate payload.Date with
  | error e => simp [firstFailure]
  | ok dt =>
  cases ValidateID payload.Product.ProductID with
  | some e => simp [firstFailure]
  | none =>
  cases ValidateTextRequired payload.Product.ProductName 40 Err.ErrMaxLen40 with
  | some e => simp [firstFailure]
  | none =>
  cases ValidateTextRequired payload.Product.Type_ 15 Err.ErrMaxLen15 with
  | some e => simp [firstFailure]
  | none =>
  cases ValidateTextRequired payload.Product.Brand 25 Err.ErrMaxLen25 with
  | some e => simp [firstFailure]
  | none =>
  cases ValidateTextRequired payload.Product.Color 15 Err.ErrMaxLen15 with
  | some e => simp [firstFailure]
  | none =>
  cases ValidateNotesOptional payload.Product.Notes with
  | some e => simp [firstFailure]
  | none =>
  by_cases hc : payload.Category = 0
  · simp [firstFailure, hc]
  · cases ValidatePrice payload.Price with
    | some e => simp [firstFailure, hc]
    | none =>
      by_cases hp : payload.HasPromo = true
      · by_cases h1 : payload.Discount ≤ 0
        · simp [firstFailure, hc, hp, h1]
        · by_cases h2 : payload.Discount > 100
          · simp [firstFailure, hc, hp, h1, h2]
          · simp [firstFailure, hc, hp, h1, h2]
      · simp [firstFailure, hc, hp]

/-- C11. Validation order of `Publish`: for every store behind the interface,
`Publish` returns, with the state untouched and id 0, the error of the first
failing check in the sequence user id, date, product id, product name (40),
type (15), brand (25), color (15), notes (80), category, price, discount; when
no check fails it hands the post to `AddPost`.  In particular, with a valid
user id and a well-formed date, a product id 0 yields `ErrIDEmpty` whatever the
price is, so also for price 0. -/
theorem publish_validation_order {σ : Type} (S : Store σ) (st : σ) (payload : PublishPayload) :
    (∀ e, firstFailure (publishChecks payload) = some e →
      ProductService.Publish S st payload = (st, 0, some e)) ∧
    (firstFailure (publishChecks payload) = none →
      ∃ p, ProductService.Publish S st payload = S.AddPost st p) ∧
    (ValidateID payload.UserID = none → (∃ t, parseDate payload.Date = .ok t) →
      payload.Product.ProductID = 0 →
      ProductService.Publish S st payload = (st, 0, some Err.ErrIDEmpty)) ∧
    ProductService.Publish memoryStore = Publish := by
  obtain ⟨h1, h2⟩ := publishPost_firstFailure payload
  have key : ∀ e, firstFailure (publishChecks payload) = some e →
      ProductService.Publish S st payload = (st, 0, some e) := by
    intro e he
    unfold ProductService.Publish
    rw [h1 e he]
  refine ⟨key, ?_, ?_, rfl⟩
  · intro hnone
    obtain ⟨p, hp⟩ := h2 hnone
    exact ⟨p, by unfold ProductService.Publish; rw [hp]⟩
  · rintro hu ⟨t, ht⟩ hid
    apply key
    unfold publishChecks
    rw [hu, ht, hid]
    rfl

/-! ## No store call after a failed validation -/

theorem firstFailure_two (a b : Option Err) (e : Err) (h : firstFailure [a, b] = some e) :
    a = some e ∨ (a = none ∧ b = some e) := by
  cases a with
  | some x => left; simpa [firstFailure] using h
  | none =>
    cases b with
    | some y => right; simpa [firstFailure] using h
    | none => simp [firstFailure] at h

theorem MemoryStore_AddPost_err (ms : MemoryStore) (p : Post) :
    (ms.AddPost p).2.2 = none ∨ (ms.AddPost p).2.2 = some Err.ErrUserNotFound := by
  unfold AddPost
  split <;> simp

theorem MemoryStore_Follow_err (ms : MemoryStore) (u s : Int) :
    (ms.Follow u s).2 = none ∨ (ms.Follow u s).2 = some Err.ErrUserNotFound := by
  unfold Follow
  split
  · simp
  · split <;> simp

theorem MemoryStore_Unfollow_err (ms : MemoryStore) (u s : Int) :
    (ms.Unfollow u s).2 = none ∨ (ms.Unfollow u s).2 = some Err.ErrUserNotFound := by
  unfold Unfollow
  split
  · simp
  · split <;> simp

theorem MemoryStore_DeletePost_err (ms : MemoryStore) (u p : Int) (e : Err)
    (h : (ms.DeletePost u p).2 = some e) : isValidationErr e = false := by
  have hscan := deleteScan_spec u p ms.posts 0
  unfold DeletePost at h
  split at h
  · cases h; rfl
  · rw [hscan] at h
    split at h
    · rename_i e' _ heq
      split at heq
      · cases heq
      · split at heq
        · cases heq; cases h; rfl
        · cases heq
    · split at h
      · cases h; rfl
      · cases h

theorem MemoryStore_UpdateAvatar_err (ms : MemoryStore) (u : Int) (url : String) :
    (ms.UpdateAvatar u url).2.2 = none ∨
      (ms.UpdateAvatar u url).2.2 = some Err.ErrAccountNotFound := by
  unfold UpdateAvatar
  split <;> simp

theorem DeleteMyPost_check {σ : Type} (S : Store σ) (st : σ) (u p : Int) :
    (∀ e, firstFailure (deleteMyPostChecks u p) = some e →
      ProductService.DeleteMyPost S st u p = (st, some e)) ∧
    (firstFailure (deleteMyPostChecks u p) = none →
      ProductService.DeleteMyPost S st u p = S.DeletePost st u p) := by
  unfold ProductService.DeleteMyPost deleteMyPostChecks
  cases ValidateID u with
  | some x => simp [firstFailure]
  | none =>
    cases ValidateID p with
    | some y => simp [firstFailure]
    | none => simp [firstFailure]

theorem Follow_check {σ : Type} (S : Store σ) (st : σ) (u s : Int) :
    (∀ e, firstFailure (followChecks u s) = some e →
      UserService.Follow S st u s = (st, some e)) ∧
    (firstFailure (followChecks u s) = none →
      UserService.Follow S st u s = S.Follow st u s) := by
  unfold UserService.Follow followChecks
  cases ValidateID u with
  | some x => simp [firstFailure]
  | none =>
    cases ValidateID s with
    | some y => simp [firstFailure]
    | none =>
      by_cases h : u = s
      · simp [firstFailure, h]
      · simp [firstFailure, h]

theorem Unfollow_check {σ : Type} (S : Store σ) (st : σ) (u s : Int) :
    (∀ e, firstFailure (unfollowChecks u s) = some e →
      UserService.Unfollow S st u s = (st, some e)) ∧
    (firstFailure (unfollowChecks u s) = none →
      UserService.Unfollow S st u s = S.Unfollow st u s) := by
  unfold UserService.Unfollow unfollowChecks
  cases ValidateID u with
  | some x => simp [firstFailure]
  | none =>
    cases ValidateID s with
    | some y => simp [firstFailure]
    | none => simp [firstFailure]

theorem validation_not_userNotFound (e : Err) (h : isValidationErr e = true)
    (o : Option Err) (ho : o = none ∨ o = some Err.ErrUserNotFound) : o ≠ some e := by
  rintro rfl
  rcases ho with ho | ho
  · cases ho
  · cases ho
    simp [isValidationErr] at h

/-- C12. No mutation on failed validation.  For every store behind the
interface, a failing local check of `Publish`, `DeleteMyPost`, `Follow`,
`Unfollow`, `CreateUser` or `UpdateAvatar` makes the service return the state it
was given together with that error, whatever the methods of the store would
do: no store method is applied.  On `MemoryStore`, a returned validation error
(id, date, text, category, price, discount or self-follow error) always stems
from a failing local check, and the store after the call equals the store
before it. -/
theorem no_mutation_on_failed_validation {σ : Type} (S : Store σ) (st : σ) (ms : MemoryStore)
    (e : Err) :
    ((∀ payload, firstFailure (publishChecks payload) = some e →
        ProductService.Publish S st payload = (st, 0, some e)) ∧
     (∀ u p, firstFailure (deleteMyPostChecks u p) = some e →
        ProductService.DeleteMyPost S st u p = (st, some e)) ∧
     (∀ u s, firstFailure (followChecks u s) = some e →
        UserService.Follow S st u s = (st, some e)) ∧
     (∀ u s, firstFailure (unfollowChecks u s) = some e →
        UserService.Unfollow S st u s = (st, some e)) ∧
     (∀ name isSeller, ValidateTextRequired name 40 Err.ErrMaxLen40 = some e →
        UserService.CreateUser S st name isSeller = (st, none, some e)) ∧
     (∀ u url, ValidateID u = some e →
        UserService.UpdateAvatar S st u url = (st, none, some e))) ∧
    (isValidationErr e = true →
     (∀ payload, (ProductService.Publish memoryStore ms payload).2.2 = some e →
        firstFailure (publishChecks payload) = some e ∧
        (ProductService.Publish memoryStore ms payload).1 = ms) ∧
     (∀ u p, (ProductService.DeleteMyPost memoryStore ms u p).2 = some e →
        firstFailure (deleteMyPostChecks u p) = some e ∧
        (ProductService.DeleteMyPost memoryStore ms u p).1 = ms) ∧
     (∀ u s, (UserService.Follow memoryStore ms u s).2 = some e →
        firstFailure (followChecks u s) = some e ∧
        (UserService.Follow memoryStore ms u s).1 = ms) ∧
     (∀ u s, (UserService.Unfollow memoryStore ms u s).2 = some e →
        firstFailure (unfollowChecks u s) = some e ∧
        (UserService.Unfollow memoryStore ms u s).1 = ms) ∧
     (∀ name isSeller, (UserService.CreateUser memoryStore ms name isSeller).2.2 = some e →
        ValidateTextRequired name 40 Err.ErrMaxLen40 = some e ∧
        (UserService.CreateUser memoryStore ms name isSeller).1 = ms) ∧
     (∀ u url, (UserService.UpdateAvatar memoryStore ms u url).2.2 = some e →
        ValidateID u = some e ∧
        (UserService.UpdateAvatar memoryStore ms u url).1 = ms)) := by
  have gen : ∀ {τ : Type} (T : Store τ) (t : τ),
      (∀ payload, firstFailure (publishChecks payload) = some e →
        ProductService.Publish T t payload = (t, 0, some e)) ∧
      (∀ u p, firstFailure (deleteMyPostChecks u p) = some e →
        ProductService.DeleteMyPost T t u p = (t, some e)) ∧
      (∀ u s, firstFailure (followChecks u s) = some e →
        UserService.Follow T t u s = (t, some e)) ∧
      (∀ u s, firstFailure (unfollowChecks u s) = some e →
        UserService.Unfollow T t u s = (t, some e)) ∧
      (∀ name isSeller, ValidateTextRequired name 40 Err.ErrMaxLen40 = some e →
        UserService.CreateUser T t name isSeller = (t, none, some e)) ∧
      (∀ u url, ValidateID u = some e →
        UserService.UpdateAvatar T t u url = (t, none, some e)) := by
    intro τ T t
    refine ⟨?_, ?_, ?_, ?_, ?_, ?_⟩
    · intro payload h
      unfold ProductService.Publish
      rw [(publishPost_firstFailure payload).1 e h]
    · intro u p h
      exact (DeleteMyPost_check T t u p).1 e h
    · intro u s h
      exact (Follow_check T t u s).1 e h
    · intro u s h
      exact (Unfollow_check T t u s).1 e h
    · intro name isSeller h
      unfold UserService.CreateUser
      rw [h]
    · intro u url h
      unfold UserService.UpdateAvatar
      rw [h]
  refine ⟨gen S st, ?_⟩
  intro hv
  obtain ⟨g1, g2, g3, g4, g5, g6⟩ := gen memoryStore ms
  refine ⟨?_, ?_, ?_, ?_, ?_, ?_⟩
  · intro payload h
    cases hf : firstFailure (publishChecks payload) with
    | some e' =>
      have h1 := (publishPost_firstFailure payload).1 e' hf
      unfold ProductService.Publish at h ⊢
      rw [h1] at h ⊢
      simp only [Option.some.injEq] at h
      subst h
      exact ⟨rfl, rfl⟩
    | none =>
      exfalso
      obtain ⟨p, hp⟩ := (publishPost_firstFailure payload).2 hf
      unfold ProductService.Publish at h
      rw [hp] at h
      exact validation_not_userNotFound e hv _ (MemoryStore_AddPost_err ms p) h
  · intro u p h
    cases hf : firstFailure (deleteMyPostChecks u p) with
    | some e' =>
      have h1 := (DeleteMyPost_check memoryStore ms u p).1 e' hf
      rw [h1] at h ⊢
      simp only [Option.some.injEq] at h
      subst h
      exact ⟨rfl, rfl⟩
    | none =>
      exfalso
      rw [(DeleteMyPost_check memoryStore ms u p).2 hf] at h
      have := MemoryStore_DeletePost_err ms u p e h
      rw [hv] at this
      cases this
  · intro u s h
    cases hf : firstFailure (followChecks u s) with
    | some e' =>
      have h1 := (Follow_check memoryStore ms u s).1 e' hf
      rw [h1] at h ⊢
      simp only [Option.some.injEq] at h
      subst h
      exact ⟨rfl, rfl⟩
    | none =>
      exfalso
      rw [(Follow_check memoryStore ms u s).2 hf] at h
      exact validation_not_userNotFound e hv _ (MemoryStore_Follow_err ms u s) h
  · intro u s h
    cases hf : firstFailure (unfollowChecks u s) with
    | some e' =>
      have h1 := (Unfollow_check memoryStore ms u s).1 e' hf
      rw [h1] at h ⊢
      simp only [Option.some.injEq] at h
      subst h
      exact ⟨rfl, rfl⟩
    | none =>
      exfalso
      rw [(Unfollow_check memoryStore ms u s).2 hf] at h
      exact validation_not_userNotFound e hv _ (MemoryStore_Unfollow_err ms u s) h
  · intro name isSeller h
    unfold UserService.CreateUser at h ⊢
    cases hc : ValidateTextRequired name 40 Err.ErrMaxLen40 with
    | some e' =>
      rw [hc] at h
      simp only [Option.some.injEq] at h
      subst h
      exact ⟨rfl, rfl⟩
    | none =>
      rw [hc] at h
      simp [memoryStore, MemoryStore.CreateUser] at h
  · intro u url h
    unfold UserService.UpdateAvatar at h ⊢
    cases hc : ValidateID u with
    | some e' =>
      rw [hc] at h
      simp only [Option.some.injEq] at h
      subst h
      exact ⟨rfl, rfl⟩
    | none =>
      exfalso
      rw [hc] at h
      rcases MemoryStore_UpdateAvatar_err ms u url with h2 | h2
      · simp only [memoryStore] at h
        rw [h2] at h
        cases h
      · simp only [memoryStore] at h
        rw [h2] at h
        cases h
        simp [isValidationErr] at hv

/-! ## Prices and discounts of published posts -/

theorem ValidatePrice_none (price : Rat) :
    ValidatePrice price = none ↔ (price ≠ 0 ∧ price ≤ 10000000) := by
  unfold ValidatePrice
  by_cases h0 : price = 0
  · simp [h0]
  · by_cases h1 : price > 10000000
    · simp [h0, h1]
    · simp [h0, h1, not_lt.1 h1]

/-- What the checks of `Publish` guarantee about the post handed to `AddPost`. -/
theorem publishPost_fields (payload : PublishPayload) (p : Post)
    (h : publishPost payload = .ok p) :
    p.UserID = payload.UserID ∧ p.Product = payload.Product ∧
    p.Category = payload.Category ∧ p.Price = payload.Price ∧
    p.HasPromo = payload.HasPromo ∧
    p.Discount = (if payload.HasPromo then payload.Discount else 0) ∧
    p.FinalPrice = calcFinalPrice p.Price p.Discount p.HasPromo ∧
    payload.Category ≠ 0 ∧ ValidatePrice payload.Price = none ∧
    ¬ (payload.HasPromo = true ∧ payload.Discount ≤ 0) ∧
    ¬ (payload.HasPromo = true ∧ payload.Discount > 100) := by
  unfold publishPost at h
  repeat' split at h
  all_goals (cases h <;> refine ⟨rfl, rfl, rfl, rfl, rfl, ?_, rfl, ?_, ?_, ?_, ?_⟩ <;>
    first | assumption | simp [*])

/-- A successful `Publish` on a `MemoryStore` appends the checked post under the returned id. -/
theorem Publish_ok (st : MemoryStore) (payload : PublishPayload)
    (h : (Publish st payload).2.2 = none) :
    ∃ p, publishPost payload = .ok p ∧
      Publish st payload =
        ({ st with nextPostID := st.nextPostID + 1,
                   posts := st.posts ++ [{ p with PostID := st.nextPostID }] },
         st.nextPostID, none) := by
  unfold Publish at h ⊢
  cases hp : publishPost payload with
  | error e => simp [hp] at h
  | ok p =>
    simp only [hp] at h ⊢
    exact ⟨p, rfl, AddPost_ok st p ((AddPost_succeeds_iff st p).1 h)⟩

theorem Publish_error (st : MemoryStore) (payload : PublishPayload) (e : Err)
    (h : publishPost payload = .error e) : Publish st payload = (st, 0, some e) := by
  unfold Publish
  rw [h]

/-- C13. Discount rule on published posts (prices and discounts read as the
numbers they hold): the post stored by a successful `Publish` has discount 0
and final price equal to the price when `hasPromo` is false, whatever discount
was submitted, and a discount with `0 < discount <= 100` when `hasPromo` is
true.  `Publish` with `hasPromo` and a discount `<= 0` or `> 100` returns an
error and leaves the store as it was; a discount of exactly 100 passes the
discount check, so a payload that passes with any promotion setting also
passes with `hasPromo = true` and discount 100. -/
theorem discount_rule (st : MemoryStore) (payload : PublishPayload) :
    ((Publish st payload).2.2 = none →
      ∃ p, (Publish st payload).1.posts = st.posts ++ [p] ∧
        p.PostID = (Publish st payload).2.1 ∧ p.HasPromo = payload.HasPromo ∧
        (p.HasPromo = false → p.Discount = 0 ∧ p.FinalPrice = p.Price) ∧
        (p.HasPromo = true → 0 < p.Discount ∧ p.Discount ≤ 100)) ∧
    (payload.HasPromo = true → (payload.Discount ≤ 0 ∨ payload.Discount > 100) →
      (Publish st payload).2.2 ≠ none ∧ (Publish st payload).1 = st) ∧
    (∀ p, publishPost payload = .ok p →
      ∃ q, publishPost { payload with HasPromo := true, Discount := 100 } = .ok q ∧
        q.HasPromo = true ∧ q.Discount = 100) := by
  refine ⟨?_, ?_, ?_⟩
  · intro h
    obtain ⟨p, hp, hpub⟩ := Publish_ok st payload h
    obtain ⟨-, -, -, -, f5, f6, f7, -, -, f10, f11⟩ := publishPost_fields payload p hp
    rw [hpub]
    refine ⟨{ p with PostID := st.nextPostID }, rfl, rfl, f5, ?_, ?_⟩
    · intro hf
      have hf' : payload.HasPromo = false := by rw [← f5]; exact hf
      have hd : p.Discount = 0 := by rw [f6, hf']; rfl
      refine ⟨hd, ?_⟩
      show p.FinalPrice = p.Price
      rw [f7, f5, hf']
      rfl
    · intro ht
      have ht' : payload.HasPromo = true := by rw [← f5]; exact ht
      have hd : p.Discount = payload.Discount := by rw [f6, ht']; rfl
      show 0 < p.Discount ∧ p.Discount ≤ 100
      rw [hd]
      exact ⟨not_le.1 (fun hle => f10 ⟨ht', hle⟩), not_lt.1 (fun hgt => f11 ⟨ht', hgt⟩)⟩
  · intro hpromo hbad
    cases hp : publishPost payload with
    | ok p =>
      exfalso
      obtain ⟨-, -, -, -, -, -, -, -, -, f10, f11⟩ := publishPost_fields payload p hp
      rcases hbad with hb | hb
      · exact f10 ⟨hpromo, hb⟩
      · exact f11 ⟨hpromo, hb⟩
    | error e =>
      rw [Publish_error st payload e hp]
      simp
  · intro p hp
    have hnone : firstFailure (publishChecks payload) = none := by
      cases hf : firstFailure (publishChecks payload) with
      | none => rfl
      | some e =>
        rw [(publishPost_firstFailure payload).1 e hf] at hp
        cases hp
    have hnone2 : firstFailure
        (publishChecks { payload with HasPromo := true, Discount := 100 }) = none := by
      unfold publishChecks discountCheck at hnone ⊢
      simp only at hnone ⊢
      revert hnone
      cases ValidateID payload.UserID <;> cases parseDate payload.Date <;>
        cases ValidateID payload.Product.ProductID <;>
        cases ValidateTextRequired payload.Product.ProductName 40 Err.ErrMaxLen40 <;>
        cases ValidateTextRequired payload.Product.Type_ 15 Err.ErrMaxLen15 <;>
        cases ValidateTextRequired payload.Product.Brand 25 Err.ErrMaxLen25 <;>
        cases ValidateTextRequired payload.Product.Color 15 Err.ErrMaxLen15 <;>
        cases ValidateNotesOptional payload.Product.Notes <;>
        cases ValidatePrice payload.Price <;>
        by_cases hc : payload.Category = 0 <;>
        simp [firstFailure, hc]
    obtain ⟨q, hq⟩ := (publishPost_firstFailure _).2 hnone2
    obtain ⟨-, -, -, -, g5, g6, -⟩ := publishPost_fields _ q hq
    exact ⟨q, hq, g5, by rw [g6]; rfl⟩

/-- C15. `ValidatePrice` (prices read as the numbers they hold) returns
`ErrPriceEmpty` exactly for 0, `ErrPriceMax` exactly above 10,000,000 and nil
otherwise; 10,000,000 is valid and 10,000,000.01 is rejected. -/
theorem validate_price_characterization (p : Rat) :
    (ValidatePrice p = some Err.ErrPriceEmpty ↔ p = 0) ∧
    (ValidatePrice p = some Err.ErrPriceMax ↔ p > 10000000) ∧
    (ValidatePrice p = none ↔ (p ≠ 0 ∧ ¬ p > 10000000)) ∧
    (ValidatePrice p = some Err.ErrPriceEmpty ∨ ValidatePrice p = some Err.ErrPriceMax ∨
      ValidatePrice p = none) ∧
    ValidatePrice 10000000 = none ∧
    ValidatePrice (1000000001 / 100) = some Err.ErrPriceMax := by
  refine ⟨?_, ?_, ?_, ?_, ?_, ?_⟩
  · unfold ValidatePrice
    by_cases h0 : p = 0
    · simp [h0]
    · by_cases h1 : p > 10000000 <;> simp [h0, h1]
  · unfold ValidatePrice
    by_cases h0 : p = 0
    · simp [h0]
    · by_cases h1 : p > 10000000 <;> simp [h0, h1]
  · unfold ValidatePrice
    by_cases h0 : p = 0
    · simp [h0]
    · by_cases h1 : p > 10000000 <;> simp [h0, h1]
  · unfold ValidatePrice
    by_cases h0 : p = 0
    · simp [h0]
    · by_cases h1 : p > 10000000 <;> simp [h0, h1]
  · unfold ValidatePrice
    norm_num
  · unfold ValidatePrice
    norm_num

/-- C16, amended. The post stored by a successful `Publish` has a price that is
not zero and at most 10,000,000, and a category different from 0; `Publish`
rejects every payload whose price is zero or above 10,000,000 and then leaves
the store as it was.  (No check looks at the sign of the price.) -/
theorem stored_price_bounds (st : MemoryStore) (payload : PublishPayload) :
    ((Publish st payload).2.2 = none →
      ∃ p, (Publish st payload).1.posts = st.posts ++ [p] ∧
        p.PostID = (Publish st payload).2.1 ∧ p.Price = payload.Price ∧
        p.Price ≠ 0 ∧ p.Price ≤ 10000000 ∧ p.Category ≠ 0) ∧
    ((payload.Price = 0 ∨ payload.Price > 10000000) →
      (Publish st payload).2.2 ≠ none ∧ (Publish st payload).1 = st) := by
  refine ⟨?_, ?_⟩
  · intro h
    obtain ⟨p, hp, hpub⟩ := Publish_ok st payload h
    obtain ⟨-, -, f3, f4, -, -, -, f8, f9, -, -⟩ := publishPost_fields payload p hp
    have hv := (ValidatePrice_none payload.Price).1 f9
    rw [hpub]
    refine ⟨{ p with PostID := st.nextPostID }, rfl, rfl, f4, ?_, ?_, ?_⟩
    · show p.Price ≠ 0
      rw [f4]; exact hv.1
    · show p.Price ≤ 10000000
      rw [f4]; exact hv.2
    · show p.Category ≠ 0
      rw [f3]; exact f8
  · intro hbad
    cases hp : publishPost payload with
    | ok p =>
      exfalso
      obtain ⟨-, -, -, -, -, -, -, -, f9, -, -⟩ := publishPost_fields payload p hp
      have hv := (ValidatePrice_none payload.Price).1 f9
      rcases hbad with hb | hb
      · exact hv.1 hb
      · exact absurd hv.2 (not_le.2 hb)
    | error e =>
      rw [Publish_error st payload e hp]
      simp

/-- C16 as stated fails for a negative price.  Seller 2 of the seeded store
publishes an otherwise valid payload with price -5: `Publish` returns id 1 and
nil, and the stored post has the price -5. -/
theorem stored_price_counterexample :
    Reachable windowStore ∧
    (Publish windowStore { windowPayload "16-04-2021" with Price := -5 }).2 = (1, none) ∧
    (Publish windowStore { windowPayload "16-04-2021" with Price := -5 }).1.posts.map
      (fun p => (p.PostID, p.Price)) = [(1, -5)] ∧
    ((-5 : Rat) < 0) := by
  set_option maxRecDepth 8000 in
  exact ⟨⟨windowOps, rfl⟩, rfl, rfl, by norm_num⟩

/-! ## Text validation -/

theorem allowedChar_iff (c : Char) :
    allowedChar c = true ↔
      (asciiLetter c = true ∨ asciiDigit c = true ∨ c = ' ' ∨
        (0xC0 ≤ c.toNat ∧ c.toNat ≤ 0xFF)) := by
  have hsp : c = ' ' ↔ c.toNat = 32 := by
    constructor
    · rintro rfl; rfl
    · intro h
      apply Char.ext
      apply UInt32.ext
      exact h
  unfold allowedChar asciiLetter asciiDigit
  rw [hsp]
  simp only [Bool.or_eq_true, Bool.and_eq_true, decide_eq_true_eq]
  tauto

theorem latin1Letter_range (c : Char) (h : latin1Letter c = true) :
    0xC0 ≤ c.toNat ∧ c.toNat ≤ 0xFF := by
  unfold latin1Letter at h
  simp only [Bool.and_eq_true, decide_eq_true_eq] at h
  exact ⟨h.1.1.1, h.1.1.2⟩

theorem String_ne_empty_iff (s : String) : s ≠ "" ↔ s.data ≠ [] := by
  constructor
  · intro h hd
    apply h
    cases s
    simp only at hd
    subst hd
    rfl
  · rintro h rfl
    exact h rfl

theorem allowedText_iff (s : String) :
    allowedText s = true ↔ (s ≠ "" ∧ ∀ c ∈ s.data, allowedChar c = true) := by
  unfold allowedText
  rw [String_ne_empty_iff]
  simp [List.all_eq_true, List.isEmpty_iff]

/-- The outcome of `ValidateTextRequired` for a non-empty text that is not too long. -/
theorem ValidateTextRequired_short (s : String) (max : Int) (maxErr : Err) (hne : s ≠ "")
    (hlen : (s.length : Int) ≤ max) :
    ValidateTextRequired s max maxErr =
      if allowedText s = true then none else some Err.ErrSpecialChars := by
  unfold ValidateTextRequired
  rw [if_neg hne, if_neg (not_lt.2 hlen)]
  cases allowedText s <;> simp

theorem ValidateNotesOptional_nonempty (s : String) (hne : s ≠ "") :
    ValidateNotesOptional s = ValidateTextRequired s 80 Err.ErrMaxLen80 := by
  unfold ValidateNotesOptional ValidateTextRequired
  rw [if_neg hne, if_neg hne]

/-- C17, amended. For a non-empty text of at most `max` code points,
`ValidateTextRequired` returns nil if every character is an ASCII letter, an
accented letter of the Latin-1 Supplement, an ASCII digit or a space, and
returns `ErrSpecialChars` if some character is none of these and lies outside
U+00C0..U+00FF.  `ValidateNotesOptional` treats non-empty notes of at most 80
code points in the same way. -/
theorem allowed_character_set (s : String) (max : Int) (maxErr : Err) (hne : s ≠ "")
    (hlen : (s.length : Int) ≤ max) :
    ((∀ c ∈ s.data, asciiLetter c = true ∨ latin1Letter c = true ∨ asciiDigit c = true ∨
        c = ' ') →
      ValidateTextRequired s max maxErr = none) ∧
    ((∃ c ∈ s.data, asciiLetter c = false ∧ asciiDigit c = false ∧ c ≠ ' ' ∧
        ¬ (0xC0 ≤ c.toNat ∧ c.toNat ≤ 0xFF)) →
      ValidateTextRequired s max maxErr = some Err.ErrSpecialChars) ∧
    ((s.length : Int) ≤ 80 →
      ((∀ c ∈ s.data, asciiLetter c = true ∨ latin1Letter c = true ∨ asciiDigit c = true ∨
          c = ' ') →
        ValidateNotesOptional s = none) ∧
      ((∃ c ∈ s.data, asciiLetter c = false ∧ asciiDigit c = false ∧ c ≠ ' ' ∧
          ¬ (0xC0 ≤ c.toNat ∧ c.toNat ≤ 0xFF)) →
        ValidateNotesOptional s = some Err.ErrSpecialChars)) := by
  have good : ∀ (m : Int) (me : Err), (s.length : Int) ≤ m →
      (∀ c ∈ s.data, asciiLetter c = true ∨ latin1Letter c = true ∨ asciiDigit c = true ∨
        c = ' ') → ValidateTextRequired s m me = none := by
    intro m me hm hall
    rw [ValidateTextRequired_short s m me hne hm]
    have : allowedText s = true := by
      rw [allowedText_iff]
      refine ⟨hne, fun c hc => ?_⟩
      rw [allowedChar_iff]
      rcases hall c hc with h | h | h | h
      · exact Or.inl h
      · exact Or.inr (Or.inr (Or.inr (latin1Letter_range c h)))
      · exact Or.inr (Or.inl h)
      · exact Or.inr (Or.inr (Or.inl h))
    rw [if_pos this]
  have bad : ∀ (m : Int) (me : Err), (s.length : Int) ≤ m →
      (∃ c ∈ s.data, asciiLetter c = false ∧ asciiDigit c = false ∧ c ≠ ' ' ∧
        ¬ (0xC0 ≤ c.toNat ∧ c.toNat ≤ 0xFF)) →
      ValidateTextRequired s m me = some Err.ErrSpecialChars := by
    rintro m me hm ⟨c, hc, h1, h2, h3, h4⟩
    rw [ValidateTextRequired_short s m me hne hm]
    have : ¬ allowedText s = true := by
      rw [allowedText_iff]
      rintro ⟨-, hall⟩
      have := (allowedChar_iff c).1 (hall c hc)
      rcases this with h | h | h | h
      · rw [h1] at h; cases h
      · rw [h2] at h; cases h
      · exact h3 h
      · exact h4 h
    rw [if_neg this]
  refine ⟨good max maxErr hlen, bad max maxErr hlen, fun h80 => ⟨?_, ?_⟩⟩
  · intro hall
    rw [ValidateNotesOptional_nonempty s hne]
    exact good 80 _ h80 hall
  · intro hex
    rw [ValidateNotesOptional_nonempty s hne]
    exact bad 80 _ h80 hex

set_option maxRecDepth 8000 in
theorem allowed_character_set_witness :
    "Café com Leite 123" ≠ "" ∧ (("Café com Leite 123".length : Nat) : Int) ≤ 40 ∧
    (∀ c ∈ "Café com Leite 123".data,
      asciiLetter c = true ∨ latin1Letter c = true ∨ asciiDigit c = true ∨ c = ' ') ∧
    ValidateTextRequired "Café com Leite 123" 40 Err.ErrMaxLen40 = none ∧
    ValidateTextRequired "abc#" 40 Err.ErrMaxLen40 = some Err.ErrSpecialChars :=
  ⟨by decide, by decide, by decide,
    (allowed_character_set "Café com Leite 123" 40 Err.ErrMaxLen40 (by decide) (by decide)).1
      (by decide),
    (allowed_character_set "abc#" 40 Err.ErrMaxLen40 (by decide) (by decide)).2.1
      ⟨'#', by decide, by decide, by decide, by decide, by decide⟩⟩

/-- C17 as stated fails for a letter outside Latin-1.  The text "ő" is one
Unicode letter (U+0151, Latin small letter o with double acute), not empty and
within every limit, and `ValidateTextRequired` and `ValidateNotesOptional`
return `ErrSpecialChars` for it. -/
theorem allowed_character_set_counterexample :
    "ő".data = [Char.ofNat 0x151] ∧ unicodeLetterLatin (Char.ofNat 0x151) = true ∧
    "ő" ≠ "" ∧ (("ő".length : Nat) : Int) ≤ 40 ∧
    ValidateTextRequired "ő" 40 Err.ErrMaxLen40 = some Err.ErrSpecialChars ∧
    ValidateNotesOptional "ő" = some Err.ErrSpecialChars := by
  set_option maxRecDepth 8000 in
  exact ⟨rfl, rfl, by decide, by decide, rfl, rfl⟩

/-- C18. Length in code points and the order of the checks, for a `maxErr`
that is the caller's length error (neither `ErrFieldEmpty` nor
`ErrSpecialChars`): `ValidateTextRequired` returns `ErrFieldEmpty` exactly for
the empty text; for a non-empty text it returns `maxErr` exactly when the text
has more than `max` code points, whatever characters it holds; a text of
exactly `max` code points made of allowed characters is accepted.
`ValidateNotesOptional` returns nil for the empty text and otherwise equals
`ValidateTextRequired` with limit 80 and `ErrMaxLen80`. -/
theorem text_length_precedence (s : String) (max : Int) (maxErr : Err)
    (h1 : maxErr ≠ Err.ErrFieldEmpty) (h2 : maxErr ≠ Err.ErrSpecialChars) :
    (ValidateTextRequired s max maxErr = some Err.ErrFieldEmpty ↔ s = "") ∧
    (s ≠ "" → (ValidateTextRequired s max maxErr = some maxErr ↔ (s.data.length : Int) > max)) ∧
    (s ≠ "" → (s.data.length : Int) = max → (∀ c ∈ s.data, allowedChar c = true) →
      ValidateTextRequired s max maxErr = none) ∧
    ValidateNotesOptional "" = none ∧
    (s ≠ "" → ValidateNotesOptional s = ValidateTextRequired s 80 Err.ErrMaxLen80) := by
  have hl : s.length = s.data.length := rfl
  refine ⟨?_, ?_, ?_, rfl, ValidateNotesOptional_nonempty s⟩
  · unfold ValidateTextRequired
    by_cases hs : s = ""
    · simp [hs]
    · by_cases hgt : (s.length : Int) > max
      · simp [hs, hgt, h1]
      · cases allowedText s <;> simp [hs, hgt]
  · intro hs
    unfold ValidateTextRequired
    rw [← hl]
    by_cases hgt : (s.length : Int) > max
    · simp [hs, hgt]
    · cases allowedText s <;> simp [hs, hgt, Ne.symm h2]
  · intro hs hlen hall
    rw [← hl] at hlen
    rw [ValidateTextRequired_short s max maxErr hs (le_of_eq hlen)]
    rw [if_pos ((allowedText_iff s).2 ⟨hs, hall⟩)]

set_option maxRecDepth 8000 in
theorem text_length_precedence_witness :
    Err.ErrMaxLen40 ≠ Err.ErrFieldEmpty ∧ Err.ErrMaxLen40 ≠ Err.ErrSpecialChars ∧
    "ééééé".utf8ByteSize = 10 ∧ "ééééé".data.length = 5 ∧
    ValidateTextRequired "ééééé" 5 Err.ErrMaxLen40 = none ∧
    ValidateTextRequired "éééééé" 5 Err.ErrMaxLen40 = some Err.ErrMaxLen40 ∧
    ValidateTextRequired "######" 5 Err.ErrMaxLen40 = some Err.ErrMaxLen40 :=
  ⟨by decide, by decide, by decide, by decide,
    (text_length_precedence "ééééé" 5 Err.ErrMaxLen40 (by decide) (by decide)).2.2.1
      (by decide) (by decide) (by decide),
    ((text_length_precedence "éééééé" 5 Err.ErrMaxLen40 (by decide) (by decide)).2.1
      (by decide)).2 (by decide),
    ((text_length_precedence "######" 5 Err.ErrMaxLen40 (by decide) (by decide)).2.1
      (by decide)).2 (by decide)⟩

/-! ## Sorting -/

/-- Go's string order is asymmetric. -/
theorem lessChars_asymm (a b : List Char) (h : lessChars a b = true) : lessChars b a = false := by
  induction a generalizing b with
  | nil =>
    cases b with
    | nil => rfl
    | cons y bs => rfl
  | cons x as ih =>
    cases b with
    | nil => simp [lessChars] at h
    | cons y bs =>
      simp only [lessChars] at h ⊢
      by_cases h1 : x.toNat < y.toNat
      · have h2 : ¬ y.toNat < x.toNat := by omega
        simp [h1, h2]
      · by_cases h2 : y.toNat < x.toNat
        · simp [h1, h2] at h
        · simp only [h1, h2, if_false] at h ⊢
          exact ih bs h

/-- If `c < a` in Go's string order then every `b` has `b < a` or `c < b`. -/
theorem lessChars_cotrans (c a b : List Char) (h : lessChars c a = true) :
    lessChars b a = true ∨ lessChars c b = true := by
  induction c generalizing a b with
  | nil =>
    cases a with
    | nil => simp [lessChars] at h
    | cons x as =>
      cases b with
      | nil => left; rfl
      | cons y bs => right; rfl
  | cons z cs ih =>
    cases a with
    | nil => simp [lessChars] at h
    | cons x as =>
      cases b with
      | nil => left; rfl
      | cons y bs =>
        simp only [lessChars] at h ⊢
        by_cases hzx : z.toNat < x.toNat
        · by_cases hyx : y.toNat < x.toNat
          · left; simp [hyx]
          · right
            have : z.toNat < y.toNat := by omega
            simp [this]
        · by_cases hxz : x.toNat < z.toNat
          · simp [hzx, hxz] at h
          · simp only [hzx, hxz, if_false] at h
            by_cases hyx : y.toNat < x.toNat
            · left; simp [hyx]
            · by_cases hxy : x.toNat < y.toNat
              · right
                have : z.toNat < y.toNat := by omega
                simp [this]
              · have e1 : ¬ z.toNat < y.toNat := by omega
                have e2 : ¬ y.toNat < z.toNat := by omega
                simp only [hyx, hxy, e1, e2, if_false]
                exact ih as bs h

theorem sorted_by_name_asc (users : List User) :
    (users.insertionSort (fun a b => stringLess b.Name a.Name = false)).Pairwise
      (fun a b => stringLess b.Name a.Name = false) := by
  haveI : IsTotal User (fun a b => stringLess b.Name a.Name = false) :=
    ⟨fun a b => by
      cases h : stringLess b.Name a.Name with
      | false => exact Or.inl rfl
      | true => exact Or.inr (lessChars_asymm _ _ h)⟩
  haveI : IsTrans User (fun a b => stringLess b.Name a.Name = false) :=
    ⟨fun a b c h1 h2 => by
      cases h : stringLess c.Name a.Name with
      | false => rfl
      | true =>
        rcases lessChars_cotrans _ _ b.Name.data h with h3 | h3
        · exact absurd h3 (by simp [stringLess] at h1; simp [h1])
        · exact absurd h3 (by simp [stringLess] at h2; simp [h2])⟩
  exact List.sorted_insertionSort (fun a b : User => stringLess b.Name a.Name = false) users

theorem sorted_by_name_desc (users : List User) :
    (users.insertionSort (fun a b => stringLess a.Name b.Name = false)).Pairwise
      (fun a b => stringLess a.Name b.Name = false) := by
  haveI : IsTotal User (fun a b => stringLess a.Name b.Name = false) :=
    ⟨fun a b => by
      cases h : stringLess a.Name b.Name with
      | false => exact Or.inl rfl
      | true => exact Or.inr (lessChars_asymm _ _ h)⟩
  haveI : IsTrans User (fun a b => stringLess a.Name b.Name = false) :=
    ⟨fun a b c h1 h2 => by
      cases h : stringLess a.Name c.Name with
      | false => rfl
      | true =>
        rcases lessChars_cotrans _ _ b.Name.data h with h3 | h3
        · exact absurd h3 (by simp [stringLess] at h2; simp [h2])
        · exact absurd h3 (by simp [stringLess] at h1; simp [h1])⟩
  exact List.sorted_insertionSort (fun a b : User => stringLess a.Name b.Name = false) users

theorem SortUsersByName_asc (users : List User) :
    SortUsersByName users "name_asc" =
      users.insertionSort (fun a b => stringLess b.Name a.Name = false) := by
  unfold SortUsersByName
  rw [if_pos (by decide)]

theorem SortUsersByName_desc (users : List User) :
    SortUsersByName users "name_desc" =
      users.insertionSort (fun a b => stringLess a.Name b.Name = false) := by
  unfold SortUsersByName
  rw [if_neg (by decide), if_pos (by decide)]

/-- What `SortUsersByName` does with the names: it compares them as they are,
in Go's order of strings, which goes by code points and so puts every
upper-case ASCII letter before every lower-case one.  With "name_asc" it
returns a permutation of the users in which no name is greater than a later
one in that order, with "name_desc" a permutation in which no name is less
than a later one; and for every store behind the interface, a successful
`FollowersList` or `FollowedList` returns the listing of the store sorted by
`SortUsersByName`. -/
theorem name_sort_order (users : List User) :
    ((SortUsersByName users "name_asc").Perm users ∧
      (SortUsersByName users "name_asc").Pairwise
        (fun a b => stringLess b.Name a.Name = false)) ∧
    ((SortUsersByName users "name_desc").Perm users ∧
      (SortUsersByName users "name_desc").Pairwise
        (fun a b => stringLess a.Name b.Name = false)) ∧
    (∀ (σ : Type) (S : Store σ) (st : σ) (id : Int) (order : String) (u : User)
        (l : List User),
      (UserService.FollowersList S st id order = .ok (u, l) →
        ∃ f, S.FollowersOf st id = .ok f ∧ l = SortUsersByName f order) ∧
      (UserService.FollowedList S st id order = .ok (u, l) →
        ∃ f, S.FollowedBy st id = .ok f ∧ l = SortUsersByName f order)) := by
  refine ⟨⟨?_, ?_⟩, ⟨?_, ?_⟩, ?_⟩
  · rw [SortUsersByName_asc]; exact List.perm_insertionSort _ users
  · rw [SortUsersByName_asc]; exact sorted_by_name_asc users
  · rw [SortUsersByName_desc]; exact List.perm_insertionSort _ users
  · rw [SortUsersByName_desc]; exact sorted_by_name_desc users
  · intro σ S st id order u l
    constructor
    · intro h
      unfold UserService.FollowersList at h
      repeat' split at h
      all_goals (cases h <;> exact ⟨_, by assumption, rfl⟩)
    · intro h
      unfold UserService.FollowedList at h
      repeat' split at h
      all_goals (cases h <;> exact ⟨_, by assumption, rfl⟩)

theorem SortUsersByName_perm (users : List User) (order : String) :
    (SortUsersByName users order).Perm users := by
  unfold SortUsersByName
  split
  · exact List.perm_insertionSort _ users
  · split
    · exact List.perm_insertionSort _ users
    · exact List.Perm.refl users

set_option maxRecDepth 8000 in
/-- C19. `SortUsersByName` does not ignore case: it lowers the order string
only and compares the names as they are.  For the users "bob" and "Carlos" the
ascending sort puts "Carlos" first although "bob" is the smaller name when
case is ignored, the descending sort puts "bob" first, and `FollowersList`
returns the followers of the seller in that order.  `MemoryStore.ListUsers`,
which sorts the same users by name, lowers the names and lists "bob" before
"Carlos". -/
theorem name_sort_case_sensitive :
    SortUsersByName caseUsers "name_asc" =
      [{ ID := 4, Name := "Carlos", IsSeller := false },
       { ID := 3, Name := "bob", IsSeller := false }] ∧
    SortUsersByName caseUsers "name_desc" =
      [{ ID := 3, Name := "bob", IsSeller := false },
       { ID := 4, Name := "Carlos", IsSeller := false }] ∧
    (strings.ToLower "bob" = "bob" ∧ strings.ToLower "Carlos" = "carlos" ∧
      stringLess "bob" "carlos" = true ∧ stringLess "Carlos" "bob" = true) ∧
    Reachable caseStore ∧
    UserService.FollowersList memoryStore caseStore 2 "name_asc" =
      .ok ({ ID := 2, Name := "Seller", IsSeller := true },
           [{ ID := 4, Name := "Carlos", IsSeller := false },
            { ID := 3, Name := "bob", IsSeller := false }]) ∧
    caseStore.ListUsers "name_asc" =
      .ok [{ ID := 3, Name := "bob", IsSeller := false },
           { ID := 4, Name := "Carlos", IsSeller := false },
           { ID := 2, Name := "Seller", IsSeller := true }] :=
  ⟨rfl, rfl, ⟨rfl, rfl, rfl, rfl⟩, ⟨caseOps, rfl⟩, rfl, rfl⟩

theorem SortPostsByDate_asc (posts : List Post) :
    SortPostsByDate posts "date_asc" = posts.insertionSort (fun a b => a.Date ≤ b.Date) := by
  unfold SortPostsByDate
  rw [if_pos (by decide)]

theorem SortPostsByDate_desc (posts : List Post) :
    SortPostsByDate posts "date_desc" = posts.insertionSort (fun a b => a.Date ≥ b.Date) := by
  unfold SortPostsByDate
  rw [if_neg (by decide), if_pos (by decide)]

theorem SortPostsByDate_empty (posts : List Post) :
    SortPostsByDate posts "" = posts.insertionSort (fun a b => a.Date ≥ b.Date) := by
  unfold SortPostsByDate
  rw [if_neg (by decide), if_pos (by decide)]

theorem sorted_by_date_asc (posts : List Post) :
    (posts.insertionSort (fun a b => a.Date ≤ b.Date)).Pairwise (fun a b => a.Date ≤ b.Date) := by
  haveI : IsTotal Post (fun a b => a.Date ≤ b.Date) := ⟨fun a b => le_total a.Date b.Date⟩
  haveI : IsTrans Post (fun a b => a.Date ≤ b.Date) := ⟨fun _ _ _ h1 h2 => le_trans h1 h2⟩
  exact List.sorted_insertionSort (fun a b : Post => a.Date ≤ b.Date) posts

theorem sorted_by_date_desc (posts : List Post) :
    (posts.insertionSort (fun a b => a.Date ≥ b.Date)).Pairwise (fun a b => a.Date ≥ b.Date) := by
  haveI : IsTotal Post (fun a b => a.Date ≥ b.Date) := ⟨fun a b => le_total b.Date a.Date⟩
  haveI : IsTrans Post (fun a b => a.Date ≥ b.Date) := ⟨fun _ _ _ h1 h2 => le_trans h2 h1⟩
  exact List.sorted_insertionSort (fun a b : Post => a.Date ≥ b.Date) posts

/-- C20. Date sort and its default: `SortPostsByDate` with "date_asc" returns a
permutation of the posts with dates non-decreasing (oldest first), with
"date_desc" a permutation with dates non-increasing (newest first), and with
the empty order the same list as with "date_desc".  Hence
`FollowedLastTwoWeeks` with the empty order returns what it returns with
"date_desc", for every store behind the interface and for `MemoryStore`.
`SortUsersByName` with the empty order returns the list as it is. -/
theorem date_sort_default (posts : List Post) (users : List User) :
    ((SortPostsByDate posts "date_asc").Perm posts ∧
      (SortPostsByDate posts "date_asc").Pairwise (fun a b => a.Date ≤ b.Date)) ∧
    ((SortPostsByDate posts "date_desc").Perm posts ∧
      (SortPostsByDate posts "date_desc").Pairwise (fun a b => a.Date ≥ b.Date)) ∧
    SortPostsByDate posts "" = SortPostsByDate posts "date_desc" ∧
    (∀ (σ : Type) (S : Store σ) (st : σ) (now : Time) (userID : Int),
      ProductService.FollowedLastTwoWeeks S st now userID "" =
        ProductService.FollowedLastTwoWeeks S st now userID "date_desc") ∧
    (∀ (st : MemoryStore) (now : Time) (userID : Int),
      FollowedLastTwoWeeks st now userID "" = FollowedLastTwoWeeks st now userID "date_desc") ∧
    SortUsersByName users "" = users := by
  have hv1 : ValidateOrderForPosts "" = none := by decide
  have hv2 : ValidateOrderForPosts "date_desc" = none := by decide
  refine ⟨⟨?_, ?_⟩, ⟨?_, ?_⟩, ?_, ?_, ?_, ?_⟩
  · rw [SortPostsByDate_asc]; exact List.perm_insertionSort _ posts
  · rw [SortPostsByDate_asc]; exact sorted_by_date_asc posts
  · rw [SortPostsByDate_desc]; exact List.perm_insertionSort _ posts
  · rw [SortPostsByDate_desc]; exact sorted_by_date_desc posts
  · rw [SortPostsByDate_empty, SortPostsByDate_desc]
  · intro σ S st now userID
    unfold ProductService.FollowedLastTwoWeeks
    simp only [hv1, hv2, SortPostsByDate_empty, SortPostsByDate_desc]
  · intro st now userID
    unfold FollowedLastTwoWeeks
    simp only [hv1, hv2, SortPostsByDate_empty, SortPostsByDate_desc]
  · unfold SortUsersByName
    rw [if_neg (by decide), if_neg (by decide)]

/-! ## The final price of a promotion -/

/-- Without a promotion the final price is the price. -/
theorem calcFinalPrice_noPromo (price discount : Rat) :
    calcFinalPrice price discount false = .fin price := rfl

/-- C14. The final price of a promotion is not always the exactly rounded
one.  For the price 0.05 (the float64 nearest to it) and the discount 30,
`calcFinalPrice` computes in float64 `30/100 = 0.3` (rounded),
`1 - 0.3 = 0.7` (rounded), `0.05 * 0.7`, a number below 0.035, and 100 times
that, a number below 3.5, which `math.Round` takes to 3: the result is 0.03.
The exact product, of the decimal 0.05 as well as of the float64 read for it,
is at least 0.035, and rounded to 2 places with midpoints away from zero it is
0.04.  For the price 1500.50 and the discount 10 the result is 1350.45, and
without a promotion the result is the price. -/
theorem final_price_rounding :
    Float64.nearest (5 / 100) = 3602879701896397 / 72057594037927936 ∧
    Float64.nearest (30 / 100) = 5404319552844595 / 18014398509481984 ∧
    Float64.nearest (1 - Float64.nearest (30 / 100)) = 3152519739159347 / 4503599627370496 ∧
    Float64.nearest (Float64.nearest (Float64.nearest (5 / 100) *
      Float64.nearest (1 - Float64.nearest (30 / 100))) * 100) < 7 / 2 ∧
    calcFinalPrice (Float64.nearest (5 / 100)) 30 true = .fin (Float64.nearest (3 / 100)) ∧
    round2 (Float64.nearest (5 / 100) * (1 - 30 / 100)) = 4 / 100 ∧
    round2 (5 / 100 * (1 - 30 / 100)) = 4 / 100 ∧
    Float64.nearest (3 / 100) ≠ Float64.nearest (4 / 100) ∧
    calcFinalPrice (Float64.nearest (150050 / 100)) 10 true =
      .fin (Float64.nearest (135045 / 100)) ∧
    round2 (150050 / 100 * (1 - 10 / 100)) = 135045 / 100 ∧
    (∀ price discount : Rat, calcFinalPrice price discount false = .fin price) :=
  ⟨by decide!, by decide!, by decide!, by decide!, by decide!, by decide!, by decide!,
    by decide!, by decide!, by decide!, fun _ _ => rfl⟩

/-! ## Round trip of a published post -/

/-- C21. Publish round trip: when `Publish` succeeds with id `n` on a reachable
`MemoryStore`, `PostsByUser(payload.UserID)` afterwards holds exactly one post
with `PostID = n`, and that post has the product, category and price of the
payload, the submitted discount when `hasPromo` (0 otherwise), the final price
`calcFinalPrice(price, discount, hasPromo)` as the code computes it in
float64, the flag `hasPromo`, the submitted date string and the parsed date of
the payload. -/
theorem publish_round_trip (st : MemoryStore) (h : Reachable st) (payload : PublishPayload)
    (hok : (Publish st payload).2.2 = none) :
    ∃ p t, parseDate payload.Date = .ok t ∧
      ((Publish st payload).1.PostsByUser payload.UserID).filter
        (fun q => decide (q.PostID = (Publish st payload).2.1)) = [p] ∧
      p.UserID = payload.UserID ∧ p.Product = payload.Product ∧
      p.Category = payload.Category ∧ p.Price = payload.Price ∧
      p.HasPromo = payload.HasPromo ∧
      p.Discount = (if payload.HasPromo then payload.Discount else 0) ∧
      p.FinalPrice = calcFinalPrice payload.Price p.Discount payload.HasPromo ∧
      p.Date = t ∧ p.DateStr = payload.Date := by
  obtain ⟨p, hp, hpub⟩ := Publish_ok st payload hok
  obtain ⟨f1, f2, f3, f4, f5, f6, f7, -⟩ := publishPost_fields payload p hp
  obtain ⟨-, hdate⟩ := publishPost_ok payload p hp
  have hstr : p.DateStr = payload.Date := by
    unfold publishPost at hp
    repeat' split at hp
    all_goals (cases hp <;> rfl)
  have hold : ∀ q ∈ st.posts, ¬ q.PostID = st.nextPostID := by
    intro q hq heq
    have := (h.wf.postRange q hq).2
    omega
  have hfil : (st.posts.filter (fun q => q.UserID == payload.UserID)).filter
      (fun q => decide (q.PostID = st.nextPostID)) = [] := by
    rw [List.filter_eq_nil_iff]
    intro q hq
    have := hold q (List.mem_of_mem_filter hq)
    simpa using this
  refine ⟨{ p with PostID := st.nextPostID }, p.Date, hdate, ?_, f1, f2, f3, f4, f5, f6, ?_,
    rfl, hstr⟩
  · rw [hpub]
    simp only [PostsByUser, List.filter_append, hfil, List.nil_append]
    simp [List.filter_cons, f1]
  · show p.FinalPrice = calcFinalPrice payload.Price p.Discount payload.HasPromo
    rw [f7, f4, f5]

set_option maxRecDepth 8000 in
theorem publish_round_trip_witness :
    Reachable windowStore ∧ (Publish windowStore promoPayload).2.2 = none ∧
    ((Publish windowStore promoPayload).1.PostsByUser 2).map
        (fun q => (q.PostID, q.Price, q.Discount, q.FinalPrice)) =
      [(1, Float64.nearest (5 / 100), 30, Float64.fin (Float64.nearest (3 / 100)))] ∧
    (∃ p t, parseDate promoPayload.Date = .ok t ∧
      ((Publish windowStore promoPayload).1.PostsByUser promoPayload.UserID).filter
        (fun q => decide (q.PostID = (Publish windowStore promoPayload).2.1)) = [p] ∧
      p.UserID = promoPayload.UserID ∧ p.Product = promoPayload.Product ∧
      p.Category = promoPayload.Category ∧ p.Price = promoPayload.Price ∧
      p.HasPromo = promoPayload.HasPromo ∧
      p.Discount = (if promoPayload.HasPromo then promoPayload.Discount else 0) ∧
      p.FinalPrice = calcFinalPrice promoPayload.Price p.Discount promoPayload.HasPromo ∧
      p.Date = t ∧ p.DateStr = promoPayload.Date) ∧
    (Publish windowStore (windowPayload "16-04-2021")).2.2 = none ∧
    (∃ p t, parseDate (windowPayload "16-04-2021").Date = .ok t ∧
      ((Publish windowStore (windowPayload "16-04-2021")).1.PostsByUser
          (windowPayload "16-04-2021").UserID).filter
        (fun q => decide (q.PostID = (Publish windowStore (windowPayload "16-04-2021")).2.1))
        = [p] ∧
      p.UserID = (windowPayload "16-04-2021").UserID ∧
      p.Product = (windowPayload "16-04-2021").Product ∧
      p.Category = (windowPayload "16-04-2021").Category ∧
      p.Price = (windowPayload "16-04-2021").Price ∧
      p.HasPromo = (windowPayload "16-04-2021").HasPromo ∧
      p.Discount = (if (windowPayload "16-04-2021").HasPromo
        then (windowPayload "16-04-2021").Discount else 0) ∧
      p.FinalPrice = calcFinalPrice (windowPayload "16-04-2021").Price p.Discount
        (windowPayload "16-04-2021").HasPromo ∧
      p.Date = t ∧ p.DateStr = (windowPayload "16-04-2021").Date) :=
  ⟨⟨windowOps, rfl⟩, by decide!, by decide!,
    publish_round_trip windowStore ⟨windowOps, rfl⟩ promoPayload (by decide!),
    rfl,
    publish_round_trip windowStore ⟨windowOps, rfl⟩ (windowPayload "16-04-2021") rfl⟩

/-! ## Self-follow -/

theorem ValidateID_pos (id : Int) (h : 0 < id) : ValidateID id = none := by
  unfold ValidateID
  rw [if_neg (by omega), if_neg (by omega)]

/-- C24. Self-follow is rejected by the service: for every store behind the
interface and every `u > 0`, `UserService.Follow(u, u)` returns
`ErrIDGreaterThanZero` and the state it was given, whatever the store's
`Follow` would do, so a call `Follow(u, u)` never changes the store, for any
`u`; for `u != s`, both positive, it returns exactly what the store's `Follow`
returns; `Unfollow` has no such check: for positive ids, equal or not, it
returns what the store's `Unfollow` returns. -/
theorem self_follow_rejected {σ : Type} (S : Store σ) (st : σ) (u s : Int) :
    (0 < u → UserService.Follow S st u u = (st, some Err.ErrIDGreaterThanZero)) ∧
    (UserService.Follow S st u u).1 = st ∧
    (UserService.Follow S st u u).2 ≠ none ∧
    (0 < u → 0 < s → u ≠ s → UserService.Follow S st u s = S.Follow st u s) ∧
    (0 < u → 0 < s → UserService.Unfollow S st u s = S.Unfollow st u s) ∧
    (0 < u → UserService.Unfollow S st u u = S.Unfollow st u u) := by
  refine ⟨?_, ?_, ?_, ?_, ?_, ?_⟩
  · intro hu
    unfold UserService.Follow
    rw [ValidateID_pos u hu]
    simp
  · unfold UserService.Follow
    cases ValidateID u <;> simp
  · unfold UserService.Follow
    cases ValidateID u <;> simp
  · intro hu hs hne
    unfold UserService.Follow
    rw [ValidateID_pos u hu, ValidateID_pos s hs]
    simp [hne]
  · intro hu hs
    unfold UserService.Unfollow
    rw [ValidateID_pos u hu, ValidateID_pos s hs]
  · intro hu
    unfold UserService.Unfollow
    rw [ValidateID_pos u hu]

/-! ## Promotional listing -/

theorem ValidateID_nonpos (id : Int) (h : id ≤ 0) :
    ValidateID id = some (if id = 0 then Err.ErrIDEmpty else Err.ErrIDGreaterThanZero) := by
  unfold ValidateID
  by_cases h0 : id = 0
  · simp [h0]
  · have : id < 0 := by omega
    simp [h0, this]

/-- C26. Promotional listing on `MemoryStore`: for `u <= 0`, `PromoCount` and
`PromoList` fail with the id error (`ErrIDEmpty` for 0, `ErrIDGreaterThanZero`
below 0); for `u > 0` that is no existing user they fail with
`ErrUserNotFound`; otherwise `PromoList` returns the user together with a
permutation of the stored posts that have `UserID = u` and `HasPromo = true`
(each as often as it is stored), with dates non-increasing, and `PromoCount`
returns the number of these posts. -/
theorem promo_listing (st : MemoryStore) (u : Int) :
    (u ≤ 0 →
      ProductService.PromoCount memoryStore st u =
        .error (if u = 0 then Err.ErrIDEmpty else Err.ErrIDGreaterThanZero) ∧
      ProductService.PromoList memoryStore st u =
        .error (if u = 0 then Err.ErrIDEmpty else Err.ErrIDGreaterThanZero)) ∧
    (0 < u → st.users.has u = false →
      ProductService.PromoCount memoryStore st u = .error Err.ErrUserNotFound ∧
      ProductService.PromoList memoryStore st u = .error Err.ErrUserNotFound) ∧
    (∀ x, 0 < u → st.users.get u = some x →
      ∃ l, ProductService.PromoList memoryStore st u = .ok (x, l) ∧
        l.Perm (st.posts.filter (fun p => decide (p.UserID = u ∧ p.HasPromo = true))) ∧
        l.Pairwise (fun a b => a.Date ≥ b.Date) ∧
        ProductService.PromoCount memoryStore st u = .ok (x, (l.length : Int))) := by
  have hfil : memoryStore.PromoPostsBySeller st u =
      st.posts.filter (fun p => decide (p.UserID = u ∧ p.HasPromo = true)) := by
    show st.PromoPostsBySeller u = _
    unfold PromoPostsBySeller
    apply List.filter_congr
    intro p _
    by_cases h1 : p.UserID = u <;> cases p.HasPromo <;> simp [h1]
  refine ⟨?_, ?_, ?_⟩
  · intro hu
    unfold ProductService.PromoCount ProductService.PromoList
    rw [ValidateID_nonpos u hu]
    exact ⟨rfl, rfl⟩
  · intro hu hx
    have hg : memoryStore.GetUser st u = none := by
      show st.users.get u = none
      unfold GoMap.has at hx
      cases hgu : st.users.get u with
      | none => rfl
      | some y => simp [hgu] at hx
    unfold ProductService.PromoCount ProductService.PromoList
    rw [ValidateID_pos u hu, hg]
    exact ⟨rfl, rfl⟩
  · intro x hu hx
    have hg : memoryStore.GetUser st u = some x := hx
    unfold ProductService.PromoCount ProductService.PromoList
    rw [ValidateID_pos u hu, hg]
    simp only
    rw [hfil]
    refine ⟨_, rfl, ?_, ?_, ?_⟩
    · show (SortPostsByDate _ "date_desc").Perm _
      rw [SortPostsByDate_desc]
      exact List.perm_insertionSort _ _
    · show (SortPostsByDate _ "date_desc").Pairwise _
      rw [SortPostsByDate_desc]
      exact sorted_by_date_desc _
    · have hlen : (SortPostsByDate
          (st.posts.filter (fun p => decide (p.UserID = u ∧ p.HasPromo = true))) DateDesc).length
          = (st.posts.filter (fun p => decide (p.UserID = u ∧ p.HasPromo = true))).length := by
        show (SortPostsByDate _ "date_desc").length = _
        rw [SortPostsByDate_desc]
        exact (List.perm_insertionSort _ _).length_eq
      rw [hlen]

/-! ## The user-id counter -/

theorem wrapInt64_of_range (x : Int) (h1 : -(2 ^ 63) ≤ x) (h2 : x < 2 ^ 63) : wrapInt64 x = x := by
  unfold wrapInt64
  omega

/-- What a call leaves alone: `Follow`, `Unfollow`, `AddPost` and `DeletePost`
touch neither the users, the accounts, the e-mail index nor the user counter. -/
theorem Follow_frame (s : MemoryStore) (a b : Int) :
    (s.Follow a b).1.users = s.users ∧ (s.Follow a b).1.accounts = s.accounts ∧
    (s.Follow a b).1.accountByEmail = s.accountByEmail ∧
    (s.Follow a b).1.nextUserID = s.nextUserID := by
  unfold Follow
  split
  · exact ⟨rfl, rfl, rfl, rfl⟩
  · split <;> exact ⟨rfl, rfl, rfl, rfl⟩

theorem Unfollow_frame (s : MemoryStore) (a b : Int) :
    (s.Unfollow a b).1.users = s.users ∧ (s.Unfollow a b).1.accounts = s.accounts ∧
    (s.Unfollow a b).1.accountByEmail = s.accountByEmail ∧
    (s.Unfollow a b).1.nextUserID = s.nextUserID := by
  unfold Unfollow
  split
  · exact ⟨rfl, rfl, rfl, rfl⟩
  · split <;> exact ⟨rfl, rfl, rfl, rfl⟩

theorem AddPost_frame (s : MemoryStore) (p : Post) :
    (s.AddPost p).1.users = s.users ∧ (s.AddPost p).1.accounts = s.accounts ∧
    (s.AddPost p).1.accountByEmail = s.accountByEmail ∧
    (s.AddPost p).1.nextUserID = s.nextUserID := by
  unfold AddPost
  split <;> exact ⟨rfl, rfl, rfl, rfl⟩

theorem DeletePost_frame (s : MemoryStore) (a b : Int) :
    (s.DeletePost a b).1.users = s.users ∧ (s.DeletePost a b).1.accounts = s.accounts ∧
    (s.DeletePost a b).1.accountByEmail = s.accountByEmail ∧
    (s.DeletePost a b).1.nextUserID = s.nextUserID := by
  unfold DeletePost
  split
  · exact ⟨rfl, rfl, rfl, rfl⟩
  · split
    · exact ⟨rfl, rfl, rfl, rfl⟩
    · split <;> exact ⟨rfl, rfl, rfl, rfl⟩

theorem UpdateAvatar_frame (s : MemoryStore) (id : Int) (url : String) :
    (s.UpdateAvatar id url).1.users = s.users ∧
    (s.UpdateAvatar id url).1.accountByEmail = s.accountByEmail ∧
    (s.UpdateAvatar id url).1.nextUserID = s.nextUserID := by
  unfold UpdateAvatar
  split <;> exact ⟨rfl, rfl, rfl⟩

/-- The accounts after `UpdateAvatar`: the account under `k` keeps its id, name
and seller flag, and no key is added. -/
theorem UpdateAvatar_accounts (s : MemoryStore) (id : Int) (url : String) (k : Int) (acc : Account)
    (h : (s.UpdateAvatar id url).1.accounts.get k = some acc) :
    ∃ acc0, s.accounts.get k = some acc0 ∧ acc.ID = acc0.ID ∧ acc.Name = acc0.Name ∧
      acc.IsSeller = acc0.IsSeller ∧ acc.Email = acc0.Email := by
  unfold UpdateAvatar at h
  split at h
  · exact ⟨acc, h, rfl, rfl, rfl, rfl⟩
  · rename_i a ha
    simp only at h
    by_cases hk : k = id
    · subst hk
      rw [GoMap.get_set_self] at h
      cases h
      exact ⟨a, ha, rfl, rfl, rfl, rfl⟩
    · rw [GoMap.get_set_ne _ _ _ _ hk] at h
      exact ⟨acc, h, rfl, rfl, rfl, rfl⟩

theorem seedOne_frame (s : MemoryStore) (u : User) :
    (s.seedOne u).accounts = s.accounts ∧ (s.seedOne u).accountByEmail = s.accountByEmail ∧
    (s.seedOne u).users = s.users.set u.ID u := by
  unfold seedOne
  simp only
  split <;> exact ⟨rfl, rfl, rfl⟩

theorem SeedUsers_frame (users : List User) (s : MemoryStore) :
    (s.SeedUsers users).accounts = s.accounts ∧
    (s.SeedUsers users).accountByEmail = s.accountByEmail := by
  unfold SeedUsers
  induction users generalizing s with
  | nil => exact ⟨rfl, rfl⟩
  | cons u t ih =>
    rw [List.foldl_cons]
    obtain ⟨h1, h2⟩ := ih (s.seedOne u)
    obtain ⟨h3, h4, -⟩ := seedOne_frame s u
    exact ⟨h1.trans h3, h2.trans h4⟩

theorem Fresh_new : Fresh NewMemoryStore := by
  refine ⟨by decide, ?_, ?_⟩ <;> intro k h <;> simp [NewMemoryStore, GoMap.has, GoMap.get] at h

theorem Fresh_seedOne (s : MemoryStore) (u : User) (h : Fresh s)
    (hu : -(2 ^ 63) ≤ u.ID ∧ u.ID < 2 ^ 63 - 1) : Fresh (s.seedOne u) := by
  obtain ⟨h1, h2, h3⟩ := h
  have hw : wrapInt64 (u.ID + 1) = u.ID + 1 := wrapInt64_of_range _ (by omega) (by omega)
  unfold seedOne
  simp only [hw]
  split
  · rename_i hge
    refine ⟨by simp only; omega, ?_, ?_⟩
    · intro k hk
      simp only [GoMap.has_set, Bool.or_eq_true, decide_eq_true_eq] at hk
      rcases hk with hk | hk
      · simp only; omega
      · have := h2 k hk
        simp only; omega
    · intro k hk
      have := h3 k hk
      simp only; omega
  · rename_i hlt
    refine ⟨h1, ?_, h3⟩
    intro k hk
    simp only [GoMap.has_set, Bool.or_eq_true, decide_eq_true_eq] at hk
    rcases hk with hk | hk
    · simp only; omega
    · exact h2 k hk

theorem Fresh_SeedUsers (users : List User) (s : MemoryStore) (h : Fresh s)
    (hu : ∀ u ∈ users, -(2 ^ 63) ≤ u.ID ∧ u.ID < 2 ^ 63 - 1) : Fresh (s.SeedUsers users) := by
  unfold SeedUsers
  induction users generalizing s with
  | nil => exact h
  | cons u t ih =>
    rw [List.foldl_cons]
    exact ih _ (Fresh_seedOne s u h (hu u (List.mem_cons_self _ _)))
      (fun v hv => hu v (List.mem_cons_of_mem _ hv))

theorem Fresh_CreateUser (s : MemoryStore) (name : String) (isSeller : Bool) (h : Fresh s)
    (hn : s.nextUserID < 2 ^ 63 - 1) : Fresh (s.CreateUser name isSeller).1 := by
  obtain ⟨h1, h2, h3⟩ := h
  have hw : wrapInt64 (s.nextUserID + 1) = s.nextUserID + 1 :=
    wrapInt64_of_range _ (by omega) (by omega)
  unfold CreateUser
  simp only [hw]
  refine ⟨?_, ?_, ?_⟩
  · show 1 ≤ s.nextUserID + 1
    omega
  · intro k hk
    show k < s.nextUserID + 1
    simp only [GoMap.has_set, Bool.or_eq_true, decide_eq_true_eq] at hk
    rcases hk with hk | hk
    · omega
    · have := h2 k hk
      omega
  · intro k hk
    show k < s.nextUserID + 1
    have := h3 k hk
    omega

theorem Fresh_CreateAccount (s : MemoryStore) (now : Time) (name email pw : String)
    (isSeller : Bool) (h : Fresh s) (hn : s.nextUserID < 2 ^ 63 - 1) :
    Fresh (s.CreateAccount now name email pw isSeller).1 := by
  obtain ⟨h1, h2, h3⟩ := h
  have hw : wrapInt64 (s.nextUserID + 1) = s.nextUserID + 1 :=
    wrapInt64_of_range _ (by omega) (by omega)
  unfold CreateAccount
  simp only [hw]
  split
  · exact ⟨h1, h2, h3⟩
  · refine ⟨by simp only; omega, ?_, ?_⟩
    · intro k hk
      simp only [GoMap.has_set, Bool.or_eq_true, decide_eq_true_eq] at hk
      rcases hk with hk | hk
      · simp only; omega
      · have := h2 k hk
        simp only; omega
    · intro k hk
      simp only [GoMap.has_set, Bool.or_eq_true, decide_eq_true_eq] at hk
      rcases hk with hk | hk
      · simp only; omega
      · have := h3 k hk
        simp only; omega

theorem UpdateAvatar_has (s : MemoryStore) (id : Int) (url : String) (k : Int) :
    (s.UpdateAvatar id url).1.accounts.has k = s.accounts.has k := by
  unfold UpdateAvatar
  split
  · rfl
  · rename_i a ha
    simp only [GoMap.has_set]
    by_cases hk : k = id
    · subst hk
      simp [GoMap.has, ha]
    · simp [hk]

theorem Fresh_apply (s : MemoryStore) (op : Op) (h : Fresh s) (hn : Op.noOverflow s op) :
    Fresh (op.apply s) := by
  obtain ⟨h1, h2, h3⟩ := h
  cases op with
  | seedUsers users => exact Fresh_SeedUsers users s ⟨h1, h2, h3⟩ hn
  | createUser name isSeller => exact Fresh_CreateUser s name isSeller ⟨h1, h2, h3⟩ hn
  | createAccount now name email pw isSeller =>
    exact Fresh_CreateAccount s now name email pw isSeller ⟨h1, h2, h3⟩ hn
  | updateAvatar id url =>
    obtain ⟨f1, -, f3⟩ := UpdateAvatar_frame s id url
    refine ⟨?_, ?_, ?_⟩
    · show 1 ≤ (s.UpdateAvatar id url).1.nextUserID
      rw [f3]; exact h1
    · intro k hk
      show k < (s.UpdateAvatar id url).1.nextUserID
      have hk1 : (s.UpdateAvatar id url).1.users.has k = true := hk
      rw [f3]; rw [f1] at hk1; exact h2 k hk1
    · intro k hk
      show k < (s.UpdateAvatar id url).1.nextUserID
      have hk1 : (s.UpdateAvatar id url).1.accounts.has k = true := hk
      rw [f3]; rw [UpdateAvatar_has] at hk1; exact h3 k hk1
  | follow a b =>
    obtain ⟨f1, f2, -, f4⟩ := Follow_frame s a b
    refine ⟨?_, ?_, ?_⟩
    · show 1 ≤ (s.Follow a b).1.nextUserID
      rw [f4]; exact h1
    · intro k hk
      show k < (s.Follow a b).1.nextUserID
      have hk1 : (s.Follow a b).1.users.has k = true := hk
      rw [f4]; rw [f1] at hk1; exact h2 k hk1
    · intro k hk
      show k < (s.Follow a b).1.nextUserID
      have hk1 : (s.Follow a b).1.accounts.has k = true := hk
      rw [f4]; rw [f2] at hk1; exact h3 k hk1
  | unfollow a b =>
    obtain ⟨f1, f2, -, f4⟩ := Unfollow_frame s a b
    refine ⟨?_, ?_, ?_⟩
    · show 1 ≤ (s.Unfollow a b).1.nextUserID
      rw [f4]; exact h1
    · intro k hk
      show k < (s.Unfollow a b).1.nextUserID
      have hk1 : (s.Unfollow a b).1.users.has k = true := hk
      rw [f4]; rw [f1] at hk1; exact h2 k hk1
    · intro k hk
      show k < (s.Unfollow a b).1.nextUserID
      have hk1 : (s.Unfollow a b).1.accounts.has k = true := hk
      rw [f4]; rw [f2] at hk1; exact h3 k hk1
  | addPost p =>
    obtain ⟨f1, f2, -, f4⟩ := AddPost_frame s p
    refine ⟨?_, ?_, ?_⟩
    · show 1 ≤ (s.AddPost p).1.nextUserID
      rw [f4]; exact h1
    · intro k hk
      show k < (s.AddPost p).1.nextUserID
      have hk1 : (s.AddPost p).1.users.has k = true := hk
      rw [f4]; rw [f1] at hk1; exact h2 k hk1
    · intro k hk
      show k < (s.AddPost p).1.nextUserID
      have hk1 : (s.AddPost p).1.accounts.has k = true := hk
      rw [f4]; rw [f2] at hk1; exact h3 k hk1
  | deletePost a b =>
    obtain ⟨f1, f2, -, f4⟩ := DeletePost_frame s a b
    refine ⟨?_, ?_, ?_⟩
    · show 1 ≤ (s.DeletePost a b).1.nextUserID
      rw [f4]; exact h1
    · intro k hk
      show k < (s.DeletePost a b).1.nextUserID
      have hk1 : (s.DeletePost a b).1.users.has k = true := hk
      rw [f4]; rw [f1] at hk1; exact h2 k hk1
    · intro k hk
      show k < (s.DeletePost a b).1.nextUserID
      have hk1 : (s.DeletePost a b).1.accounts.has k = true := hk
      rw [f4]; rw [f2] at hk1; exact h3 k hk1

theorem Fresh_runOps (ops : List Op) (s : MemoryStore) (h : Fresh s)
    (hn : runAll Op.noOverflow s ops) : Fresh (runOps s ops) := by
  unfold runOps
  induction ops generalizing s with
  | nil => exact h
  | cons op t ih =>
    rw [List.foldl_cons]
    exact ih _ (Fresh_apply s op h hn.1) hn.2

theorem has_false_of_ge (s : MemoryStore) (h : Fresh s) :
    s.users.has s.nextUserID = false ∧ s.accounts.has s.nextUserID = false := by
  constructor
  · cases hh : s.users.has s.nextUserID with
    | false => rfl
    | true => exact absurd (h.users _ hh) (lt_irrefl _)
  · cases hh : s.accounts.has s.nextUserID with
    | false => rfl
    | true => exact absurd (h.accounts _ hh) (lt_irrefl _)

theorem ne_of_has {V : Type} (m : GoMap Int V) (k id : Int) (hk : m.has k = true)
    (hid : m.has id = false) : k ≠ id := by
  intro e
  rw [e, hid] at hk
  exact Bool.noConfusion hk


theorem CreateUser_keeps (s : MemoryStore) (name : String) (isSeller : Bool) (h : Fresh s) :
    (s.CreateUser name isSeller).2.1.ID = s.nextUserID ∧
    s.users.has s.nextUserID = false ∧ s.accounts.has s.nextUserID = false ∧
    (∀ k, s.users.has k = true →
      (s.CreateUser name isSeller).1.users.get k = s.users.get k) ∧
    (s.CreateUser name isSeller).1.accounts = s.accounts := by
  obtain ⟨hu, ha⟩ := has_false_of_ge s h
  refine ⟨rfl, hu, ha, ?_, rfl⟩
  intro k hk
  show (s.users.set s.nextUserID _).get k = _
  exact GoMap.get_set_ne _ _ _ _ (ne_of_has _ _ _ hk hu)

theorem CreateAccount_taken (s : MemoryStore) (now : Time) (name email pw : String)
    (isSeller : Bool)
    (h : (s.accountByEmail.get (strings.ToLower (strings.TrimSpace email))).isSome = true) :
    s.CreateAccount now name email pw isSeller = (s, none, some Err.ErrEmailTaken) := by
  unfold CreateAccount
  simp only [h, if_true]

theorem CreateAccount_free (s : MemoryStore) (now : Time) (name email pw : String)
    (isSeller : Bool)
    (h : ¬ (s.accountByEmail.get (strings.ToLower (strings.TrimSpace email))).isSome = true) :
    s.CreateAccount now name email pw isSeller =
      ({ s with
          nextUserID := wrapInt64 (s.nextUserID + 1)
          accounts := s.accounts.set s.nextUserID
            { ID := s.nextUserID, Name := name,
              Email := strings.ToLower (strings.TrimSpace email), IsSeller := isSeller,
              AvatarURL := "", CreatedAt := now, PasswordHash := pw }
          accountByEmail :=
            s.accountByEmail.set (strings.ToLower (strings.TrimSpace email)) s.nextUserID
          users := s.users.set s.nextUserID
            { ID := s.nextUserID, Name := name, IsSeller := isSeller } },
        some { ID := s.nextUserID, Name := name,
               Email := strings.ToLower (strings.TrimSpace email), IsSeller := isSeller,
               AvatarURL := "", CreatedAt := now, PasswordHash := pw }, none) := by
  unfold CreateAccount
  simp only [h]
  rfl

theorem CreateAccount_keeps (s : MemoryStore) (now : Time) (name email pw : String)
    (isSeller : Bool) (acc : Account) (h : Fresh s)
    (hok : (s.CreateAccount now name email pw isSeller).2.1 = some acc) :
    acc.ID = s.nextUserID ∧
    s.users.has s.nextUserID = false ∧ s.accounts.has s.nextUserID = false ∧
    (∀ k, s.users.has k = true →
      (s.CreateAccount now name email pw isSeller).1.users.get k = s.users.get k) ∧
    (∀ k, s.accounts.has k = true →
      (s.CreateAccount now name email pw isSeller).1.accounts.get k = s.accounts.get k) := by
  obtain ⟨hu, ha⟩ := has_false_of_ge s h
  by_cases hfree : (s.accountByEmail.get (strings.ToLower (strings.TrimSpace email))).isSome = true
  · rw [CreateAccount_taken _ _ _ _ _ _ hfree] at hok
    cases hok
  · rw [CreateAccount_free _ _ _ _ _ _ hfree] at hok ⊢
    simp only [Option.some.injEq] at hok
    refine ⟨by rw [← hok], hu, ha, ?_, ?_⟩
    · intro k hk
      exact GoMap.get_set_ne _ _ _ _ (ne_of_has _ _ _ hk hu)
    · intro k hk
      exact GoMap.get_set_ne _ _ _ _ (ne_of_has _ _ _ hk ha)

/-- C29. User ids are fresh as long as the counter does not overflow: in every
state reached from `NewMemoryStore` by calls none of which takes the user-id
counter past the largest `int` (no seeded id is the largest `int`, no creation
finds the counter at it), `nextUserID` is strictly greater than the id of every
stored user and of every stored account; the id returned by `CreateUser` and by
a successful `CreateAccount` is the counter, which is the id of no stored user
or account, and the call leaves every user and account stored before as it
was. -/
theorem user_ids_fresh (ops : List Op) (h : runAll Op.noOverflow NewMemoryStore ops) :
    (∀ k, (runOps NewMemoryStore ops).users.has k = true →
      k < (runOps NewMemoryStore ops).nextUserID) ∧
    (∀ k, (runOps NewMemoryStore ops).accounts.has k = true →
      k < (runOps NewMemoryStore ops).nextUserID) ∧
    (∀ name isSeller,
      ((runOps NewMemoryStore ops).CreateUser name isSeller).2.1.ID =
        (runOps NewMemoryStore ops).nextUserID ∧
      (runOps NewMemoryStore ops).users.has (runOps NewMemoryStore ops).nextUserID = false ∧
      (runOps NewMemoryStore ops).accounts.has (runOps NewMemoryStore ops).nextUserID = false ∧
      (∀ k, (runOps NewMemoryStore ops).users.has k = true →
        ((runOps NewMemoryStore ops).CreateUser name isSeller).1.users.get k =
          (runOps NewMemoryStore ops).users.get k) ∧
      ((runOps NewMemoryStore ops).CreateUser name isSeller).1.accounts =
        (runOps NewMemoryStore ops).accounts) ∧
    (∀ now name email pw isSeller acc,
      ((runOps NewMemoryStore ops).CreateAccount now name email pw isSeller).2.1 = some acc →
      acc.ID = (runOps NewMemoryStore ops).nextUserID ∧
      (runOps NewMemoryStore ops).users.has (runOps NewMemoryStore ops).nextUserID = false ∧
      (runOps NewMemoryStore ops).accounts.has (runOps NewMemoryStore ops).nextUserID = false ∧
      (∀ k, (runOps NewMemoryStore ops).users.has k = true →
        ((runOps NewMemoryStore ops).CreateAccount now name email pw isSeller).1.users.get k =
          (runOps NewMemoryStore ops).users.get k) ∧
      (∀ k, (runOps NewMemoryStore ops).accounts.has k = true →
        ((runOps NewMemoryStore ops).CreateAccount now name email pw isSeller).1.accounts.get k =
          (runOps NewMemoryStore ops).accounts.get k)) := by
  have hf := Fresh_runOps ops NewMemoryStore Fresh_new h
  exact ⟨hf.users, hf.accounts, fun name isSeller => CreateUser_keeps _ name isSeller hf,
    fun now name email pw isSeller acc hok =>
      CreateAccount_keeps _ now name email pw isSeller acc hf hok⟩


theorem user_ids_fresh_witness :
    runAll Op.noOverflow NewMemoryStore overwriteOps ∧
    (∀ k, (runOps NewMemoryStore overwriteOps).users.has k = true →
      k < (runOps NewMemoryStore overwriteOps).nextUserID) ∧
    (∀ k, (runOps NewMemoryStore overwriteOps).accounts.has k = true →
      k < (runOps NewMemoryStore overwriteOps).nextUserID) ∧
    ((runOps NewMemoryStore overwriteOps).CreateUser "Bia" true).2.1.ID = 2 :=
  ⟨⟨by decide, by decide, trivial⟩,
    (user_ids_fresh overwriteOps ⟨by decide, by decide, trivial⟩).1,
    (user_ids_fresh overwriteOps ⟨by decide, by decide, trivial⟩).2.1,
    ((user_ids_fresh overwriteOps ⟨by decide, by decide, trivial⟩).2.2.1 "Bia" true).1⟩

set_option maxRecDepth 8000 in
/-- C29 as stated fails when a seeded id is the largest `int`.  After
`CreateUser("first")` and `SeedUsers` with the id 2^63 - 1 the counter has
wrapped to -2^63, below the two stored ids; after a further `SeedUsers` with
the id 0 the counter is 1 again, and `CreateUser("second")` returns the id 1,
which is the id of the stored user "first", and overwrites that user. -/
theorem user_ids_fresh_counterexample :
    (runOps NewMemoryStore (wrapOps.take 2)).users.has (2 ^ 63 - 1) = true ∧
    (runOps NewMemoryStore (wrapOps.take 2)).users.has 1 = true ∧
    (runOps NewMemoryStore (wrapOps.take 2)).nextUserID = -(2 ^ 63) ∧
    (runOps NewMemoryStore (wrapOps.take 3)).nextUserID = 1 ∧
    (runOps NewMemoryStore (wrapOps.take 3)).users.get 1 =
      some { ID := 1, Name := "first", IsSeller := false } ∧
    ((runOps NewMemoryStore (wrapOps.take 3)).CreateUser "second" false).2.1.ID = 1 ∧
    ((runOps NewMemoryStore (wrapOps.take 3)).CreateUser "second" false).1.users.get 1 =
      some { ID := 1, Name := "second", IsSeller := false } ∧
    runOps NewMemoryStore wrapOps =
      ((runOps NewMemoryStore (wrapOps.take 3)).CreateUser "second" false).1 :=
  ⟨rfl, rfl, rfl, rfl, rfl, rfl, rfl, rfl⟩

/-! ## Accounts and their users -/

theorem has_of_get {V : Type} (m : GoMap Int V) (k : Int) (v : V) (h : m.get k = some v) :
    m.has k = true := by
  unfold GoMap.has
  rw [h]
  rfl

theorem Synced_new : Synced NewMemoryStore := by
  intro k acc h
  simp [NewMemoryStore, GoMap.get] at h

theorem Synced_seedOne (s : MemoryStore) (u : User) (h : Synced s)
    (hu : s.accounts.has u.ID = false) : Synced (s.seedOne u) := by
  obtain ⟨f1, -, f3⟩ := seedOne_frame s u
  intro k acc hk
  rw [f1] at hk
  rw [f3, GoMap.get_set_ne _ _ _ _ (ne_of_has _ _ _ (has_of_get _ _ _ hk) hu)]
  exact h k acc hk

theorem Synced_SeedUsers (users : List User) (s : MemoryStore) (h : Synced s)
    (hu : ∀ u ∈ users, s.accounts.has u.ID = false) : Synced (s.SeedUsers users) := by
  unfold SeedUsers
  induction users generalizing s with
  | nil => exact h
  | cons u t ih =>
    rw [List.foldl_cons]
    refine ih _ (Synced_seedOne s u h (hu u (List.mem_cons_self _ _))) ?_
    intro v hv
    rw [(seedOne_frame s u).1]
    exact hu v (List.mem_cons_of_mem _ hv)

theorem Synced_CreateUser (s : MemoryStore) (name : String) (isSeller : Bool) (hf : Fresh s)
    (h : Synced s) : Synced (s.CreateUser name isSeller).1 := by
  obtain ⟨-, ha⟩ := has_false_of_ge s hf
  intro k acc hk
  have hk1 : s.accounts.get k = some acc := hk
  show (s.users.set s.nextUserID _).get k = _
  rw [GoMap.get_set_ne _ _ _ _ (ne_of_has _ _ _ (has_of_get _ _ _ hk1) ha)]
  exact h k acc hk1

theorem Synced_CreateAccount (s : MemoryStore) (now : Time) (name email pw : String)
    (isSeller : Bool) (hf : Fresh s) (h : Synced s) :
    Synced (s.CreateAccount now name email pw isSeller).1 := by
  obtain ⟨-, ha⟩ := has_false_of_ge s hf
  by_cases hfree : (s.accountByEmail.get (strings.ToLower (strings.TrimSpace email))).isSome = true
  · rw [CreateAccount_taken _ _ _ _ _ _ hfree]
    exact h
  · rw [CreateAccount_free _ _ _ _ _ _ hfree]
    intro k acc hk
    have hk1 : (s.accounts.set s.nextUserID _).get k = some acc := hk
    show (s.users.set s.nextUserID _).get k = _
    by_cases hkn : k = s.nextUserID
    · subst hkn
      rw [GoMap.get_set_self] at hk1 ⊢
      simp only [Option.some.injEq] at hk1
      rw [← hk1]
    · rw [GoMap.get_set_ne _ _ _ _ hkn] at hk1 ⊢
      exact h k acc hk1

theorem Synced_UpdateAvatar (s : MemoryStore) (id : Int) (url : String) (h : Synced s) :
    Synced (s.UpdateAvatar id url).1 := by
  intro k acc hk
  obtain ⟨acc0, h0, e1, e2, e3, -⟩ := UpdateAvatar_accounts s id url k acc hk
  rw [(UpdateAvatar_frame s id url).1, e1, e2, e3]
  exact h k acc0 h0

theorem Synced_apply (s : MemoryStore) (op : Op) (hf : Fresh s) (h : Synced s)
    (h2 : Op.sparesAccounts s op) : Synced (op.apply s) := by
  cases op with
  | seedUsers users => exact Synced_SeedUsers users s h h2
  | createUser name isSeller => exact Synced_CreateUser s name isSeller hf h
  | createAccount now name email pw isSeller =>
    exact Synced_CreateAccount s now name email pw isSeller hf h
  | updateAvatar id url => exact Synced_UpdateAvatar s id url h
  | follow a b =>
    obtain ⟨f1, f2, -, -⟩ := Follow_frame s a b
    intro k acc hk
    have hk1 : (s.Follow a b).1.accounts.get k = some acc := hk
    show (s.Follow a b).1.users.get k = _
    rw [f2] at hk1; rw [f1]; exact h k acc hk1
  | unfollow a b =>
    obtain ⟨f1, f2, -, -⟩ := Unfollow_frame s a b
    intro k acc hk
    have hk1 : (s.Unfollow a b).1.accounts.get k = some acc := hk
    show (s.Unfollow a b).1.users.get k = _
    rw [f2] at hk1; rw [f1]; exact h k acc hk1
  | addPost p =>
    obtain ⟨f1, f2, -, -⟩ := AddPost_frame s p
    intro k acc hk
    have hk1 : (s.AddPost p).1.accounts.get k = some acc := hk
    show (s.AddPost p).1.users.get k = _
    rw [f2] at hk1; rw [f1]; exact h k acc hk1
  | deletePost a b =>
    obtain ⟨f1, f2, -, -⟩ := DeletePost_frame s a b
    intro k acc hk
    have hk1 : (s.DeletePost a b).1.accounts.get k = some acc := hk
    show (s.DeletePost a b).1.users.get k = _
    rw [f2] at hk1; rw [f1]; exact h k acc hk1

theorem Synced_runOps (ops : List Op) (s : MemoryStore) (hf : Fresh s) (h : Synced s)
    (h1 : runAll Op.noOverflow s ops) (h2 : runAll Op.sparesAccounts s ops) :
    Synced (runOps s ops) := by
  unfold runOps
  induction ops generalizing s with
  | nil => exact h
  | cons op t ih =>
    rw [List.foldl_cons]
    exact ih _ (Fresh_apply s op hf h1.1) (Synced_apply s op hf h h2.1) h1.2 h2.2

/-- C23. Accounts and users stay in step when no seeding names the id of an
account: in every state reached from `NewMemoryStore` by calls of the public
operations in which no `SeedUsers` call lists the id of an account stored at
that moment, and none of which takes the user-id counter past the largest
`int`, every stored account is filed under its own id and has a user with the
same id, the same name and the same seller flag. -/
theorem account_user_sync (ops : List Op) (h1 : runAll Op.noOverflow NewMemoryStore ops)
    (h2 : runAll Op.sparesAccounts NewMemoryStore ops) (k : Int) (acc : Account)
    (hacc : (runOps NewMemoryStore ops).accounts.get k = some acc) :
    acc.ID = k ∧
    (runOps NewMemoryStore ops).users.get acc.ID =
      some { ID := acc.ID, Name := acc.Name, IsSeller := acc.IsSeller } := by
  have hs := Synced_runOps ops NewMemoryStore Fresh_new Synced_new h1 h2 k acc hacc
  have hk : acc.ID = k := (WF_runOps ops NewMemoryStore WF_new).userKey k _ hs
  rw [hk] at hs ⊢
  exact ⟨rfl, hs⟩

set_option maxRecDepth 8000 in
theorem account_user_sync_witness :
    runAll Op.noOverflow NewMemoryStore syncOps ∧
    runAll Op.sparesAccounts NewMemoryStore syncOps ∧
    (runOps NewMemoryStore syncOps).accounts.get 1 =
      some { ID := 1, Name := "Ana", Email := "ana@mail.com", IsSeller := false,
             AvatarURL := "ana.png", CreatedAt := 0, PasswordHash := "hash" } ∧
    (runOps NewMemoryStore syncOps).users.get 1 =
      some { ID := 1, Name := "Ana", IsSeller := false } :=
  ⟨⟨by decide, by decide, trivial, trivial⟩, ⟨trivial, by decide, trivial, trivial⟩, rfl,
    (account_user_sync syncOps ⟨by decide, by decide, trivial, trivial⟩
      ⟨trivial, by decide, trivial, trivial⟩ 1
      { ID := 1, Name := "Ana", Email := "ana@mail.com", IsSeller := false,
        AvatarURL := "ana.png", CreatedAt := 0, PasswordHash := "hash" } rfl).2⟩

set_option maxRecDepth 8000 in
/-- C23 as stated fails when `SeedUsers` names the id of an account.  After
`CreateAccount("Ana", "ana@mail.com", "hash", false)` on the new store, which
files the account and its user under id 1, the call `SeedUsers` with the user
(1, "Zed", seller) replaces the user: the account 1 still has the name "Ana"
and is no seller, the user 1 has the name "Zed" and is a seller. -/
theorem account_user_sync_counterexample :
    (runOps NewMemoryStore overwriteOps).accounts.get 1 =
      some { ID := 1, Name := "Ana", Email := "ana@mail.com", IsSeller := false,
             AvatarURL := "", CreatedAt := 0, PasswordHash := "hash" } ∧
    (runOps NewMemoryStore overwriteOps).users.get 1 =
      some { ID := 1, Name := "Zed", IsSeller := true } :=
  ⟨rfl, rfl⟩

/-! ## E-mail addresses up to case and outer white space -/

theorem dropWhile_spaces (l rest : List Char) (hl : l.all strings.isSpace = true) :
    (l ++ rest).dropWhile strings.isSpace = rest.dropWhile strings.isSpace := by
  induction l with
  | nil => rfl
  | cons x t ih =>
    simp only [List.all_cons, Bool.and_eq_true] at hl
    rw [List.cons_append, List.dropWhile_cons_of_pos hl.1]
    exact ih hl.2

theorem dropWhile_all_spaces (l : List Char) (hl : l.all strings.isSpace = true) :
    l.dropWhile strings.isSpace = [] := by
  have := dropWhile_spaces l [] hl
  simpa using this

/-- `TrimSpace` returns the core of a text that is a core between two runs of
white space. -/
theorem TrimSpace_core (e : String) (l c r : List Char) (he : e.data = l ++ c ++ r)
    (hl : l.all strings.isSpace = true) (hr : r.all strings.isSpace = true)
    (hc : noOuterSpace c = true) : strings.TrimSpace e = String.mk c := by
  unfold strings.TrimSpace
  rw [he]
  congr 1
  cases c with
  | nil =>
    have hall : (l ++ [] ++ r).all strings.isSpace = true := by
      simp only [List.append_nil, List.all_append, hl, hr, Bool.and_self]
    rw [dropWhile_all_spaces _ hall]
    rfl
  | cons x xs =>
    unfold noOuterSpace at hc
    simp only [Bool.and_eq_true] at hc
    obtain ⟨h1, h2⟩ := hc
    have hx : strings.isSpace x = false := by
      simpa [Option.all] using h1
    rw [List.append_assoc, dropWhile_spaces _ _ hl, List.cons_append,
      List.dropWhile_cons_of_neg (by simp [hx])]
    rw [← List.cons_append, List.reverse_append]
    have hr2 : r.reverse.all strings.isSpace = true := by
      simpa using hr
    rw [dropWhile_spaces _ _ hr2]
    have hlast : (x :: xs).reverse.head? = (x :: xs).getLast? := List.head?_reverse _
    cases hrev : (x :: xs).reverse with
    | nil => simp at hrev
    | cons y ys =>
      rw [hrev] at hlast
      rw [← hlast] at h2
      have hy : strings.isSpace y = false := by
        simpa [Option.all] using h2
      rw [List.dropWhile_cons_of_neg (by simp [hy]), ← hrev, List.reverse_reverse]

theorem map_toLower_of_sameLetters (c1 c2 : List Char) (h : sameLetters c1 c2 = true) :
    c1.map unicode.ToLower = c2.map unicode.ToLower := by
  induction c1 generalizing c2 with
  | nil =>
    cases c2 with
    | nil => rfl
    | cons b bs => simp [sameLetters] at h
  | cons a as ih =>
    cases c2 with
    | nil => simp [sameLetters] at h
    | cons b bs =>
      simp only [sameLetters, Bool.and_eq_true, beq_iff_eq] at h
      simp only [List.map_cons, h.1, ih bs h.2]

/-- Two variants of an address have the same normal form, the key of the
e-mail index. -/
theorem norm_eq_of_variant (e1 e2 : String) (h : emailVariant e1 e2) :
    strings.ToLower (strings.TrimSpace e1) = strings.ToLower (strings.TrimSpace e2) := by
  obtain ⟨l1, c1, r1, l2, c2, r2, h1, h2, hs, n1, n2, hc⟩ := h
  simp only [List.all_append, Bool.and_eq_true] at hs
  obtain ⟨⟨⟨hl1, hr1⟩, hl2⟩, hr2⟩ := hs
  rw [TrimSpace_core e1 l1 c1 r1 h1 hl1 hr1 n1, TrimSpace_core e2 l2 c2 r2 h2 hl2 hr2 n2]
  unfold strings.ToLower
  simp only [map_toLower_of_sameLetters c1 c2 hc]

/-- An entry of the e-mail index stays as it is under every call. -/
theorem accountByEmail_apply (s : MemoryStore) (op : Op) (key : String) (id : Int)
    (h : s.accountByEmail.get key = some id) : (op.apply s).accountByEmail.get key = some id := by
  cases op with
  | seedUsers users =>
    show (s.SeedUsers users).accountByEmail.get key = some id
    rw [(SeedUsers_frame users s).2]; exact h
  | createUser name isSeller => exact h
  | createAccount now name email pw isSeller =>
    show (s.CreateAccount now name email pw isSeller).1.accountByEmail.get key = some id
    by_cases hfree :
        (s.accountByEmail.get (strings.ToLower (strings.TrimSpace email))).isSome = true
    · rw [CreateAccount_taken _ _ _ _ _ _ hfree]
      exact h
    · rw [CreateAccount_free _ _ _ _ _ _ hfree]
      have hne : key ≠ strings.ToLower (strings.TrimSpace email) := by
        intro e
        rw [← e, h] at hfree
        exact hfree rfl
      show (s.accountByEmail.set _ _).get key = some id
      rw [GoMap.get_set_ne _ _ _ _ hne]
      exact h
  | updateAvatar uid url =>
    show (s.UpdateAvatar uid url).1.accountByEmail.get key = some id
    rw [(UpdateAvatar_frame s uid url).2.1]; exact h
  | follow a b =>
    show (s.Follow a b).1.accountByEmail.get key = some id
    rw [(Follow_frame s a b).2.2.1]; exact h
  | unfollow a b =>
    show (s.Unfollow a b).1.accountByEmail.get key = some id
    rw [(Unfollow_frame s a b).2.2.1]; exact h
  | addPost p =>
    show (s.AddPost p).1.accountByEmail.get key = some id
    rw [(AddPost_frame s p).2.2.1]; exact h
  | deletePost a b =>
    show (s.DeletePost a b).1.accountByEmail.get key = some id
    rw [(DeletePost_frame s a b).2.2.1]; exact h

theorem accountByEmail_runOps (ops : List Op) (s : MemoryStore) (key : String) (id : Int)
    (h : s.accountByEmail.get key = some id) :
    (runOps s ops).accountByEmail.get key = some id := by
  unfold runOps
  induction ops generalizing s with
  | nil => exact h
  | cons op t ih =>
    rw [List.foldl_cons]
    exact ih _ (accountByEmail_apply s op key id h)

/-- What a successful `CreateAccount` leaves behind: the index entry of the
normal form of the address, and the account under its id. -/
theorem CreateAccount_ok (s : MemoryStore) (now : Time) (name email pw : String)
    (isSeller : Bool) (acc : Account)
    (hok : (s.CreateAccount now name email pw isSeller).2 = (some acc, none)) :
    (s.CreateAccount now name email pw isSeller).1.accountByEmail.get
      (strings.ToLower (strings.TrimSpace email)) = some acc.ID ∧
    (s.CreateAccount now name email pw isSeller).1.accounts.get acc.ID = some acc := by
  by_cases hfree : (s.accountByEmail.get (strings.ToLower (strings.TrimSpace email))).isSome = true
  · rw [CreateAccount_taken _ _ _ _ _ _ hfree] at hok
    cases hok
  · rw [CreateAccount_free _ _ _ _ _ _ hfree] at hok ⊢
    simp only [Prod.mk.injEq, Option.some.injEq, and_true] at hok
    subst hok
    exact ⟨GoMap.get_set_self _ _ _, GoMap.get_set_self _ _ _⟩

/-- C22. Email uniqueness up to case and surrounding white space: for every
`MemoryStore` state, if `CreateAccount` succeeded with the address `e` and
created the account `acc`, then for every address `e2` that differs from `e`
only in letter case (of any letters that Unicode pairs as upper and lower
case, not only the ASCII ones) and in leading and trailing white space,
`GetAccountByEmail(e2)` returns `acc`, and after any further calls of the
public operations `CreateAccount` with `e2` returns `ErrEmailTaken` and no
account and leaves the state as it was (no account or user is created, no id
is consumed), and `GetAccountByEmail(e2)` still resolves to the account stored
under the id of `acc`. -/
theorem email_uniqueness (st : MemoryStore) (now : Time) (name e pw : String)
    (isSeller : Bool) (acc : Account)
    (hok : (st.CreateAccount now name e pw isSeller).2 = (some acc, none))
    (e2 : String) (hv : emailVariant e e2) :
    (st.CreateAccount now name e pw isSeller).1.GetAccountByEmail e2 = some acc ∧
    ∀ (ops : List Op) (now2 : Time) (name2 pw2 : String) (isSeller2 : Bool),
      (runOps (st.CreateAccount now name e pw isSeller).1 ops).CreateAccount
          now2 name2 e2 pw2 isSeller2 =
        (runOps (st.CreateAccount now name e pw isSeller).1 ops, none, some Err.ErrEmailTaken) ∧
      (runOps (st.CreateAccount now name e pw isSeller).1 ops).GetAccountByEmail e2 =
        (runOps (st.CreateAccount now name e pw isSeller).1 ops).accounts.get acc.ID := by
  obtain ⟨h1, h2⟩ := CreateAccount_ok st now name e pw isSeller acc hok
  have hn := norm_eq_of_variant e e2 hv
  rw [hn] at h1
  constructor
  · unfold GetAccountByEmail
    rw [h1]
    exact h2
  · intro ops now2 name2 pw2 isSeller2
    have h3 := accountByEmail_runOps ops _ _ _ h1
    constructor
    · exact CreateAccount_taken _ _ _ _ _ _ (by rw [h3]; rfl)
    · unfold GetAccountByEmail
      rw [h3]

set_option maxRecDepth 8000 in
theorem email_uniqueness_witness :
    (NewMemoryStore.CreateAccount 0 "Eva" "ÉVA@Mail.com" "hash" false).2 =
      (some { ID := 1, Name := "Eva", Email := "éva@mail.com", IsSeller := false,
              AvatarURL := "", CreatedAt := 0, PasswordHash := "hash" }, none) ∧
    emailVariant "ÉVA@Mail.com" "  éva@MAIL.com " ∧
    (NewMemoryStore.CreateAccount 0 "Eva" "ÉVA@Mail.com" "hash" false).1.GetAccountByEmail
        "  éva@MAIL.com " =
      some { ID := 1, Name := "Eva", Email := "éva@mail.com", IsSeller := false,
             AvatarURL := "", CreatedAt := 0, PasswordHash := "hash" } ∧
    ((NewMemoryStore.CreateAccount 0 "Eva" "ÉVA@Mail.com" "hash" false).1.CreateAccount
        5 "Eve" "  éva@MAIL.com " "other" true).2 = (none, some Err.ErrEmailTaken) :=
  ⟨rfl,
    ⟨[], "ÉVA@Mail.com".data, [], "  ".data, "éva@MAIL.com".data, " ".data,
      rfl, rfl, rfl, rfl, rfl, rfl⟩,
    (email_uniqueness NewMemoryStore 0 "Eva" "ÉVA@Mail.com" "hash" false _ rfl "  éva@MAIL.com "
      ⟨[], "ÉVA@Mail.com".data, [], "  ".data, "éva@MAIL.com".data, " ".data,
        rfl, rfl, rfl, rfl, rfl, rfl⟩).1,
    congrArg Prod.snd
      ((email_uniqueness NewMemoryStore 0 "Eva" "ÉVA@Mail.com" "hash" false _ rfl
        "  éva@MAIL.com "
        ⟨[], "ÉVA@Mail.com".data, [], "  ".data, "éva@MAIL.com".data, " ".data,
          rfl, rfl, rfl, rfl, rfl, rfl⟩).2 [] 5 "Eve" "other" true).1⟩

/-! ## The listing of the users -/

theorem sorted_by_key_asc {α : Type} (key : α → String) (l : List α) :
    (l.insertionSort (fun a b => stringLess (key b) (key a) = false)).Pairwise
      (fun a b => stringLess (key b) (key a) = false) := by
  haveI : IsTotal α (fun a b => stringLess (key b) (key a) = false) :=
    ⟨fun a b => by
      cases h : stringLess (key b) (key a) with
      | false => exact Or.inl rfl
      | true => exact Or.inr (lessChars_asymm _ _ h)⟩
  haveI : IsTrans α (fun a b => stringLess (key b) (key a) = false) :=
    ⟨fun a b c h1 h2 => by
      cases h : stringLess (key c) (key a) with
      | false => rfl
      | true =>
        rcases lessChars_cotrans _ _ (key b).data h with h3 | h3
        · exact absurd h3 (by simp [stringLess] at h1; simp [h1])
        · exact absurd h3 (by simp [stringLess] at h2; simp [h2])⟩
  exact List.sorted_insertionSort (fun a b : α => stringLess (key b) (key a) = false) l

theorem sorted_by_key_desc {α : Type} (key : α → String) (l : List α) :
    (l.insertionSort (fun a b => stringLess (key a) (key b) = false)).Pairwise
      (fun a b => stringLess (key a) (key b) = false) := by
  haveI : IsTotal α (fun a b => stringLess (key a) (key b) = false) :=
    ⟨fun a b => by
      cases h : stringLess (key a) (key b) with
      | false => exact Or.inl rfl
      | true => exact Or.inr (lessChars_asymm _ _ h)⟩
  haveI : IsTrans α (fun a b => stringLess (key a) (key b) = false) :=
    ⟨fun a b c h1 h2 => by
      cases h : stringLess (key a) (key c) with
      | false => rfl
      | true =>
        rcases lessChars_cotrans _ _ (key b).data h with h3 | h3
        · exact absurd h3 (by simp [stringLess] at h2; simp [h2])
        · exact absurd h3 (by simp [stringLess] at h1; simp [h1])⟩
  exact List.sorted_insertionSort (fun a b : α => stringLess (key a) (key b) = false) l

theorem ListUsers_asc (st : MemoryStore) :
    st.ListUsers "name_asc" = .ok ((st.users.map Prod.snd).insertionSort
      (fun a b => stringLess (strings.ToLower b.Name) (strings.ToLower a.Name) = false)) := by
  unfold ListUsers
  simp only
  rw [if_neg (by decide)]

theorem ListUsers_desc (st : MemoryStore) :
    st.ListUsers "name_desc" = .ok ((st.users.map Prod.snd).insertionSort
      (fun a b => stringLess (strings.ToLower a.Name) (strings.ToLower b.Name) = false)) := by
  unfold ListUsers
  simp only
  rw [if_pos (by decide)]

namespace GoMap
variable {K V : Type} [DecidableEq K]

theorem mem_of_get (m : GoMap K V) (k : K) (v : V) (h : m.get k = some v) : (k, v) ∈ m := by
  induction m with
  | nil => simp [get] at h
  | cons e t ih =>
    obtain ⟨k1, v1⟩ := e
    by_cases h1 : k1 = k
    · simp [get, h1] at h
      simp [h1, h]
    · simp [get, h1] at h
      exact List.mem_cons_of_mem _ (ih h)

theorem get_of_mem (m : GoMap K V) (hn : m.keys.Nodup) (k : K) (v : V) (h : (k, v) ∈ m) :
    m.get k = some v := by
  induction m with
  | nil => simp at h
  | cons e t ih =>
    obtain ⟨k1, v1⟩ := e
    simp only [keys, List.map_cons, List.nodup_cons] at hn
    rcases List.mem_cons.1 h with h1 | h1
    · cases h1
      simp [get]
    · have hk : k ∈ t.map Prod.fst := List.mem_map.2 ⟨(k, v), h1, rfl⟩
      have hne : k1 ≠ k := fun e => hn.1 (e ▸ hk)
      simp only [get, hne, if_false]
      exact ih hn.2 h1

end GoMap

theorem users_keys_apply (s : MemoryStore) (op : Op) (h : s.users.keys.Nodup) :
    (op.apply s).users.keys.Nodup := by
  cases op with
  | seedUsers users =>
    show (s.SeedUsers users).users.keys.Nodup
    unfold SeedUsers
    induction users generalizing s with
    | nil => exact h
    | cons u t ih =>
      rw [List.foldl_cons]
      apply ih
      rw [(seedOne_frame s u).2.2]
      exact GoMap.nodup_keys_set _ _ _ h
  | createUser name isSeller => exact GoMap.nodup_keys_set _ _ _ h
  | createAccount now name email pw isSeller =>
    show (s.CreateAccount now name email pw isSeller).1.users.keys.Nodup
    by_cases hfree :
        (s.accountByEmail.get (strings.ToLower (strings.TrimSpace email))).isSome = true
    · rw [CreateAccount_taken _ _ _ _ _ _ hfree]
      exact h
    · rw [CreateAccount_free _ _ _ _ _ _ hfree]
      exact GoMap.nodup_keys_set _ _ _ h
  | updateAvatar id url =>
    show (s.UpdateAvatar id url).1.users.keys.Nodup
    rw [(UpdateAvatar_frame s id url).1]; exact h
  | follow a b =>
    show (s.Follow a b).1.users.keys.Nodup
    rw [(Follow_frame s a b).1]; exact h
  | unfollow a b =>
    show (s.Unfollow a b).1.users.keys.Nodup
    rw [(Unfollow_frame s a b).1]; exact h
  | addPost p =>
    show (s.AddPost p).1.users.keys.Nodup
    rw [(AddPost_frame s p).1]; exact h
  | deletePost a b =>
    show (s.DeletePost a b).1.users.keys.Nodup
    rw [(DeletePost_frame s a b).1]; exact h

theorem users_keys_nodup (st : MemoryStore) (h : Reachable st) : st.users.keys.Nodup := by
  obtain ⟨ops, rfl⟩ := h
  have : ∀ (ops : List Op) (s : MemoryStore), s.users.keys.Nodup →
      (runOps s ops).users.keys.Nodup := by
    intro ops
    unfold runOps
    induction ops with
    | nil => intro s hs; exact hs
    | cons op t ih =>
      intro s hs
      rw [List.foldl_cons]
      exact ih _ (users_keys_apply s op hs)
  exact this ops _ (by simp [NewMemoryStore, GoMap.keys])

/-- The stored users, each once: a list that is a permutation of the values
of the map of a reachable store has no id twice and holds exactly the stored
users. -/
theorem listed_once (st : MemoryStore) (h : Reachable st) (l : List User)
    (hp : l.Perm (st.users.map Prod.snd)) :
    (l.map (fun u => u.ID)).Nodup ∧ ∀ u, u ∈ l ↔ st.users.get u.ID = some u := by
  have hn := users_keys_nodup st h
  have hkey := h.wf.userKey
  have hmap : (st.users.map Prod.snd).map (fun u => u.ID) = st.users.keys := by
    unfold GoMap.keys
    rw [List.map_map]
    apply List.map_congr_left
    intro e he
    obtain ⟨k, u⟩ := e
    exact hkey k u (GoMap.get_of_mem _ hn k u he)
  constructor
  · have := (hp.map (fun u => u.ID)).nodup_iff
    rw [this, hmap]
    exact hn
  · intro u
    rw [hp.mem_iff]
    constructor
    · intro hu
      obtain ⟨e, he, rfl⟩ := List.mem_map.1 hu
      obtain ⟨k, u⟩ := e
      have hg := GoMap.get_of_mem _ hn k u he
      have hk := hkey k u hg
      show GoMap.get st.users u.ID = some u
      rw [hk]; exact hg
    · intro hu
      exact List.mem_map.2 ⟨(u.ID, u), GoMap.mem_of_get _ _ _ hu, rfl⟩

theorem ValidateOrderForUsers_iff (order : String) :
    ValidateOrderForUsers order = some Err.ErrInvalidOrder ↔
      order ≠ "" ∧ strings.ToLower order ≠ "name_asc" ∧ strings.ToLower order ≠ "name_desc" := by
  unfold ValidateOrderForUsers NameAsc NameDesc
  by_cases h0 : order = ""
  · simp [h0]
  · by_cases h1 : strings.ToLower order = "name_asc"
    · simp [h0, h1]
    · by_cases h2 : strings.ToLower order = "name_desc"
      · simp [h0, h2]
      · simp [h0, h1, h2]

theorem ValidateOrderForUsers_cases (order : String) :
    ValidateOrderForUsers order = none ∨ ValidateOrderForUsers order = some Err.ErrInvalidOrder := by
  unfold ValidateOrderForUsers
  split
  · exact Or.inl rfl
  · split
    · exact Or.inl rfl
    · exact Or.inr rfl

/-- C25. `ListUsers` returns all users sorted by lower-cased name (lowered by
`strings.ToLower`, which lowers every letter of Unicode, and compared in Go's
order of strings): on a reachable `MemoryStore`, `ListUsers("name_asc")`
returns a permutation of the stored users, each once, with lower-cased names
in non-decreasing order, and
`ListUsers("name_desc")` the same with lower-cased names in non-increasing
order; `UserService.ListUsers`, over any store, returns `ErrInvalidOrder`
exactly when `order` is not empty and its lower-cased form is neither
"name_asc" nor "name_desc", and otherwise the store's result. -/
theorem list_users_sorted (st : MemoryStore) (h : Reachable st) :
    (∃ l, st.ListUsers "name_asc" = .ok l ∧ l.Perm (st.users.map Prod.snd) ∧
      (l.map (fun u => u.ID)).Nodup ∧ (∀ u, u ∈ l ↔ st.users.get u.ID = some u) ∧
      l.Pairwise (fun a b =>
        stringLess (strings.ToLower b.Name) (strings.ToLower a.Name) = false)) ∧
    (∃ l, st.ListUsers "name_desc" = .ok l ∧ l.Perm (st.users.map Prod.snd) ∧
      (l.map (fun u => u.ID)).Nodup ∧ (∀ u, u ∈ l ↔ st.users.get u.ID = some u) ∧
      l.Pairwise (fun a b =>
        stringLess (strings.ToLower a.Name) (strings.ToLower b.Name) = false)) ∧
    (∀ (σ : Type) (S : Store σ) (s : σ) (order : String),
      (UserService.ListUsers S s order = .error Err.ErrInvalidOrder ∧
        order ≠ "" ∧ strings.ToLower order ≠ "name_asc" ∧
        strings.ToLower order ≠ "name_desc") ∨
      (UserService.ListUsers S s order = S.ListUsers s order ∧
        (order = "" ∨ strings.ToLower order = "name_asc" ∨
          strings.ToLower order = "name_desc"))) := by
  refine ⟨⟨_, ListUsers_asc st, List.perm_insertionSort _ _, ?_, ?_, ?_⟩,
    ⟨_, ListUsers_desc st, List.perm_insertionSort _ _, ?_, ?_, ?_⟩, ?_⟩
  · exact (listed_once st h _ (List.perm_insertionSort _ _)).1
  · exact (listed_once st h _ (List.perm_insertionSort _ _)).2
  · exact sorted_by_key_asc (fun u : User => strings.ToLower u.Name) _
  · exact (listed_once st h _ (List.perm_insertionSort _ _)).1
  · exact (listed_once st h _ (List.perm_insertionSort _ _)).2
  · exact sorted_by_key_desc (fun u : User => strings.ToLower u.Name) _
  · intro σ S s order
    rcases ValidateOrderForUsers_cases order with hv | hv
    · right
      refine ⟨by unfold UserService.ListUsers; rw [hv], ?_⟩
      by_contra hc
      push_neg at hc
      have := (ValidateOrderForUsers_iff order).2 hc
      rw [hv] at this
      cases this
    · left
      exact ⟨by unfold UserService.ListUsers; rw [hv], (ValidateOrderForUsers_iff order).1 hv⟩

set_option maxRecDepth 8000 in
theorem list_users_sorted_witness :
    Reachable accentStore ∧
    accentStore.users.map Prod.snd =
      [{ ID := 1, Name := "É", IsSeller := false },
       { ID := 2, Name := "à", IsSeller := true }] ∧
    accentStore.ListUsers "name_asc" =
      .ok [{ ID := 2, Name := "à", IsSeller := true },
           { ID := 1, Name := "É", IsSeller := false }] ∧
    (∃ l, accentStore.ListUsers "name_asc" = .ok l ∧
      l.Perm (accentStore.users.map Prod.snd) ∧
      (l.map (fun u => u.ID)).Nodup ∧ (∀ u, u ∈ l ↔ accentStore.users.get u.ID = some u) ∧
      l.Pairwise (fun a b =>
        stringLess (strings.ToLower b.Name) (strings.ToLower a.Name) = false)) ∧
    Reachable listStore ∧
    listStore.ListUsers "name_desc" =
      .ok [{ ID := 2, Name := "Bob", IsSeller := true },
           { ID := 1, Name := "Alice", IsSeller := false }] ∧
    ∃ l, listStore.ListUsers "name_desc" = .ok l ∧ l.Perm (listStore.users.map Prod.snd) ∧
      (l.map (fun u => u.ID)).Nodup ∧ (∀ u, u ∈ l ↔ listStore.users.get u.ID = some u) ∧
      l.Pairwise (fun a b =>
        stringLess (strings.ToLower a.Name) (strings.ToLower b.Name) = false) :=
  ⟨⟨accentOps, rfl⟩, rfl, rfl, (list_users_sorted accentStore ⟨accentOps, rfl⟩).1,
    ⟨listOps, rfl⟩, rfl, (list_users_sorted listStore ⟨listOps, rfl⟩).2.1⟩

set_option maxRecDepth 8000 in
/-- C25 as stated fails for an order that is outside the enum only by its
case.  "NAME_ASC" is none of "name_asc", "name_desc" and "", yet
`UserService.ListUsers("NAME_ASC")` returns the users, not `ErrInvalidOrder`:
the validator lowers the order before it compares. -/
theorem list_users_sorted_counterexample :
    "NAME_ASC" ≠ "name_asc" ∧ "NAME_ASC" ≠ "name_desc" ∧ "NAME_ASC" ≠ "" ∧
    UserService.ListUsers memoryStore listStore "NAME_ASC" =
      .ok [{ ID := 1, Name := "Alice", IsSeller := false },
           { ID := 2, Name := "Bob", IsSeller := true }] :=
  ⟨by decide, by decide, by decide, rfl⟩

/-! ## The two backends on DeletePost -/

/-- The result of `MemoryStore.DeletePost` for a user that exists, by the
first post with the id. -/
theorem DeletePost_eval (st : MemoryStore) (userID postID : Int)
    (hu : st.users.has userID = true) :
    st.DeletePost userID postID =
      match st.posts.find? (fun p => decide (p.PostID = postID)) with
      | none => (st, some Err.ErrPostNotFound)
      | some q =>
        if q.UserID = userID then
          ({ st with posts :=
              st.posts.take (st.posts.findIdx (fun p => decide (p.PostID = postID))) ++
              st.posts.drop (st.posts.findIdx (fun p => decide (p.PostID = postID)) + 1) }, none)
        else (st, some Err.ErrPostForbidden) := by
  have hscan := deleteScan_spec userID postID st.posts 0
  obtain ⟨x, hg⟩ : ∃ x, st.users.get userID = some x := by
    unfold GoMap.has at hu
    exact Option.isSome_iff_exists.1 hu
  unfold DeletePost
  simp only [hg, Option.isNone_some, Bool.false_eq_true, if_false, hscan]
  cases hf : st.posts.find? (fun p => decide (p.PostID = postID)) with
  | none => simp
  | some q =>
    by_cases hown : q.UserID = userID
    · have hidx : ¬ ((0 : Int) + ((st.posts.findIdx (fun p => decide (p.PostID = postID)) : Nat) : Int)
          < 0) := by omega
      simp only [hown, ne_eq, not_true_eq_false, if_false, if_true, hidx]
      have ht : ((0 : Int) + ((st.posts.findIdx (fun p => decide (p.PostID = postID)) : Nat) : Int)).toNat
          = st.posts.findIdx (fun p => decide (p.PostID = postID)) := by omega
      rw [ht]
    · simp [hown]

/-- The result of `SQLStore.DeletePost`, by the rows that the DELETE statement
matches and those it leaves. -/
theorem SQLStore_DeletePost_eval (db : SQLStore) (userID postID : Int)
    (matched rest : List Post)
    (h1 : db.posts.filter (fun p => decide (p.PostID = postID ∧ p.UserID = userID)) = matched)
    (h2 : db.posts.filter (fun p => !decide (p.PostID = postID ∧ p.UserID = userID)) = rest) :
    db.DeletePost userID postID =
      if matched.length = 0 then
        match rest.find? (fun p => decide (p.PostID = postID)) with
        | none => ({ db with posts := rest }, some Err.ErrPostNotFound)
        | some _ => ({ db with posts := rest }, some Err.ErrPostForbidden)
      else ({ db with posts := rest }, none) := by
  unfold SQLStore.DeletePost
  simp only [h1, h2]

/-- Where the backends agree: for a user that exists, on a reachable store and
the database with the same content, `SQLStore.DeletePost` returns the error of
`MemoryStore.DeletePost` and leaves the same posts. -/
theorem DeletePost_backends_agree (st : MemoryStore) (h : Reachable st) (userID postID : Int)
    (hu : st.users.has userID = true) :
    ((sqlOf st).DeletePost userID postID).2 = (st.DeletePost userID postID).2 ∧
    ((sqlOf st).DeletePost userID postID).1.posts = (st.DeletePost userID postID).1.posts := by
  have hnd := h.wf.postIDs
  have f1 : ∀ l : List Post, (∀ r ∈ l, ¬ (r.PostID = postID ∧ r.UserID = userID)) →
      l.filter (fun p => decide (p.PostID = postID ∧ p.UserID = userID)) = [] := by
    intro l hl
    rw [List.filter_eq_nil_iff]
    intro r hr
    simpa using hl r hr
  have f2 : ∀ l : List Post, (∀ r ∈ l, ¬ (r.PostID = postID ∧ r.UserID = userID)) →
      l.filter (fun p => !decide (p.PostID = postID ∧ p.UserID = userID)) = l := by
    intro l hl
    rw [List.filter_eq_self]
    intro r hr
    rw [decide_eq_false (hl r hr)]
    rfl
  rw [DeletePost_eval st userID postID hu]
  cases hf : st.posts.find? (fun p => decide (p.PostID = postID)) with
  | none =>
    have hno : ∀ r ∈ st.posts, ¬ (r.PostID = postID ∧ r.UserID = userID) := by
      intro r hr hc
      have := List.find?_eq_none.1 hf r hr
      simp [hc.1] at this
    rw [SQLStore_DeletePost_eval (sqlOf st) userID postID [] st.posts (f1 _ hno) (f2 _ hno)]
    simp only [List.length_nil, if_true, hf]
    constructor <;> first | rfl | trivial
  | some q =>
    have huniq : ∀ r ∈ st.posts, r.PostID = postID → r = q := by
      intro r hr hid
      have := find_of_nodup st.posts postID hnd r hr hid
      rw [hf] at this
      exact (Option.some.inj this).symm
    obtain ⟨hsplit, hq⟩ := find_split st.posts _ q hf
    have hqid : q.PostID = postID := by simpa using hq
    by_cases hown : q.UserID = userID
    · have hnd2 := hnd
      rw [hsplit, List.map_append, List.map_cons] at hnd2
      have hl1 : ∀ r ∈ st.posts.take (st.posts.findIdx (fun p => decide (p.PostID = postID))),
          ¬ (r.PostID = postID ∧ r.UserID = userID) := by
        intro r hr hc
        have hd := (List.nodup_append.1 hnd2).2.2
        exact hd (List.mem_map.2 ⟨r, hr, rfl⟩)
          (by
            show r.PostID ∈ q.PostID :: _
            rw [hc.1, hqid]
            exact List.mem_cons_self _ _)
      have hl2 : ∀ r ∈ st.posts.drop (st.posts.findIdx (fun p => decide (p.PostID = postID)) + 1),
          ¬ (r.PostID = postID ∧ r.UserID = userID) := by
        intro r hr hc
        have hd := (List.nodup_cons.1 (List.nodup_append.1 hnd2).2.1).1
        apply hd
        have hqr : q.PostID = r.PostID := hqid.trans hc.1.symm
        rw [hqr]
        exact List.mem_map.2 ⟨r, hr, rfl⟩
      have hdq : decide (q.PostID = postID ∧ q.UserID = userID) = true := by
        simp [hqid, hown]
      have h1 : (sqlOf st).posts.filter
          (fun p => decide (p.PostID = postID ∧ p.UserID = userID)) = [q] := by
        show st.posts.filter _ = [q]
        conv_lhs => rw [hsplit]
        rw [List.filter_append, List.filter_cons, f1 _ hl1, f1 _ hl2, if_pos hdq]
        rfl
      have h2 : (sqlOf st).posts.filter
          (fun p => !decide (p.PostID = postID ∧ p.UserID = userID))
          = st.posts.take (st.posts.findIdx (fun p => decide (p.PostID = postID))) ++
            st.posts.drop (st.posts.findIdx (fun p => decide (p.PostID = postID)) + 1) := by
        show st.posts.filter _ = _
        conv_lhs => rw [hsplit]
        rw [List.filter_append, List.filter_cons, f2 _ hl1, f2 _ hl2, if_neg (by simp [hdq])]
      rw [SQLStore_DeletePost_eval (sqlOf st) userID postID _ _ h1 h2]
      simp only [List.length_singleton, one_ne_zero, if_false, hown, if_true]
      constructor <;> first | rfl | trivial
    · have hno : ∀ r ∈ st.posts, ¬ (r.PostID = postID ∧ r.UserID = userID) := by
        intro r hr hc
        have := huniq r hr hc.1
        subst this
        exact hown hc.2
      rw [SQLStore_DeletePost_eval (sqlOf st) userID postID [] st.posts (f1 _ hno) (f2 _ hno)]
      simp only [List.length_nil, if_true, hf, hown, if_false]
      constructor <;> first | rfl | trivial

set_option maxRecDepth 8000 in
/-- C27. The two backends disagree on `DeletePost` for a user that does not
exist.  On the store with the users 1, 2, 3 and the posts 1 (of user 2),
2 (of user 3) and 3 (of user 2), and the database holding the same users and
posts: `DeletePost(999, 1)` returns `ErrUserNotFound` from `MemoryStore` and
`ErrPostForbidden` from `SQLStore`; `DeletePost(999, 42)` returns
`ErrUserNotFound` from `MemoryStore` and `ErrPostNotFound` from `SQLStore`.
Neither call removes a post. -/
theorem delete_post_backends_disagree :
    postStore.users.has 999 = false ∧
    (sqlOf postStore).users.all (fun u => decide (u.ID ≠ 999)) = true ∧
    (postStore.DeletePost 999 1).2 = some Err.ErrUserNotFound ∧
    ((sqlOf postStore).DeletePost 999 1).2 = some Err.ErrPostForbidden ∧
    (postStore.DeletePost 999 42).2 = some Err.ErrUserNotFound ∧
    ((sqlOf postStore).DeletePost 999 42).2 = some Err.ErrPostNotFound ∧
    (postStore.DeletePost 999 1).1 = postStore ∧
    ((sqlOf postStore).DeletePost 999 1).1 = sqlOf postStore :=
  ⟨rfl, rfl, rfl, rfl, rfl, rfl, rfl, rfl⟩

/-! ## Pagination -/

/-- Where `paginateSlice` is right: for `page >= 1` and `limit >= 1` whose
product `page * limit` is an `int`, the call returns the `limit` items from
the index `(page - 1) * limit` on (fewer at the end of the list, none beyond
it), the total, and the ceiling of `total / limit`. -/
theorem paginateSlice_in_range {T : Type} (undef : Int) (items : List T) (page limit : Int)
    (hp : 1 ≤ page) (hl : 1 ≤ limit) (hno : (page - 1) * limit + limit < 2 ^ 63) :
    paginateSlice undef items page limit =
      some ((items.drop ((page - 1) * limit).toNat).take limit.toNat,
        { Page := page, Limit := limit, Total := (items.length : Int),
          TotalPages := -(Int.fdiv (-(items.length : Int)) limit) }) := by
  have hp0 : 0 ≤ (page - 1) * limit := mul_nonneg (by omega) (by omega)
  generalize hpe : (page - 1) * limit = p at hp0 hno
  have hw1 : wrapInt64 p = p := by unfold wrapInt64; omega
  have hl0 : ¬ limit ≤ 0 := by omega
  have hl1 : ¬ limit = 0 := by omega
  unfold paginateSlice totalPagesOf
  simp only [hl0, hl1, if_false, hpe, hw1]
  by_cases hgt : p > (items.length : Int)
  · have hw2 : wrapInt64 ((items.length : Int) + limit) = (items.length : Int) + limit := by
      unfold wrapInt64; omega
    have hend : (items.length : Int) + limit > (items.length : Int) := by omega
    simp only [hgt, if_true, hw2, hend]
    rw [if_pos (by omega)]
    have hd : items.drop p.toNat = [] := List.drop_eq_nil_of_le (by omega)
    simp [hd]
  · have hw2 : wrapInt64 (p + limit) = p + limit := by
      unfold wrapInt64; omega
    simp only [hgt, if_false, hw2]
    by_cases hend : p + limit > (items.length : Int)
    · simp only [hend, if_true]
      rw [if_pos (by omega)]
      have hlen : (items.drop p.toNat).length = ((items.length : Int) - p).toNat := by
        rw [List.length_drop]; omega
      rw [List.take_of_length_le (by omega), List.take_of_length_le (by omega)]
    · simp only [hend, if_false]
      rw [if_pos (by omega)]
      have : (p + limit - p).toNat = limit.toNat := by omega
      rw [this]

set_option maxRecDepth 8000 in
/-- C28. The product `(page - 1) * limit` of `paginateSlice` overflows.  For
the three items 1, 2, 3, `page = 2^62 + 1` and `limit = 2` the product wraps
to -2^63 and the slice expression panics; for the five items 1..5,
`page = 2^62 + 1` and `limit = 4` the product wraps to 0 and the call returns
the first page 1, 2, 3, 4 where the claim has the empty list
(`(page - 1) * limit >= len(items)`). -/
theorem paginate_overflow :
    wrapInt64 ((2 ^ 62 + 1 - 1) * 2) = -(2 ^ 63) ∧
    paginateSlice 0 [1, 2, 3] (2 ^ 62 + 1) 2 = none ∧
    wrapInt64 ((2 ^ 62 + 1 - 1) * 4) = 0 ∧
    paginateSlice 0 [1, 2, 3, 4, 5] (2 ^ 62 + 1) 4 =
      some ([1, 2, 3, 4], { Page := 2 ^ 62 + 1, Limit := 4, Total := 5, TotalPages := 2 }) :=
  ⟨rfl, rfl, rfl, rfl⟩

/-! ## The order string of ListUsers -/

/-- The store sorts descending for the order "name_desc" written exactly so,
and ascending for every other order. -/
theorem ListUsers_other (st : MemoryStore) (order : String) (h : order ≠ "name_desc") :
    st.ListUsers order = st.ListUsers "name_asc" := by
  unfold ListUsers NameDesc
  simp only
  rw [if_neg h, if_neg (by decide)]

set_option maxRecDepth 8000 in
/-- C30. The validator and the store read the order string differently.
`ValidateOrderForUsers("NAME_DESC")` accepts, since it lowers the string to
"name_desc"; `MemoryStore.ListUsers` compares the string as given with
"name_desc", finds them different and sorts ascending.  With the users "Alice"
and "Bob", `UserService.ListUsers("NAME_DESC")` returns Alice before Bob, where
`ListUsers("name_desc")` and `SortUsersByName` with "NAME_DESC" put Bob first. -/
theorem list_users_order_case :
    ValidateOrderForUsers "NAME_DESC" = none ∧
    strings.ToLower "NAME_DESC" = NameDesc ∧
    UserService.ListUsers memoryStore listStore "NAME_DESC" =
      .ok [{ ID := 1, Name := "Alice", IsSeller := false },
           { ID := 2, Name := "Bob", IsSeller := true }] ∧
    UserService.ListUsers memoryStore listStore "name_desc" =
      .ok [{ ID := 2, Name := "Bob", IsSeller := true },
           { ID := 1, Name := "Alice", IsSeller := false }] ∧
    SortUsersByName
        [{ ID := 1, Name := "Alice", IsSeller := false },
         { ID := 2, Name := "Bob", IsSeller := true }] "NAME_DESC" =
      [{ ID := 2, Name := "Bob", IsSeller := true },
       { ID := 1, Name := "Alice", IsSeller := false }] :=
  ⟨rfl, rfl, rfl, rfl, rfl⟩

end SocialMeli
